import Mathlib

/-!
Keccak-256 (`keccak256.c`): shallow embedding and verified properties.

The C code is embedded as pure Lean functions.

* `uint64_t` values are natural numbers below `2 ^ 64`, `unsigned` values are natural numbers
  below `2 ^ 32`, `uint8_t` values are natural numbers below `2 ^ 8`; wherever an operation of the
  source can leave that range the reduction `% 2 ^ w` is written out.
* The state `uint64_t s[25]` is a `List Nat`; `lane s i` reads `s[i]` and `List.set` writes it.
* An input buffer `(bufIn, len)` is a `List Nat` of length `len`; every read of a buffer element
  goes through `% 256`, the value range of `uint8_t`.
* `for` and `while` loops are folds or structural recursions with the loop variables of the source.
* A PHP string is a list of C `char`s; one `Char` stands for one `char` of the string.
-/

namespace Keccak256

/-! ## Permutation -/

/-- The number of 64-bit words of the sponge: `((1600)/8)/sizeof(uint64_t)`. -/
def SHA3_KECCAK_SPONGE_WORDS : Nat := ((1600) / 8) / 8

/-- The macro `SHA3_ROTL64(x, y)`: `((x) << (y)) | ((x) >> ((sizeof(uint64_t)*8) - (y)))`
on `uint64_t`. -/
def SHA3_ROTL64 (x y : Nat) : Nat :=
  ((x <<< y) % 2 ^ 64) ||| (x >>> (8 * 8 - y))

/-- The table `keccakf_rndc[24]`. -/
def keccakf_rndc : List Nat := [
  0x0000000000000001, 0x0000000000008082,
  0x800000000000808a, 0x8000000080008000,
  0x000000000000808b, 0x0000000080000001,
  0x8000000080008081, 0x8000000000008009,
  0x000000000000008a, 0x0000000000000088,
  0x0000000080008009, 0x000000008000000a,
  0x000000008000808b, 0x800000000000008b,
  0x8000000000008089, 0x8000000000008003,
  0x8000000000008002, 0x8000000000000080,
  0x000000000000800a, 0x800000008000000a,
  0x8000000080008081, 0x8000000000008080,
  0x0000000080000001, 0x8000000080008008]

/-- The table `keccakf_rotc[24]`. -/
def keccakf_rotc : List Nat := [
  1, 3, 6, 10, 15, 21, 28, 36, 45, 55, 2, 14, 27, 41, 56, 8, 25, 43, 62,
  18, 39, 61, 20, 44]

/-- The table `keccakf_piln[24]`. -/
def keccakf_piln : List Nat := [
  10, 7, 11, 17, 18, 3, 5, 16, 8, 21, 24, 4, 15, 23, 19, 13, 12, 2, 20,
  14, 22, 9, 6, 1]

/-- Array read `s[i]`. -/
def lane (s : List Nat) (i : Nat) : Nat := s.getD i 0

/-- Bitwise complement `~x` of a `uint64_t`. -/
def not64 (x : Nat) : Nat := (2 ^ 64 - 1) ^^^ x

/-- The Theta step of one round of `keccakf`:
`for i < 5: bc[i] = s[i] ^ s[i+5] ^ s[i+10] ^ s[i+15] ^ s[i+20];`
`for i < 5: t = bc[(i+4)%5] ^ ROTL64(bc[(i+1)%5], 1); for j in 0,5,..,20: s[j+i] ^= t;`. -/
def keccakf_theta (s : List Nat) : List Nat :=
  let bc := (List.range 5).map fun i =>
    lane s i ^^^ lane s (i + 5) ^^^ lane s (i + 10) ^^^ lane s (i + 15) ^^^ lane s (i + 20)
  (List.range 5).foldl (fun s i =>
    let t := lane bc ((i + 4) % 5) ^^^ SHA3_ROTL64 (lane bc ((i + 1) % 5)) 1
    [0, 5, 10, 15, 20].foldl (fun s j => s.set (j + i) (lane s (j + i) ^^^ t)) s) s

/-- One iteration `i` of the Rho Pi loop on the pair `(s, t)`:
`j = keccakf_piln[i]; bc[0] = s[j]; s[j] = ROTL64(t, keccakf_rotc[i]); t = bc[0];`. -/
def keccakf_rhoPi_step (st : List Nat × Nat) (i : Nat) : List Nat × Nat :=
  let j := lane keccakf_piln i
  let bc0 := lane st.1 j
  (st.1.set j (SHA3_ROTL64 st.2 (lane keccakf_rotc i)), bc0)

/-- The Rho Pi step of one round of `keccakf`: `t = s[1]; for i < 24: ...`. -/
def keccakf_rhoPi (s : List Nat) : List Nat :=
  ((List.range 24).foldl keccakf_rhoPi_step (s, lane s 1)).1

/-- The Chi step of one round of `keccakf`:
`for j in 0,5,..,20: for i < 5: bc[i] = s[j+i];`
`for i < 5: s[j+i] ^= (~bc[(i+1)%5]) & bc[(i+2)%5];`. -/
def keccakf_chi (s : List Nat) : List Nat :=
  [0, 5, 10, 15, 20].foldl (fun s j =>
    let bc := (List.range 5).map fun i => lane s (j + i)
    (List.range 5).foldl (fun s i =>
      s.set (j + i)
        (lane s (j + i) ^^^ (not64 (lane bc ((i + 1) % 5)) &&& lane bc ((i + 2) % 5)))) s) s

/-- The Iota step of round `round`: `s[0] ^= keccakf_rndc[round];`. -/
def keccakf_iota (round : Nat) (s : List Nat) : List Nat :=
  s.set 0 (lane s 0 ^^^ lane keccakf_rndc round)

/-- The body of the round loop of `keccakf`. -/
def keccakf_round (s : List Nat) (round : Nat) : List Nat :=
  keccakf_iota round (keccakf_chi (keccakf_rhoPi (keccakf_theta s)))

/-- The constant `KECCAK_ROUNDS`. -/
def KECCAK_ROUNDS : Nat := 24

/-- The function `keccakf`: `for(round = 0; round < KECCAK_ROUNDS; round++) ...`.
It is marked irreducible so that unification never expands the 24 rounds on a symbolic state;
`unfold keccakf` exposes the loop. -/
@[irreducible] def keccakf (s : List Nat) : List Nat :=
  (List.range KECCAK_ROUNDS).foldl keccakf_round s

/-! ## Sponge -/

/-- The struct `sha3_context`. The byte view `sb` of the union is produced by `sha3_Finalize`. -/
structure sha3_context where
  /-- Field `uint64_t saved`. -/
  saved : Nat
  /-- Field `uint64_t s[SHA3_KECCAK_SPONGE_WORDS]`. -/
  s : List Nat
  /-- Field `unsigned byteIndex`. -/
  byteIndex : Nat
  /-- Field `unsigned wordIndex`. -/
  wordIndex : Nat
  /-- Field `unsigned capacityWords`. -/
  capacityWords : Nat
deriving DecidableEq, Repr

/-- The function `sha3_Init256`: `memset(ctx, 0, sizeof(*ctx));`
`ctx->capacityWords = 2 * 256 / (8 * sizeof(uint64_t));`. -/
def sha3_Init256 : sha3_context :=
  { saved := 0
    s := List.replicate SHA3_KECCAK_SPONGE_WORDS 0
    byteIndex := 0
    wordIndex := 0
    capacityWords := 2 * 256 / (8 * 8) }

/-- The expression `SHA3_KECCAK_SPONGE_WORDS - ctx->capacityWords`, computed in `size_t`
(64 bits). -/
def rateWords (ctx : sha3_context) : Nat :=
  (2 ^ 64 + SHA3_KECCAK_SPONGE_WORDS - ctx.capacityWords) % 2 ^ 64

/-- The loop `while (n--) ctx->saved |= (uint64_t) (*(buf++)) << ((ctx->byteIndex++) * 8);`
run over the `n` bytes it consumes. -/
def storeBytes (ctx : sha3_context) : List Nat → sha3_context
  | [] => ctx
  | b :: buf =>
    storeBytes
      { ctx with
        saved := ctx.saved ||| ((b % 256) <<< (ctx.byteIndex * 8)) % 2 ^ 64
        byteIndex := (ctx.byteIndex + 1) % 2 ^ 32 } buf

/-- The statements `ctx->s[ctx->wordIndex] ^= t;`
`if(++ctx->wordIndex == (SHA3_KECCAK_SPONGE_WORDS - ctx->capacityWords))`
`{ keccakf(ctx->s); ctx->wordIndex = 0; }`, which occur twice in `sha3_Update`. -/
def xorWord (ctx : sha3_context) (t : Nat) : sha3_context :=
  let s := ctx.s.set ctx.wordIndex (lane ctx.s ctx.wordIndex ^^^ t)
  let wordIndex := (ctx.wordIndex + 1) % 2 ^ 32
  if wordIndex = rateWords ctx then
    { ctx with s := keccakf s, wordIndex := 0 }
  else
    { ctx with s := s, wordIndex := wordIndex }

/-- Buffer read `(uint64_t) (buf[i])`. -/
def bufAt (buf : List Nat) (i : Nat) : Nat := buf.getD i 0 % 256

/-- The word `t` read in the `for` loop of `sha3_Update`:
`(uint64_t) (buf[0]) | ((uint64_t) (buf[1]) << 8 * 1) | ... | ((uint64_t) (buf[7]) << 8 * 7)`. -/
def loadWord (buf : List Nat) : Nat :=
  bufAt buf 0 |||
    (bufAt buf 1 <<< (8 * 1)) |||
    (bufAt buf 2 <<< (8 * 2)) |||
    (bufAt buf 3 <<< (8 * 3)) |||
    (bufAt buf 4 <<< (8 * 4)) |||
    (bufAt buf 5 <<< (8 * 5)) |||
    (bufAt buf 6 <<< (8 * 6)) |||
    (bufAt buf 7 <<< (8 * 7))

/-- The loop `for(i = 0; i < words; i++, buf += sizeof(uint64_t))` of `sha3_Update`. -/
def absorbWords (ctx : sha3_context) (buf : List Nat) : Nat → sha3_context
  | 0 => ctx
  | words + 1 =>
    let t := loadWord buf
    absorbWords (xorWord ctx t) (buf.drop 8) words

/-- The function `sha3_Update(priv, bufIn, len)` with `len = bufIn.length`. -/
def sha3_Update (ctx : sha3_context) (bufIn : List Nat) : sha3_context :=
  let old_tail := ((2 ^ 32 + 8 - ctx.byteIndex) % 2 ^ 32) &&& 7
  let len := bufIn.length
  if len < old_tail then
    storeBytes ctx bufIn
  else
    let ctx1 :=
      if old_tail ≠ 0 then
        let c := storeBytes ctx (bufIn.take old_tail)
        xorWord { c with byteIndex := 0, saved := 0 } c.saved
      else ctx
    let buf := bufIn.drop old_tail
    let len := len - old_tail
    let words := len / 8
    let tail := len - words * 8
    let ctx2 := absorbWords ctx1 buf words
    storeBytes ctx2 ((buf.drop (words * 8)).take tail)

/-- The state `ctx->s` at the end of the first part of `sha3_Finalize`, after
`ctx->s[ctx->wordIndex] ^= (ctx->saved ^ ((uint64_t) 1 << (ctx->byteIndex * 8)));`
`ctx->s[SHA3_KECCAK_SPONGE_WORDS - ctx->capacityWords - 1] ^= 0x8000000000000000UL;`
and before `keccakf(ctx->s)`. -/
def sha3_Finalize_padded (ctx : sha3_context) : List Nat :=
  let s1 := ctx.s.set ctx.wordIndex
    (lane ctx.s ctx.wordIndex ^^^ (ctx.saved ^^^ (1 <<< (ctx.byteIndex * 8)) % 2 ^ 64))
  let k := (2 ^ 64 + SHA3_KECCAK_SPONGE_WORDS - ctx.capacityWords - 1) % 2 ^ 64
  s1.set k (lane s1 k ^^^ 0x8000000000000000)

/-- The state `ctx->s` of `sha3_Finalize` after `keccakf(ctx->s)`. -/
def sha3_Finalize_state (ctx : sha3_context) : List Nat :=
  keccakf (sha3_Finalize_padded ctx)

/-- The eight bytes written to `ctx->sb[i * 8 + 0 .. i * 8 + 7]` from the word `w = ctx->s[i]`
by the conversion loop of `sha3_Finalize`. -/
def laneBytes (w : Nat) : List Nat :=
  let t1 := w % 2 ^ 32
  let t2 := ((w >>> 16) >>> 16) % 2 ^ 32
  [t1 % 256, (t1 >>> 8) % 256, (t1 >>> 16) % 256, (t1 >>> 24) % 256,
   t2 % 256, (t2 >>> 8) % 256, (t2 >>> 16) % 256, (t2 >>> 24) % 256]

/-- The function `sha3_Finalize`: the returned byte array `ctx->sb` (200 bytes). -/
def sha3_Finalize (ctx : sha3_context) : List Nat :=
  let s := sha3_Finalize_state ctx
  (List.range SHA3_KECCAK_SPONGE_WORDS).flatMap fun i => laneBytes (lane s i)

/-! ## PHP function -/

/-- The helper `is_hex_char`. -/
def is_hex_char (c : Char) : Bool :=
  ('0' ≤ c && c ≤ '9') ||
  ('A' ≤ c && c ≤ 'F') ||
  ('a' ≤ c && c ≤ 'f')

/-- The helper `hex_char_to_value`, returning an `unsigned char`. -/
def hex_char_to_value (c : Char) : Nat :=
  if '0' ≤ c ∧ c ≤ '9' then
    (c.toNat - ('0').toNat) % 256
  else if 'A' ≤ c ∧ c ≤ 'F' then
    (c.toNat - ('A').toNat + 10) % 256
  else if 'a' ≤ c ∧ c ≤ 'f' then
    (c.toNat - ('a').toNat + 10) % 256
  else 0

/-- The exception thrown by `zend_throw_exception(spl_ce_InvalidArgumentException, msg, 0)`.
Allocation with `emalloc` and `zend_string_alloc` is taken to succeed, so the two
`zend_ce_error_exception` branches are not part of the embedding. -/
inductive PhpException where
  | InvalidArgumentException (msg : String)
deriving DecidableEq, Repr

deriving instance DecidableEq for Except

/-- Array read `input_str[i]`. -/
def charAt (input_str : List Char) (i : Nat) : Char := input_str.getD i (Char.ofNat 0)

/-- The hex digit written for a nibble: `(n < 10) ? (n + '0') : (n - 10 + 'a')`. -/
def nibbleChar (n : Nat) : Char :=
  if n < 10 then Char.ofNat (n + ('0').toNat) else Char.ofNat (n - 10 + ('a').toNat)

/-- The two characters `result_str[i * 2]`, `result_str[i * 2 + 1]` written for the byte
`b = hash[i]`: `high_nibble = (b & 0xF0) >> 4; low_nibble = b & 0x0F;` as `unsigned char`. -/
def hexPair (b : Nat) : List Char :=
  let high_nibble := ((b &&& 0xF0) >>> 4) % 256
  let low_nibble := (b &&& 0x0F) % 256
  [nibbleChar high_nibble, nibbleChar low_nibble]

/-- The loop `for (i = 0; i < 32; i++)` of `PHP_FUNCTION(keccak256)` that converts the first
32 bytes of `hash` to hex. -/
def hashToHex (hash : List Nat) : List Char :=
  (List.range 32).flatMap fun i => hexPair (lane hash i)

/-- The loop of `PHP_FUNCTION(keccak256)` that converts the hex string to `binary_len` bytes. -/
def hexToBinary (input_str : List Char) (binary_len : Nat) : List Nat :=
  (List.range binary_len).map fun i =>
    let high_nibble := hex_char_to_value (charAt input_str (i * 2))
    let low_nibble := hex_char_to_value (charAt input_str (i * 2 + 1))
    ((high_nibble <<< 4) ||| low_nibble) % 256

/-- The function `PHP_FUNCTION(keccak256)` on the string argument `input_str`. The value
`binary_data` is `none` for the `NULL` pointer. -/
def keccak256 (input_str : String) : Except PhpException String :=
  let input := input_str.data
  let input_len := input.length
  let decoded : Except PhpException (Option (List Nat)) :=
    if input_len = 0 then
      .ok none
    else if input_len % 2 ≠ 0 then
      .error (.InvalidArgumentException "Input must be even-length hex string")
    else if input.any fun c => !is_hex_char c then
      .error (.InvalidArgumentException "Input contains non-hexadecimal characters")
    else
      .ok (some (hexToBinary input (input_len / 2)))
  match decoded with
  | .error e => .error e
  | .ok binary_data =>
    let c := sha3_Init256
    let c :=
      match binary_data with
      | some data => if data.length > 0 then sha3_Update c data else c
      | none => c
    let hash := sha3_Finalize c
    .ok (String.mk (hashToHex hash))

/-! ## Definitions used to state the properties -/

/-- The cursor invariant of a context: fewer than eight bytes are buffered, the word cursor is
inside the rate, and `saved` holds no bits at or above byte position `byteIndex`. -/
def CursorInv (ctx : sha3_context) : Prop :=
  ctx.byteIndex < 8 ∧
  ctx.wordIndex < SHA3_KECCAK_SPONGE_WORDS - ctx.capacityWords ∧
  ctx.saved < 2 ^ (8 * ctx.byteIndex)

/-- Absorption of a single input byte: the byte is stored into `saved`, and a completed word is
XORed into the state as `sha3_Update` does after its first `while` loop. -/
def absorbByte (ctx : sha3_context) (b : Nat) : sha3_context :=
  let c := storeBytes ctx [b]
  if c.byteIndex = 8 then xorWord { c with byteIndex := 0, saved := 0 } c.saved else c

/-- The contexts that `sha3_Init256` followed by any number of `sha3_Update` calls can produce. -/
inductive Reachable : sha3_context → Prop
  | init : Reachable sha3_Init256
  | update (ctx : sha3_context) (buf : List Nat) : Reachable ctx → Reachable (sha3_Update ctx buf)

/-- XOR of `n` consecutive little-endian words of `buf` into the lanes `w, w + 1, ...` of `s`,
without any permutation. -/
def xorWordsAt (s : List Nat) (w : Nat) (buf : List Nat) : Nat → List Nat
  | 0 => s
  | n + 1 => xorWordsAt (s.set w (lane s w ^^^ loadWord buf)) (w + 1) (buf.drop 8) n

/-- Sponge absorption of `k` whole blocks of `rate` words (`8 * rate` bytes): every block is
XORed into the first `rate` lanes and the permutation `keccakf` is applied once to the result. -/
def absorbBlocks (rate : Nat) (s : List Nat) (buf : List Nat) : Nat → List Nat
  | 0 => s
  | k + 1 => absorbBlocks rate (keccakf (xorWordsAt s 0 buf rate)) (buf.drop (8 * rate)) k

/-- The characters `[0-9A-Fa-f]`. -/
def hexChars : List Char := "0123456789ABCDEFabcdef".data

/-- The lowercase hexadecimal digits, in the order of their values. -/
def lowerHexDigits : List Char := "0123456789abcdef".data

/-- The published lane walk of the Rho and Pi steps: `(x_0, y_0) = (1, 0)` and
`(x_{t+1}, y_{t+1}) = (y_t, (2 * x_t + 3 * y_t) mod 5)`. -/
def piWalk : Nat → Nat × Nat
  | 0 => (1, 0)
  | t + 1 => ((piWalk t).2, (2 * (piWalk t).1 + 3 * (piWalk t).2) % 5)

/-- The lane `p_t` read by iteration `t` of the Rho Pi loop according to the claim:
`p_0 = 1` and `p_t = keccakf_piln[t - 1]`. -/
def rhoPiRead (t : Nat) : Nat :=
  if t = 0 then 1 else lane keccakf_piln (t - 1)

/-- One step of the Keccak round-constant LFSR with polynomial `x^8 + x^6 + x^5 + x^4 + 1`
on the 8-bit state `R`: shift left, and reduce by the polynomial (`0x171`) on overflow. -/
def lfsrStep (R : Nat) : Nat :=
  if (R <<< 1) &&& 0x100 ≠ 0 then (R <<< 1) ^^^ 0x171 else R <<< 1

/-- The output bit `rc(t)` of the Keccak LFSR started from `1`: the lowest bit of the state
after `t` steps. -/
def rc (t : Nat) : Bool :=
  (lfsrStep^[t] 1).testBit 0

/-- The column parity `bc[i]` that Theta computes from the state `s`:
`s[i] ^ s[i + 5] ^ s[i + 10] ^ s[i + 15] ^ s[i + 20]`. -/
def columnParity (s : List Nat) (i : Nat) : Nat :=
  lane s i ^^^ lane s (i + 5) ^^^ lane s (i + 10) ^^^ lane s (i + 15) ^^^ lane s (i + 20)

/-- The lane whose rotated content the Rho Pi step stores into lane `j`: `p_t` when
`j = keccakf_piln[t]`, and `j` itself when `j` does not occur in `keccakf_piln`. -/
def rhoPiSource (j : Nat) : Nat :=
  if j ∈ keccakf_piln then rhoPiRead (keccakf_piln.indexOf j) else j

/-- The rotation amount applied to the content stored into lane `j = keccakf_piln[t]`:
`keccakf_rotc[t]`. -/
def rhoPiRot (j : Nat) : Nat :=
  lane keccakf_rotc (keccakf_piln.indexOf j)

/-- A state with 25 different small lanes, `s[i] = i + 1`. -/
def probeState : List Nat := (List.range 25).map fun i => i + 1

/-- Little-endian packing of a list of bytes: byte `k` of the result is the `k`-th element. -/
def packLE : List Nat → Nat
  | [] => 0
  | b :: l => b % 256 + 256 * packLE l

/-- The padding block `0x01 || 0x00* || 0x80` of `n` bytes; it is the single byte `0x81` when
`n = 1`. -/
def padBlock (n : Nat) : List Nat :=
  if n = 1 then [0x81] else 0x01 :: (List.replicate (n - 2) 0 ++ [0x80])

/-- The number of bytes missing in the context `ctx` up to the next multiple of the rate in
bytes, `8 * (25 - capacityWords)`. -/
def padLength (ctx : sha3_context) : Nat :=
  8 * (SHA3_KECCAK_SPONGE_WORDS - ctx.capacityWords) - (8 * ctx.wordIndex + ctx.byteIndex)

/-- A state of the permutation: 25 lanes, each a 64-bit value. -/
def StateOk (s : List Nat) : Prop :=
  s.length = 25 ∧ ∀ x ∈ s, x < 2 ^ 64

/-- The map that sends the five column-parity bits at bit position `k` to the five bits at
position `k - 1` for a state difference that Theta maps to zero. -/
def thetaBack (v : Bool × Bool × Bool × Bool × Bool) : Bool × Bool × Bool × Bool × Bool :=
  (xor v.2.2.2.2 v.2.2.2.1, xor v.1 v.2.2.2.2, xor v.2.1 v.1, xor v.2.2.1 v.2.1,
    xor v.2.2.2.1 v.2.2.1)

/-! ## The permutation with checked array accesses and rotations -/

/-- Checked `SHA3_ROTL64(x, y)`: the shifts `x << y` and `x >> (64 - y)` of a `uint64_t` are
defined only when both shift counts are below 64, that is for `1 ≤ y ≤ 63`. -/
def SHA3_ROTL64_checked (x y : Nat) : Option Nat :=
  if y < 8 * 8 ∧ 8 * 8 - y < 8 * 8 then some (SHA3_ROTL64 x y) else none

/-- Checked array read `a[i]`: defined only for an index inside the array. -/
def readChecked (a : List Nat) (i : Nat) : Option Nat := a[i]?

/-- Checked array write `a[i] = v`: defined only for an index inside the array. -/
def writeChecked (a : List Nat) (i v : Nat) : Option (List Nat) :=
  if i < a.length then some (a.set i v) else none

/-- The Theta step with every array access and rotation checked. -/
def keccakf_theta_checked (s : List Nat) : Option (List Nat) := do
  let bc ← (List.range 5).foldlM (fun bc i => do
    let x0 ← readChecked s i
    let x1 ← readChecked s (i + 5)
    let x2 ← readChecked s (i + 10)
    let x3 ← readChecked s (i + 15)
    let x4 ← readChecked s (i + 20)
    writeChecked bc i (x0 ^^^ x1 ^^^ x2 ^^^ x3 ^^^ x4)) (List.replicate 5 0)
  (List.range 5).foldlM (fun s i => do
    let b4 ← readChecked bc ((i + 4) % 5)
    let b1 ← readChecked bc ((i + 1) % 5)
    let r ← SHA3_ROTL64_checked b1 1
    let t := b4 ^^^ r
    [0, 5, 10, 15, 20].foldlM (fun s j => do
      let x ← readChecked s (j + i)
      writeChecked s (j + i) (x ^^^ t)) s) s

/-- One iteration of the Rho Pi loop with every table read, state access and rotation
checked. -/
def keccakf_rhoPi_step_checked (st : List Nat × Nat) (i : Nat) : Option (List Nat × Nat) := do
  let j ← readChecked keccakf_piln i
  let bc0 ← readChecked st.1 j
  let n ← readChecked keccakf_rotc i
  let r ← SHA3_ROTL64_checked st.2 n
  let s ← writeChecked st.1 j r
  pure (s, bc0)

/-- The Rho Pi step with every table read, state access and rotation checked. -/
def keccakf_rhoPi_checked (s : List Nat) : Option (List Nat) := do
  let t ← readChecked s 1
  let st ← (List.range 24).foldlM keccakf_rhoPi_step_checked (s, t)
  pure st.1

/-- The body of the outer Chi loop for the row that starts at lane `j`, as in `keccakf_chi`. -/
def keccakf_chi_row (s : List Nat) (j : Nat) : List Nat :=
  let bc := (List.range 5).map fun i => lane s (j + i)
  (List.range 5).foldl (fun s i =>
    s.set (j + i)
      (lane s (j + i) ^^^ (not64 (lane bc ((i + 1) % 5)) &&& lane bc ((i + 2) % 5)))) s

/-- The body of the outer Chi loop for the row that starts at lane `j`, with every array access
checked. -/
def keccakf_chi_row_checked (s : List Nat) (j : Nat) : Option (List Nat) := do
  let bc ← (List.range 5).foldlM (fun bc i => do
    let x ← readChecked s (j + i)
    writeChecked bc i x) (List.replicate 5 0)
  (List.range 5).foldlM (fun s i => do
    let x ← readChecked s (j + i)
    let b1 ← readChecked bc ((i + 1) % 5)
    let b2 ← readChecked bc ((i + 2) % 5)
    writeChecked s (j + i) (x ^^^ (not64 b1 &&& b2))) s

/-- The Chi step with every array access checked. -/
def keccakf_chi_checked (s : List Nat) : Option (List Nat) :=
  [0, 5, 10, 15, 20].foldlM keccakf_chi_row_checked s

/-- The Iota step of round `round` with the table read and the state access checked. -/
def keccakf_iota_checked (round : Nat) (s : List Nat) : Option (List Nat) := do
  let x ← readChecked s 0
  let c ← readChecked keccakf_rndc round
  writeChecked s 0 (x ^^^ c)

/-- The body of the round loop of `keccakf`, checked. -/
def keccakf_round_checked (s : List Nat) (round : Nat) : Option (List Nat) := do
  let s1 ← keccakf_theta_checked s
  let s2 ← keccakf_rhoPi_checked s1
  let s3 ← keccakf_chi_checked s2
  keccakf_iota_checked round s3

/-- The function `keccakf` with every array access and every rotation checked: the result is
`none` as soon as an index is outside its array or a shift count is not below 64. -/
def keccakf_checked (s : List Nat) : Option (List Nat) :=
  (List.range KECCAK_ROUNDS).foldlM keccakf_round_checked s

/-! ## Known answer -/

set_option maxRecDepth 1000000 in
/-- C1: the Keccak-256 digest of the empty byte sequence (init, no update, finalize, first 32
bytes) is `c5d2460186f7233c927e7db2dcc703c0e500b653ca82273b7bfad8045d85a470`, and the wrapper
called with the empty string succeeds and returns exactly this 64-character hex string. -/
theorem empty_input_digest :
    (sha3_Finalize sha3_Init256).take 32 =
      [0xc5, 0xd2, 0x46, 0x01, 0x86, 0xf7, 0x23, 0x3c, 0x92, 0x7e, 0x7d, 0xb2, 0xdc, 0xc7, 0x03,
       0xc0, 0xe5, 0x00, 0xb6, 0x53, 0xca, 0x82, 0x27, 0x3b, 0x7b, 0xfa, 0xd8, 0x04, 0x5d, 0x85,
       0xa4, 0x70] ∧
    keccak256 "" =
      .ok "c5d2460186f7233c927e7db2dcc703c0e500b653ca82273b7bfad8045d85a470" ∧
    ("c5d2460186f7233c927e7db2dcc703c0e500b653ca82273b7bfad8045d85a470" : String).length = 64 := by
  decide!

/-! ## Absorption, one byte at a time -/

theorem rateWords_eq (ctx : sha3_context) (h : ctx.capacityWords ≤ 25) :
    rateWords ctx = 25 - ctx.capacityWords := by
  unfold rateWords SHA3_KECCAK_SPONGE_WORDS
  norm_num
  omega

theorem shl_byte_mod (b k : Nat) (hk : k < 8) :
    ((b % 256) <<< (k * 8)) % 2 ^ 64 = (b % 256) <<< (k * 8) := by
  apply Nat.mod_eq_of_lt
  rw [Nat.shiftLeft_eq]
  have hb : b % 256 < 256 := Nat.mod_lt _ (by norm_num)
  interval_cases k <;> omega

theorem storeBytes_cons (ctx : sha3_context) (b : Nat) (buf : List Nat) :
    storeBytes ctx (b :: buf) = storeBytes (storeBytes ctx [b]) buf := rfl

theorem storeBytes_one_byteIndex (ctx : sha3_context) (b : Nat) (h : ctx.byteIndex < 8) :
    (storeBytes ctx [b]).byteIndex = ctx.byteIndex + 1 := by
  simp only [storeBytes]
  omega

theorem storeBytes_lt (buf : List Nat) (ctx : sha3_context)
    (h : ctx.byteIndex + buf.length < 8) :
    storeBytes ctx buf = buf.foldl absorbByte ctx := by
  induction buf generalizing ctx with
  | nil => rfl
  | cons b buf ih =>
    simp only [List.length_cons] at h
    have h1 := storeBytes_one_byteIndex ctx b (by omega)
    rw [storeBytes_cons, List.foldl_cons]
    have h2 : absorbByte ctx b = storeBytes ctx [b] := by
      unfold absorbByte
      simp only [h1]
      rw [if_neg (by omega)]
    rw [h2]
    exact ih _ (by omega)

theorem storeBytes_fill (buf : List Nat) (ctx : sha3_context)
    (h : ctx.byteIndex + buf.length = 8) (hne : buf ≠ []) :
    xorWord { storeBytes ctx buf with byteIndex := 0, saved := 0 } (storeBytes ctx buf).saved =
      buf.foldl absorbByte ctx := by
  induction buf generalizing ctx with
  | nil => exact absurd rfl hne
  | cons b buf ih =>
    simp only [List.length_cons] at h
    have h1 := storeBytes_one_byteIndex ctx b (by omega)
    rw [storeBytes_cons, List.foldl_cons]
    by_cases hb : buf = []
    · subst hb
      simp only [List.length_nil] at h
      have h2 : absorbByte ctx b =
          xorWord { storeBytes ctx [b] with byteIndex := 0, saved := 0 }
            (storeBytes ctx [b]).saved := by
        unfold absorbByte
        simp only [h1]
        rw [if_pos (by omega)]
      simp only [List.foldl_nil, h2]
      rfl
    · have h2 : absorbByte ctx b = storeBytes ctx [b] := by
        unfold absorbByte
        simp only [h1]
        have : buf.length ≠ 0 := fun h0 => hb (List.length_eq_zero.mp h0)
        rw [if_neg (by omega)]
      rw [h2]
      exact ih _ (by omega) hb

theorem xorWord_byteIndex (ctx : sha3_context) (t : Nat) :
    (xorWord ctx t).byteIndex = ctx.byteIndex := by
  unfold xorWord; dsimp only; split <;> rfl

theorem xorWord_saved (ctx : sha3_context) (t : Nat) :
    (xorWord ctx t).saved = ctx.saved := by
  unfold xorWord; dsimp only; split <;> rfl

theorem xorWord_capacityWords (ctx : sha3_context) (t : Nat) :
    (xorWord ctx t).capacityWords = ctx.capacityWords := by
  unfold xorWord; dsimp only; split <;> rfl

theorem xorWord_wordIndex_lt (ctx : sha3_context) (t : Nat)
    (h : ctx.wordIndex < SHA3_KECCAK_SPONGE_WORDS - ctx.capacityWords) :
    (xorWord ctx t).wordIndex < SHA3_KECCAK_SPONGE_WORDS - (xorWord ctx t).capacityWords := by
  have hr := rateWords_eq ctx (by unfold SHA3_KECCAK_SPONGE_WORDS at h; omega)
  unfold SHA3_KECCAK_SPONGE_WORDS at h ⊢
  unfold xorWord
  simp only [hr]
  split
  · simp only; omega
  · simp only; omega

theorem absorbByte_eight (ctx : sha3_context) (b0 b1 b2 b3 b4 b5 b6 b7 : Nat)
    (hb : ctx.byteIndex = 0) (hs : ctx.saved = 0) :
    [b0, b1, b2, b3, b4, b5, b6, b7].foldl absorbByte ctx =
      xorWord ctx (b0 % 256 ||| ((b1 % 256) <<< (8 * 1)) ||| ((b2 % 256) <<< (8 * 2)) |||
        ((b3 % 256) <<< (8 * 3)) ||| ((b4 % 256) <<< (8 * 4)) ||| ((b5 % 256) <<< (8 * 5)) |||
        ((b6 % 256) <<< (8 * 6)) ||| ((b7 % 256) <<< (8 * 7))) := by
  obtain ⟨saved, s, bi, wi, cap⟩ := ctx
  simp only at hb hs
  subst hb hs
  have e1 := shl_byte_mod b1 1 (by omega)
  have e2 := shl_byte_mod b2 2 (by omega)
  have e3 := shl_byte_mod b3 3 (by omega)
  have e4 := shl_byte_mod b4 4 (by omega)
  have e5 := shl_byte_mod b5 5 (by omega)
  have e6 := shl_byte_mod b6 6 (by omega)
  have e7 := shl_byte_mod b7 7 (by omega)
  have e0 : b0 % 256 % 2 ^ 64 = b0 % 256 := by omega
  norm_num at e0 e1 e2 e3 e4 e5 e6 e7
  simp [absorbByte, storeBytes]
  rw [Nat.mod_eq_of_lt e0, Nat.mod_eq_of_lt e1, Nat.mod_eq_of_lt e2, Nat.mod_eq_of_lt e3, Nat.mod_eq_of_lt e4, Nat.mod_eq_of_lt e5, Nat.mod_eq_of_lt e6, Nat.mod_eq_of_lt e7]


theorem absorbWords_eq (n : Nat) (buf : List Nat) (ctx : sha3_context)
    (hb : ctx.byteIndex = 0) (hs : ctx.saved = 0) (hl : 8 * n ≤ buf.length) :
    absorbWords ctx buf n = (buf.take (8 * n)).foldl absorbByte ctx := by
  induction n generalizing buf ctx with
  | zero => simp [absorbWords]
  | succ n ih =>
    rcases buf with _ | ⟨b0, buf⟩
    · simp at hl
    rcases buf with _ | ⟨b1, buf⟩
    · simp at hl; omega
    rcases buf with _ | ⟨b2, buf⟩
    · simp at hl; omega
    rcases buf with _ | ⟨b3, buf⟩
    · simp at hl; omega
    rcases buf with _ | ⟨b4, buf⟩
    · simp at hl; omega
    rcases buf with _ | ⟨b5, buf⟩
    · simp at hl; omega
    rcases buf with _ | ⟨b6, buf⟩
    · simp at hl; omega
    rcases buf with _ | ⟨b7, buf⟩
    · simp at hl; omega
    have h8 : 8 * (n + 1) = 8 * n + 1 + 1 + 1 + 1 + 1 + 1 + 1 + 1 := by ring
    have hl2 : 8 * n ≤ buf.length := by simp at hl; omega
    have hf : ∀ l : List Nat, (b0 :: b1 :: b2 :: b3 :: b4 :: b5 :: b6 :: b7 :: l).foldl absorbByte ctx
        = l.foldl absorbByte ([b0, b1, b2, b3, b4, b5, b6, b7].foldl absorbByte ctx) := by
      intro l; simp only [List.foldl_cons, List.foldl_nil]
    rw [h8]
    simp only [List.take_succ_cons]
    rw [hf, absorbByte_eight ctx _ _ _ _ _ _ _ _ hb hs,
      ← ih buf _ (by rw [xorWord_byteIndex]; exact hb) (by rw [xorWord_saved]; exact hs) hl2]
    simp [absorbWords, loadWord, bufAt]

theorem storeBytes_saved_lt (buf : List Nat) (ctx : sha3_context)
    (h : ctx.byteIndex + buf.length ≤ 8) (hs : ctx.saved < 2 ^ (8 * ctx.byteIndex)) :
    (storeBytes ctx buf).saved < 2 ^ (8 * (storeBytes ctx buf).byteIndex) ∧
    (storeBytes ctx buf).byteIndex = ctx.byteIndex + buf.length ∧
    (storeBytes ctx buf).wordIndex = ctx.wordIndex ∧
    (storeBytes ctx buf).capacityWords = ctx.capacityWords ∧
    (storeBytes ctx buf).s = ctx.s := by
  induction buf generalizing ctx with
  | nil => simp [storeBytes, hs]
  | cons b buf ih =>
    simp only [List.length_cons] at h
    rw [storeBytes_cons]
    have h1 := storeBytes_one_byteIndex ctx b (by omega)
    have h2 : (storeBytes ctx [b]).saved < 2 ^ (8 * (storeBytes ctx [b]).byteIndex) := by
      rw [h1]
      simp only [storeBytes]
      rw [shl_byte_mod b _ (by omega)]
      apply Nat.or_lt_two_pow
      · exact lt_of_lt_of_le hs (Nat.pow_le_pow_right (by norm_num) (by omega))
      · rw [Nat.shiftLeft_eq]
        have : b % 256 < 2 ^ 8 := Nat.mod_lt _ (by norm_num)
        calc b % 256 * 2 ^ (ctx.byteIndex * 8) < 2 ^ 8 * 2 ^ (ctx.byteIndex * 8) :=
              Nat.mul_lt_mul_of_pos_right this (by positivity)
          _ = 2 ^ (8 * (ctx.byteIndex + 1)) := by rw [← pow_add]; congr 1; ring
    obtain ⟨i1, i2, i3, i4, i5⟩ := ih (storeBytes ctx [b]) (by omega) h2
    refine ⟨i1, ?_, ?_, ?_, ?_⟩
    · rw [i2, h1, List.length_cons]; omega
    · rw [i3]; rfl
    · rw [i4]; rfl
    · rw [i5]; rfl


theorem absorbByte_inv (ctx : sha3_context) (b : Nat) (h : CursorInv ctx) :
    CursorInv (absorbByte ctx b) := by
  obtain ⟨hb, hw, hs⟩ := h
  obtain ⟨i1, i2, i3, i4, -⟩ := storeBytes_saved_lt [b] ctx (by simp; omega) hs
  simp only [List.length_cons, List.length_nil] at i2
  unfold absorbByte
  simp only
  split
  · refine ⟨?_, ?_, ?_⟩
    · rw [xorWord_byteIndex]; simp
    · apply xorWord_wordIndex_lt
      simp only [i3, i4]; exact hw
    · rw [xorWord_saved, xorWord_byteIndex]; simp
  · next hne =>
    refine ⟨by omega, ?_, i1⟩
    rw [i3, i4]; exact hw

theorem foldl_absorbByte_inv (buf : List Nat) (ctx : sha3_context) (h : CursorInv ctx) :
    CursorInv (buf.foldl absorbByte ctx) := by
  induction buf generalizing ctx with
  | nil => exact h
  | cons b buf ih => exact ih _ (absorbByte_inv ctx b h)

theorem absorbWords_cursor (n : Nat) (buf : List Nat) (ctx : sha3_context) :
    (absorbWords ctx buf n).byteIndex = ctx.byteIndex ∧
    (absorbWords ctx buf n).saved = ctx.saved := by
  induction n generalizing buf ctx with
  | zero => exact ⟨rfl, rfl⟩
  | succ n ih =>
    simp only [absorbWords]
    obtain ⟨h1, h2⟩ := ih (buf.drop 8) (xorWord ctx (loadWord buf))
    rw [h1, h2, xorWord_byteIndex, xorWord_saved]
    exact ⟨rfl, rfl⟩

theorem aligned_eq (ctx : sha3_context) (buf : List Nat)
    (hb : ctx.byteIndex = 0) (hs : ctx.saved = 0) :
    storeBytes (absorbWords ctx buf (buf.length / 8))
        ((buf.drop (buf.length / 8 * 8)).take (buf.length - buf.length / 8 * 8)) =
      buf.foldl absorbByte ctx := by
  have hl : 8 * (buf.length / 8) ≤ buf.length := Nat.mul_div_le _ _
  have hc := absorbWords_cursor (buf.length / 8) buf ctx
  have ht : (buf.drop (buf.length / 8 * 8)).take (buf.length - buf.length / 8 * 8) =
      buf.drop (8 * (buf.length / 8)) := by
    rw [Nat.mul_comm 8]
    apply List.take_of_length_le
    rw [List.length_drop]
  rw [ht, storeBytes_lt _ _ (by rw [hc.1, hb, List.length_drop]; omega),
    absorbWords_eq _ buf ctx hb hs hl, ← List.foldl_append, List.take_append_drop]

theorem old_tail_eq (k : Nat) (hk : k < 8) :
    ((2 ^ 32 + 8 - k) % 2 ^ 32) &&& 7 = if k = 0 then 0 else 8 - k := by
  interval_cases k <;> decide

theorem sha3_Update_eq_foldl (ctx : sha3_context) (buf : List Nat) (h : CursorInv ctx) :
    sha3_Update ctx buf = buf.foldl absorbByte ctx := by
  obtain ⟨hb, hw, hs⟩ := h
  unfold sha3_Update
  simp only [old_tail_eq _ hb]
  by_cases h0 : ctx.byteIndex = 0
  · have hs0 : ctx.saved = 0 := by rw [h0] at hs; simpa using hs
    simp only [h0, if_true, Nat.not_lt_zero, if_false, List.drop_zero, Nat.sub_zero,
      ne_eq, not_true_eq_false]
    exact aligned_eq ctx buf h0 hs0
  · simp only [if_neg h0]
    by_cases hlt : buf.length < 8 - ctx.byteIndex
    · rw [if_pos hlt]
      exact storeBytes_lt _ _ (by omega)
    · rw [if_neg hlt, if_pos (by omega)]
      have htl : (buf.take (8 - ctx.byteIndex)).length = 8 - ctx.byteIndex := by
        rw [List.length_take]; omega
      have hfill := storeBytes_fill (buf.take (8 - ctx.byteIndex)) ctx (by omega)
        (by intro he; rw [he] at htl; simp at htl; omega)
      rw [hfill]
      have hi := foldl_absorbByte_inv (buf.take (8 - ctx.byteIndex)) ctx ⟨hb, hw, hs⟩
      have hb1 : (List.foldl absorbByte ctx (buf.take (8 - ctx.byteIndex))).byteIndex = 0 := by
        rw [← hfill, xorWord_byteIndex]
      have hs1 : (List.foldl absorbByte ctx (buf.take (8 - ctx.byteIndex))).saved = 0 := by
        rw [← hfill, xorWord_saved]
      have ha := aligned_eq _ (buf.drop (8 - ctx.byteIndex)) hb1 hs1
      rw [List.length_drop] at ha
      rw [ha, ← List.foldl_append, List.take_append_drop]

/-! ## Chunk invariance -/

theorem storeBytes_capacityWords (buf : List Nat) (ctx : sha3_context) :
    (storeBytes ctx buf).capacityWords = ctx.capacityWords := by
  induction buf generalizing ctx with
  | nil => rfl
  | cons b buf ih => rw [storeBytes_cons, ih]; rfl

theorem absorbWords_capacityWords (n : Nat) (buf : List Nat) (ctx : sha3_context) :
    (absorbWords ctx buf n).capacityWords = ctx.capacityWords := by
  induction n generalizing buf ctx with
  | zero => rfl
  | succ n ih => simp only [absorbWords]; rw [ih, xorWord_capacityWords]

theorem sha3_Update_capacityWords (ctx : sha3_context) (buf : List Nat) :
    (sha3_Update ctx buf).capacityWords = ctx.capacityWords := by
  unfold sha3_Update
  simp only
  split
  · exact storeBytes_capacityWords _ _
  · rw [storeBytes_capacityWords, absorbWords_capacityWords]
    split
    · rw [xorWord_capacityWords]; exact storeBytes_capacityWords _ _
    · rfl

theorem cursorInv_init : CursorInv sha3_Init256 := by
  refine ⟨?_, ?_, ?_⟩ <;> decide

theorem Reachable.cursorInv {ctx : sha3_context} (h : Reachable ctx) : CursorInv ctx := by
  induction h with
  | init => exact cursorInv_init
  | update ctx buf _ ih =>
    rw [sha3_Update_eq_foldl ctx buf ih]
    exact foldl_absorbByte_inv buf ctx ih

theorem sha3_Update_append (ctx : sha3_context) (h : CursorInv ctx) (A B : List Nat) :
    sha3_Update (sha3_Update ctx A) B = sha3_Update ctx (A ++ B) := by
  have hA := sha3_Update_eq_foldl ctx A h
  rw [sha3_Update_eq_foldl ctx (A ++ B) h, List.foldl_append, ← hA]
  exact sha3_Update_eq_foldl _ B (by rw [hA]; exact foldl_absorbByte_inv A ctx h)

theorem sha3_Update_nil (ctx : sha3_context) (h : ctx.byteIndex < 8) :
    sha3_Update ctx [] = ctx := by
  unfold sha3_Update
  simp only [old_tail_eq _ h]
  by_cases h0 : ctx.byteIndex = 0
  · simp [h0, absorbWords, storeBytes]
  · simp only [if_neg h0, List.length_nil]
    rw [if_pos (by omega)]
    rfl

theorem foldl_sha3_Update (chunks : List (List Nat)) (ctx : sha3_context) (h : CursorInv ctx) :
    chunks.foldl sha3_Update ctx = sha3_Update ctx chunks.flatten := by
  induction chunks generalizing ctx with
  | nil => simp [sha3_Update_nil ctx h.1]
  | cons A chunks ih =>
    have hA : CursorInv (sha3_Update ctx A) := by
      rw [sha3_Update_eq_foldl ctx A h]; exact foldl_absorbByte_inv A ctx h
    rw [List.foldl_cons, ih _ hA, sha3_Update_append ctx h, List.flatten_cons]

/-- C2: chunk invariance. For every context reachable from `sha3_Init256` by `sha3_Update` calls
and all byte sequences `A` and `B`, updating with `A` and then with `B` yields the same context
(all fields) as one update with `A ++ B`; hence feeding any list of chunks in order gives the
same context, the same returned bytes and the same 32-byte digest as a single update with their
concatenation. -/
theorem chunk_invariance (ctx : sha3_context) (h : Reachable ctx) (A B : List Nat)
    (chunks : List (List Nat)) :
    sha3_Update (sha3_Update ctx A) B = sha3_Update ctx (A ++ B) ∧
    chunks.foldl sha3_Update ctx = sha3_Update ctx chunks.flatten ∧
    (sha3_Finalize (chunks.foldl sha3_Update ctx)).take 32 =
      (sha3_Finalize (sha3_Update ctx chunks.flatten)).take 32 :=
  ⟨sha3_Update_append ctx h.cursorInv A B, foldl_sha3_Update chunks ctx h.cursorInv,
    by rw [foldl_sha3_Update chunks ctx h.cursorInv]⟩

/-- Witness for C2: a context that already buffers three bytes, split points inside and across
words, and a chunk list with an empty and a one-byte chunk. -/
theorem chunk_invariance_witness :
    Reachable (sha3_Update sha3_Init256 [1, 2, 3]) ∧
    (sha3_Update (sha3_Update (sha3_Update sha3_Init256 [1, 2, 3]) [4]) [5, 6, 7, 8, 9] =
        sha3_Update (sha3_Update sha3_Init256 [1, 2, 3]) ([4] ++ [5, 6, 7, 8, 9]) ∧
      [[], [10], [11, 12]].foldl sha3_Update (sha3_Update sha3_Init256 [1, 2, 3]) =
        sha3_Update (sha3_Update sha3_Init256 [1, 2, 3]) [[], [10], [11, 12]].flatten ∧
      (sha3_Finalize
          ([[], [10], [11, 12]].foldl sha3_Update (sha3_Update sha3_Init256 [1, 2, 3]))).take 32 =
        (sha3_Finalize
          (sha3_Update (sha3_Update sha3_Init256 [1, 2, 3]) [[], [10], [11, 12]].flatten)).take
          32) :=
  ⟨Reachable.update _ _ Reachable.init,
    chunk_invariance _ (Reachable.update _ _ Reachable.init) [4] [5, 6, 7, 8, 9]
      [[], [10], [11, 12]]⟩

/-! ## Initialisation, empty update and the cursor invariant -/

/-- C7, as stated, fails: after `sha3_Init256` the capacity is not 16 lanes and the rate
`25 - capacityWords` is not 9 lanes. -/
theorem init_capacity_not_16 :
    ¬ (sha3_Init256.capacityWords = 16 ∧ rateWords sha3_Init256 = 9) := by
  decide

/-- C7, amended: after `sha3_Init256` the state has 25 lanes, all zero, the cursor is zero
(`saved = 0`, `byteIndex = 0`, `wordIndex = 0`), and the capacity is 8 lanes, so that the rate
`25 - capacityWords` is 17 lanes (136 bytes). -/
theorem init_context :
    sha3_Init256.s = List.replicate 25 0 ∧
    sha3_Init256.saved = 0 ∧ sha3_Init256.byteIndex = 0 ∧ sha3_Init256.wordIndex = 0 ∧
    sha3_Init256.capacityWords = 8 ∧
    rateWords sha3_Init256 = 25 - sha3_Init256.capacityWords ∧
    rateWords sha3_Init256 = 17 ∧ 8 * rateWords sha3_Init256 = 136 := by
  decide

/-- C8: `sha3_Update` with an empty byte sequence returns every context with `byteIndex < 8`
unchanged; consequently the digest that the wrapper computes for the empty string, where it
skips the update call, is the digest of init, update with the empty sequence, finalize. -/
theorem update_empty_noop (ctx : sha3_context) (h : ctx.byteIndex < 8) :
    sha3_Update ctx [] = ctx ∧
    sha3_Finalize (sha3_Update sha3_Init256 []) = sha3_Finalize sha3_Init256 ∧
    keccak256 "" = .ok (String.mk (hashToHex (sha3_Finalize (sha3_Update sha3_Init256 [])))) := by
  refine ⟨sha3_Update_nil ctx h, ?_, ?_⟩
  · rw [sha3_Update_nil _ (by decide)]
  · rw [sha3_Update_nil _ (by decide)]
    rfl

/-- Witness for C8: a context with two buffered bytes in the middle of the rate. -/
theorem update_empty_noop_witness :
    (⟨0x0201, List.replicate 25 7, 2, 3, 8⟩ : sha3_context).byteIndex < 8 ∧
    (sha3_Update ⟨0x0201, List.replicate 25 7, 2, 3, 8⟩ [] = ⟨0x0201, List.replicate 25 7, 2, 3, 8⟩ ∧
      sha3_Finalize (sha3_Update sha3_Init256 []) = sha3_Finalize sha3_Init256 ∧
      keccak256 "" =
        .ok (String.mk (hashToHex (sha3_Finalize (sha3_Update sha3_Init256 []))))) :=
  ⟨by decide, update_empty_noop ⟨0x0201, List.replicate 25 7, 2, 3, 8⟩ (by decide)⟩

theorem saved_high_bytes_zero (saved byteIndex k : Nat) (h : saved < 2 ^ (8 * byteIndex))
    (hk : byteIndex ≤ k) : (saved >>> (8 * k)) % 256 = 0 := by
  rw [Nat.shiftRight_eq_div_pow, Nat.div_eq_of_lt]
  exact lt_of_lt_of_le h (Nat.pow_le_pow_right (by norm_num) (by omega))

/-- C10: every context reachable from `sha3_Init256` by `sha3_Update` calls satisfies
`byteIndex < 8`, `wordIndex < Rate` with `Rate = 25 - capacityWords`, and
`saved < 2 ^ (8 * byteIndex)`, so the bytes of `saved` at positions `byteIndex..7` (and above)
are zero and `saved = 0` when `byteIndex = 0`; `sha3_Update` never changes `capacityWords`. -/
theorem cursor_invariant (ctx : sha3_context) (h : Reachable ctx) :
    ctx.byteIndex < 8 ∧
    rateWords ctx = 25 - ctx.capacityWords ∧
    ctx.wordIndex < rateWords ctx ∧
    ctx.saved < 2 ^ (8 * ctx.byteIndex) ∧
    (∀ k, ctx.byteIndex ≤ k → (ctx.saved >>> (8 * k)) % 256 = 0) ∧
    (ctx.byteIndex = 0 → ctx.saved = 0) ∧
    (∀ (c : sha3_context) (buf : List Nat),
      (sha3_Update c buf).capacityWords = c.capacityWords) := by
  obtain ⟨hb, hw, hs⟩ := h.cursorInv
  have hr := rateWords_eq ctx (by unfold SHA3_KECCAK_SPONGE_WORDS at hw; omega)
  refine ⟨hb, hr, ?_, hs, fun k hk => saved_high_bytes_zero _ _ k hs hk, ?_,
    sha3_Update_capacityWords⟩
  · rw [hr]; exact hw
  · intro h0
    rw [h0] at hs
    simpa using hs

/-- Witness for C10: the context after absorbing eleven bytes in two calls. -/
theorem cursor_invariant_witness :
    Reachable (sha3_Update (sha3_Update sha3_Init256 [1, 2, 3]) [4, 5, 6, 7, 8, 9, 10, 11]) ∧
    ((sha3_Update (sha3_Update sha3_Init256 [1, 2, 3]) [4, 5, 6, 7, 8, 9, 10, 11]).byteIndex < 8 ∧
      rateWords (sha3_Update (sha3_Update sha3_Init256 [1, 2, 3]) [4, 5, 6, 7, 8, 9, 10, 11]) =
        25 - (sha3_Update (sha3_Update sha3_Init256 [1, 2, 3])
          [4, 5, 6, 7, 8, 9, 10, 11]).capacityWords ∧
      (sha3_Update (sha3_Update sha3_Init256 [1, 2, 3]) [4, 5, 6, 7, 8, 9, 10, 11]).wordIndex <
        rateWords (sha3_Update (sha3_Update sha3_Init256 [1, 2, 3]) [4, 5, 6, 7, 8, 9, 10, 11]) ∧
      (sha3_Update (sha3_Update sha3_Init256 [1, 2, 3]) [4, 5, 6, 7, 8, 9, 10, 11]).saved <
        2 ^ (8 * (sha3_Update (sha3_Update sha3_Init256 [1, 2, 3])
          [4, 5, 6, 7, 8, 9, 10, 11]).byteIndex) ∧
      (∀ k, (sha3_Update (sha3_Update sha3_Init256 [1, 2, 3])
          [4, 5, 6, 7, 8, 9, 10, 11]).byteIndex ≤ k →
        ((sha3_Update (sha3_Update sha3_Init256 [1, 2, 3])
          [4, 5, 6, 7, 8, 9, 10, 11]).saved >>> (8 * k)) % 256 = 0) ∧
      ((sha3_Update (sha3_Update sha3_Init256 [1, 2, 3]) [4, 5, 6, 7, 8, 9, 10, 11]).byteIndex = 0 →
        (sha3_Update (sha3_Update sha3_Init256 [1, 2, 3]) [4, 5, 6, 7, 8, 9, 10, 11]).saved = 0) ∧
      (∀ (c : sha3_context) (buf : List Nat),
        (sha3_Update c buf).capacityWords = c.capacityWords)) :=
  ⟨Reachable.update _ _ (Reachable.update _ _ Reachable.init),
    cursor_invariant _ (Reachable.update _ _ (Reachable.update _ _ Reachable.init))⟩

/-! ## Digest serialisation -/

theorem laneBytes_length (w : Nat) : (laneBytes w).length = 8 := rfl

theorem laneBytes_getD (w k : Nat) (hk : k < 8) :
    (laneBytes w).getD k 0 = (w >>> (8 * k)) &&& 0xff := by
  have e : ∀ x : Nat, x &&& 0xff = x % 256 := fun x => Nat.and_pow_two_sub_one_eq_mod x 8
  rw [e]
  interval_cases k <;>
    simp only [laneBytes, List.getD_cons_zero, List.getD_cons_succ, Nat.shiftRight_eq_div_pow] <;>
    norm_num <;> omega

theorem flatMap_range_length {α : Type} (f : Nat → List α) (m : Nat)
    (hf : ∀ j, (f j).length = m) (n : Nat) : ((List.range n).flatMap f).length = m * n := by
  induction n with
  | zero => simp
  | succ n ih =>
    rw [List.range_succ, List.flatMap_append, List.length_append, ih]
    simp [hf, Nat.mul_succ]

theorem flatMap_range_getD {α : Type} (f : Nat → List α) (m : Nat)
    (hf : ∀ j, (f j).length = m) (d : α) (n i : Nat) (hi : i < m * n) :
    ((List.range n).flatMap f).getD i d = (f (i / m)).getD (i % m) d := by
  induction n with
  | zero => simp at hi
  | succ n ih =>
    have hlen := flatMap_range_length f m hf n
    rw [List.range_succ, List.flatMap_append]
    by_cases hlt : i < m * n
    · rw [List.getD_append _ _ _ _ (by rw [hlen]; exact hlt)]
      exact ih hlt
    · have hge : m * n ≤ i := Nat.le_of_not_lt hlt
      rw [List.getD_append_right _ _ _ _ (by rw [hlen]; exact hge), hlen]
      have hq : i / m = n := by
        apply Nat.div_eq_of_lt_le
        · rw [Nat.mul_comm]; exact hge
        · rw [Nat.mul_comm]; exact hi
      have hr : i % m = i - m * n := by
        have := Nat.div_add_mod i m
        rw [hq] at this
        omega
      simp [hq, hr]

/-- C5: the bytes returned by `sha3_Finalize` are the little-endian serialisation of the state
lanes after the final permutation: for every `i` in `0..31`, byte `i` equals
`(s[i / 8] >> (8 * (i % 8))) & 0xff`; in particular byte 0 is the least-significant byte of
lane 0. -/
theorem digest_little_endian (ctx : sha3_context) (i : Nat) (hi : i < 32) :
    (sha3_Finalize ctx).getD i 0 =
      (lane (sha3_Finalize_state ctx) (i / 8) >>> (8 * (i % 8))) &&& 0xff ∧
    ((sha3_Finalize ctx).take 32).getD i 0 =
      (lane (sha3_Finalize_state ctx) (i / 8) >>> (8 * (i % 8))) &&& 0xff ∧
    (sha3_Finalize ctx).getD 0 0 = lane (sha3_Finalize_state ctx) 0 % 256 ∧
    ((sha3_Finalize ctx).take 32).length = 32 := by
  have hlen : (sha3_Finalize ctx).length = 200 := by
    unfold sha3_Finalize
    simp only
    rw [flatMap_range_length _ 8 (fun j => laneBytes_length _)]
    rfl
  have key : ∀ j, j < 32 → (sha3_Finalize ctx).getD j 0 =
      (lane (sha3_Finalize_state ctx) (j / 8) >>> (8 * (j % 8))) &&& 0xff := by
    intro j hj
    unfold sha3_Finalize
    simp only
    rw [flatMap_range_getD _ 8 (fun j => laneBytes_length _) 0 _ j
      (by unfold SHA3_KECCAK_SPONGE_WORDS; omega)]
    exact laneBytes_getD _ _ (Nat.mod_lt _ (by norm_num))
  refine ⟨key i hi, ?_, ?_, ?_⟩
  · rw [← key i hi]
    simp only [List.getD_eq_getElem?_getD, List.getElem?_take, if_pos hi]
  · have e := Nat.and_pow_two_sub_one_eq_mod (lane (sha3_Finalize_state ctx) 0) 8
    have hk := key 0 (by norm_num)
    simp only [Nat.zero_div, Nat.zero_mod, Nat.mul_zero, Nat.shiftRight_zero] at hk
    rw [hk]
    exact e
  · rw [List.length_take, hlen]; decide

/-- Witness for C5: byte 9 of the digest of the empty input. -/
theorem digest_little_endian_witness :
    9 < 32 ∧
    ((sha3_Finalize sha3_Init256).getD 9 0 =
        (lane (sha3_Finalize_state sha3_Init256) (9 / 8) >>> (8 * (9 % 8))) &&& 0xff ∧
      ((sha3_Finalize sha3_Init256).take 32).getD 9 0 =
        (lane (sha3_Finalize_state sha3_Init256) (9 / 8) >>> (8 * (9 % 8))) &&& 0xff ∧
      (sha3_Finalize sha3_Init256).getD 0 0 = lane (sha3_Finalize_state sha3_Init256) 0 % 256 ∧
      ((sha3_Finalize sha3_Init256).take 32).length = 32) :=
  ⟨by decide, digest_little_endian sha3_Init256 9 (by decide)⟩

/-! ## Padding -/

theorem lane_set (s : List Nat) (i j v : Nat) (hj : j < s.length) :
    lane (s.set j v) i = if i = j then v else lane s i := by
  unfold lane
  simp only [List.getD_eq_getElem?_getD, List.getElem?_set]
  by_cases h : j = i
  · subst h; simp [hj]
  · have h2 : ¬ i = j := fun e => h e.symm
    simp [h, h2]

theorem shiftRight_xor (a b n : Nat) : (a ^^^ b) >>> n = (a >>> n) ^^^ (b >>> n) := by
  apply Nat.eq_of_testBit_eq
  intro j
  simp only [Nat.testBit_shiftRight, Nat.testBit_xor]

/-- C6: `sha3_Finalize` applies the original Keccak padding. On a context with 25 lanes whose
cursor satisfies the cursor invariant, the state that is permuted is `s` with lane `wordIndex`
XORed with `saved ^ (1 << (8 * byteIndex))` and then lane `Rate - 1` XORed with
`0x8000000000000000`, where `Rate = 25 - capacityWords`; the final state is `keccakf` applied
once to that state; and the byte that the mask puts right after the buffered bytes is `0x01`,
not the SHA-3 suffix `0x06`. -/
theorem finalize_keccak_padding (ctx : sha3_context) (hlen : ctx.s.length = 25)
    (hb : ctx.byteIndex < 8) (hw : ctx.wordIndex < 25 - ctx.capacityWords)
    (hs : ctx.saved < 2 ^ (8 * ctx.byteIndex)) (i : Nat) (hi : i < 25) :
    sha3_Finalize_state ctx = keccakf (sha3_Finalize_padded ctx) ∧
    (sha3_Finalize_padded ctx).length = 25 ∧
    lane (sha3_Finalize_padded ctx) i =
      (lane ctx.s i ^^^
        (if i = ctx.wordIndex then ctx.saved ^^^ (1 <<< (8 * ctx.byteIndex)) else 0)) ^^^
        (if i = 25 - ctx.capacityWords - 1 then 0x8000000000000000 else 0) ∧
    ((ctx.saved ^^^ (1 <<< (8 * ctx.byteIndex))) >>> (8 * ctx.byteIndex)) % 256 = 0x01 ∧
    ((ctx.saved ^^^ (1 <<< (8 * ctx.byteIndex))) >>> (8 * ctx.byteIndex)) % 256 ≠ 0x06 := by
  have hk : (2 ^ 64 + SHA3_KECCAK_SPONGE_WORDS - ctx.capacityWords - 1) % 2 ^ 64 =
      25 - ctx.capacityWords - 1 := by
    unfold SHA3_KECCAK_SPONGE_WORDS
    norm_num
    omega
  have h1 : (1 <<< (ctx.byteIndex * 8)) % 2 ^ 64 = 1 <<< (8 * ctx.byteIndex) := by
    rw [Nat.mul_comm]
    have := shl_byte_mod 1 ctx.byteIndex hb
    rw [Nat.mul_comm] at this
    simpa using this
  have hbyte : ((ctx.saved ^^^ (1 <<< (8 * ctx.byteIndex))) >>> (8 * ctx.byteIndex)) % 256 = 1 := by
    rw [shiftRight_xor, Nat.shiftRight_eq_div_pow ctx.saved, Nat.div_eq_of_lt hs,
      Nat.shiftLeft_shiftRight]
    rfl
  refine ⟨rfl, ?_, ?_, hbyte, by rw [hbyte]; decide⟩
  · unfold sha3_Finalize_padded
    simp only [List.length_set, hlen]
  · unfold sha3_Finalize_padded
    simp only [hk, h1]
    rw [lane_set _ _ _ _ (by rw [List.length_set, hlen]; omega)]
    by_cases e1 : i = 25 - ctx.capacityWords - 1
    · rw [if_pos e1, if_pos e1, ← e1, lane_set _ _ _ _ (by rw [hlen]; omega)]
      by_cases e2 : i = ctx.wordIndex
      · rw [if_pos e2, if_pos e2, ← e2]
      · rw [if_neg e2, if_neg e2, Nat.xor_zero]
    · rw [if_neg e1, if_neg e1, Nat.xor_zero, lane_set _ _ _ _ (by rw [hlen]; omega)]
      by_cases e2 : i = ctx.wordIndex
      · rw [if_pos e2, if_pos e2, ← e2]
      · rw [if_neg e2, if_neg e2, Nat.xor_zero]

/-- Witness for C6: a context with two buffered bytes at word 3, read at lane 3. -/
theorem finalize_keccak_padding_witness :
    (⟨0x0201, List.replicate 25 7, 2, 3, 8⟩ : sha3_context).s.length = 25 ∧
    (⟨0x0201, List.replicate 25 7, 2, 3, 8⟩ : sha3_context).byteIndex < 8 ∧
    (⟨0x0201, List.replicate 25 7, 2, 3, 8⟩ : sha3_context).wordIndex <
      25 - (⟨0x0201, List.replicate 25 7, 2, 3, 8⟩ : sha3_context).capacityWords ∧
    (⟨0x0201, List.replicate 25 7, 2, 3, 8⟩ : sha3_context).saved <
      2 ^ (8 * (⟨0x0201, List.replicate 25 7, 2, 3, 8⟩ : sha3_context).byteIndex) ∧
    3 < 25 ∧
    lane (sha3_Finalize_padded ⟨0x0201, List.replicate 25 7, 2, 3, 8⟩) 3 =
      (7 ^^^ (0x0201 ^^^ (1 <<< (8 * 2)))) ^^^ 0 :=
  ⟨by decide, by decide, by decide, by decide, by decide,
    (finalize_keccak_padding ⟨0x0201, List.replicate 25 7, 2, 3, 8⟩ (by decide) (by decide)
      (by decide) (by decide) 3 (by decide)).2.2.1⟩

/-! ## Whole blocks -/

theorem xorWord_lt (ctx : sha3_context) (t : Nat)
    (h : ctx.wordIndex + 1 < 25 - ctx.capacityWords) :
    xorWord ctx t = { ctx with
      s := ctx.s.set ctx.wordIndex (lane ctx.s ctx.wordIndex ^^^ t)
      wordIndex := ctx.wordIndex + 1 } := by
  have hr := rateWords_eq ctx (by omega)
  unfold xorWord
  simp only [hr]
  have e : (ctx.wordIndex + 1) % 2 ^ 32 = ctx.wordIndex + 1 := by omega
  rw [e, if_neg (by omega)]

theorem xorWord_fill (ctx : sha3_context) (t : Nat)
    (h : ctx.wordIndex + 1 = 25 - ctx.capacityWords) :
    xorWord ctx t = { ctx with
      s := keccakf (ctx.s.set ctx.wordIndex (lane ctx.s ctx.wordIndex ^^^ t))
      wordIndex := 0 } := by
  have hr := rateWords_eq ctx (by omega)
  unfold xorWord
  simp only [hr]
  have e : (ctx.wordIndex + 1) % 2 ^ 32 = ctx.wordIndex + 1 := by omega
  rw [e, if_pos h]

theorem absorbWords_lt (n : Nat) (buf : List Nat) (ctx : sha3_context)
    (h : ctx.wordIndex + n < 25 - ctx.capacityWords) :
    absorbWords ctx buf n = { ctx with
      s := xorWordsAt ctx.s ctx.wordIndex buf n
      wordIndex := ctx.wordIndex + n } := by
  induction n generalizing buf ctx with
  | zero => rfl
  | succ n ih =>
    simp only [absorbWords, xorWordsAt]
    rw [xorWord_lt ctx _ (by omega), ih _ _ (by simp only; omega)]
    simp only [Nat.add_assoc, Nat.add_comm 1 n]

theorem absorbWords_fill (n : Nat) (buf : List Nat) (ctx : sha3_context)
    (h : ctx.wordIndex + (n + 1) = 25 - ctx.capacityWords) :
    absorbWords ctx buf (n + 1) = { ctx with
      s := keccakf (xorWordsAt ctx.s ctx.wordIndex buf (n + 1))
      wordIndex := 0 } := by
  induction n generalizing buf ctx with
  | zero =>
    simp only [absorbWords, xorWordsAt]
    rw [xorWord_fill ctx _ (by omega)]
  | succ n ih =>
    rw [absorbWords, xorWordsAt]
    rw [xorWord_lt ctx _ (by omega), ih _ _ (by simp only; omega)]

theorem foldl_absorbByte_blocks (k : Nat) (buf : List Nat) (ctx : sha3_context)
    (hb : ctx.byteIndex = 0) (hs : ctx.saved = 0) (hw : ctx.wordIndex = 0)
    (hc : ctx.capacityWords < 25) (hl : buf.length = 8 * (25 - ctx.capacityWords) * k) :
    buf.foldl absorbByte ctx =
      { ctx with s := absorbBlocks (25 - ctx.capacityWords) ctx.s buf k } := by
  induction k generalizing buf ctx with
  | zero =>
    have : buf = [] := List.length_eq_zero.mp (by simpa using hl)
    subst this
    rfl
  | succ k ih =>
    obtain ⟨r, hr⟩ : ∃ r, 25 - ctx.capacityWords = r + 1 := ⟨24 - ctx.capacityWords, by omega⟩
    have hlen : 8 * (25 - ctx.capacityWords) ≤ buf.length := by
      rw [hl, Nat.mul_succ]; omega
    have h1 := absorbWords_eq (25 - ctx.capacityWords) buf ctx hb hs hlen
    rw [hr, absorbWords_fill r buf ctx (by rw [hw]; omega), hw, ← hr] at h1
    conv_lhs => rw [← List.take_append_drop (8 * (25 - ctx.capacityWords)) buf]
    rw [List.foldl_append, ← h1,
      ih (buf.drop (8 * (25 - ctx.capacityWords)))
        { ctx with s := keccakf (xorWordsAt ctx.s 0 buf (25 - ctx.capacityWords)), wordIndex := 0 }
        hb hs rfl hc (by simp only [List.length_drop]; rw [hl, Nat.mul_succ]; omega)]
    rw [hw]
    rw [absorbBlocks]

/-- C9, as stated, fails: after absorbing 72 bytes (here 72 bytes `0x01`) from a freshly
initialised context the word cursor is 9, not 0, and the state holds the nine input words
XORed in, unpermuted. -/
theorem rate_edge_72_fails :
    (List.replicate 72 1).length % 72 = 0 ∧
    (sha3_Update sha3_Init256 (List.replicate 72 1)).wordIndex = 9 ∧
    ¬ (sha3_Update sha3_Init256 (List.replicate 72 1)).wordIndex = 0 ∧
    (sha3_Update sha3_Init256 (List.replicate 72 1)).s =
      List.replicate 9 0x0101010101010101 ++ List.replicate 16 0 := by
  decide!

/-- C9, amended: for every input whose length is an exact multiple of 136 bytes (the rate of
17 lanes), absorbing it with `sha3_Update` from a freshly initialised context leaves the context
at a rate edge: `byteIndex = 0`, `saved = 0`, `wordIndex = 0`, the capacity is unchanged, and the
state is the result of XORing each 136-byte block into the first 17 lanes and applying `keccakf`
once per block. -/
theorem rate_edge_136 (buf : List Nat) (k : Nat) (h : buf.length = 136 * k) :
    (sha3_Update sha3_Init256 buf).byteIndex = 0 ∧
    (sha3_Update sha3_Init256 buf).saved = 0 ∧
    (sha3_Update sha3_Init256 buf).wordIndex = 0 ∧
    (sha3_Update sha3_Init256 buf).capacityWords = 8 ∧
    (sha3_Update sha3_Init256 buf).s = absorbBlocks 17 (List.replicate 25 0) buf k := by
  have e := foldl_absorbByte_blocks k buf sha3_Init256 rfl rfl rfl (by decide) h
  rw [sha3_Update_eq_foldl _ _ cursorInv_init, e]
  exact ⟨rfl, rfl, rfl, rfl, rfl⟩

/-- Witness for C9 (amended): one block of 136 bytes `0x01`. -/
theorem rate_edge_136_witness :
    (List.replicate 136 1).length = 136 * 1 ∧
    ((sha3_Update sha3_Init256 (List.replicate 136 1)).byteIndex = 0 ∧
      (sha3_Update sha3_Init256 (List.replicate 136 1)).saved = 0 ∧
      (sha3_Update sha3_Init256 (List.replicate 136 1)).wordIndex = 0 ∧
      (sha3_Update sha3_Init256 (List.replicate 136 1)).capacityWords = 8 ∧
      (sha3_Update sha3_Init256 (List.replicate 136 1)).s =
        absorbBlocks 17 (List.replicate 25 0) (List.replicate 136 1) 1) :=
  ⟨by simp, rate_edge_136 (List.replicate 136 1) 1 (by simp)⟩

/-! ## Input validation -/

theorem char_le_iff (a b : Char) : a ≤ b ↔ a.toNat ≤ b.toNat := by
  rw [Char.le_def]
  rfl

theorem is_hex_char_ofNat : ∀ n < 128,
    is_hex_char (Char.ofNat n) = decide (Char.ofNat n ∈ hexChars) := by
  decide!

theorem hexChars_toNat_lt : ∀ c ∈ hexChars, c.toNat < 128 := by
  decide

theorem is_hex_char_iff (c : Char) : is_hex_char c = true ↔ c ∈ hexChars := by
  by_cases h : c.toNat < 128
  · have e := is_hex_char_ofNat c.toNat h
    rw [Char.ofNat_toNat] at e
    rw [e, decide_eq_true_iff]
  · constructor
    · intro hc
      exfalso
      apply h
      unfold is_hex_char at hc
      simp only [Bool.or_eq_true, Bool.and_eq_true, decide_eq_true_eq, char_le_iff] at hc
      have e9 : ('9' : Char).toNat = 57 := rfl
      have eF : ('F' : Char).toNat = 70 := rfl
      have ef : ('f' : Char).toNat = 102 := rfl
      rw [e9, eF, ef] at hc
      omega
    · intro hc
      exact absurd (hexChars_toNat_lt c hc) h

theorem any_not_hex_iff (input : List Char) :
    (input.any fun c => !is_hex_char c) = true ↔ ∃ c ∈ input, c ∉ hexChars := by
  simp only [List.any_eq_true, Bool.not_eq_true', ← is_hex_char_iff, Bool.not_eq_true]

theorem keccak256_odd (input_str : String) (h : input_str.length % 2 = 1) :
    keccak256 input_str =
      .error (.InvalidArgumentException "Input must be even-length hex string") := by
  have hl : input_str.data.length = input_str.length := rfl
  unfold keccak256
  simp only [hl]
  rw [if_neg (by omega), if_pos (by omega)]

theorem keccak256_nonhex (input_str : String) (h : input_str.length % 2 = 0)
    (hc : ∃ c ∈ input_str.data, c ∉ hexChars) :
    keccak256 input_str =
      .error (.InvalidArgumentException "Input contains non-hexadecimal characters") := by
  have hl : input_str.data.length = input_str.length := rfl
  have hne : input_str.length ≠ 0 := by
    intro h0
    obtain ⟨c, hm, -⟩ := hc
    rw [List.length_eq_zero.mp (hl.trans h0)] at hm
    exact absurd hm (List.not_mem_nil c)
  unfold keccak256
  simp only [hl]
  rw [if_neg hne, if_neg (by omega), if_pos ((any_not_hex_iff _).mpr hc)]

theorem keccak256_valid (input_str : String) (h : input_str.length % 2 = 0)
    (hc : ∀ c ∈ input_str.data, c ∈ hexChars) :
    keccak256 input_str =
      .ok (String.mk (hashToHex (sha3_Finalize
        (sha3_Update sha3_Init256 (hexToBinary input_str.data (input_str.length / 2)))))) := by
  have hl : input_str.data.length = input_str.length := rfl
  have hnot : ¬ (input_str.data.any fun c => !is_hex_char c) = true := by
    rw [any_not_hex_iff]
    rintro ⟨c, hm, hn⟩
    exact hn (hc c hm)
  unfold keccak256
  simp only [hl]
  by_cases h0 : input_str.length = 0
  · rw [if_pos h0]
    simp only [h0, Nat.zero_div, hexToBinary, List.range_zero, List.map_nil]
    rw [sha3_Update_nil _ (by decide)]
  · rw [if_neg h0, if_neg (by omega), if_neg hnot]
    simp only
    have hlen : (hexToBinary input_str.data (input_str.length / 2)).length > 0 := by
      unfold hexToBinary
      simp only [List.length_map, List.length_range]
      omega
    rw [if_pos hlen]

/-- C3: the wrapper `keccak256` fails with an input-validation error
(`InvalidArgumentException`) if and only if its string argument has odd length or contains a
character outside `[0-9A-Fa-f]`, and then no digest is returned; for every other string,
the empty string included, it succeeds and returns a digest. -/
theorem validation_error_iff (input_str : String) :
    ((∃ msg, keccak256 input_str = .error (.InvalidArgumentException msg)) ↔
      (input_str.length % 2 = 1 ∨ ∃ c ∈ input_str.data, c ∉ hexChars)) ∧
    ((∃ digest, keccak256 input_str = .ok digest) ↔
      ¬ (input_str.length % 2 = 1 ∨ ∃ c ∈ input_str.data, c ∉ hexChars)) ∧
    (∃ digest, keccak256 "" = .ok digest) := by
  have hempty : ∃ digest, keccak256 "" = .ok digest :=
    ⟨_, keccak256_valid "" rfl (fun c hm => absurd hm (List.not_mem_nil c))⟩
  by_cases hodd : input_str.length % 2 = 1
  · have e := keccak256_odd input_str hodd
    refine ⟨⟨fun _ => Or.inl hodd, fun _ => ⟨_, e⟩⟩, ⟨?_, fun hn => absurd (Or.inl hodd) hn⟩,
      hempty⟩
    rintro ⟨d, hd⟩
    rw [e] at hd
    cases hd
  · have heven : input_str.length % 2 = 0 := by omega
    by_cases hc : ∃ c ∈ input_str.data, c ∉ hexChars
    · have e := keccak256_nonhex input_str heven hc
      refine ⟨⟨fun _ => Or.inr hc, fun _ => ⟨_, e⟩⟩, ⟨?_, fun hn => absurd (Or.inr hc) hn⟩,
        hempty⟩
      rintro ⟨d, hd⟩
      rw [e] at hd
      cases hd
    · have hall : ∀ c ∈ input_str.data, c ∈ hexChars := by
        intro c hm
        by_contra hn
        exact hc ⟨c, hm, hn⟩
      have e := keccak256_valid input_str heven hall
      refine ⟨⟨?_, ?_⟩, ⟨fun _ => ?_, fun _ => ⟨_, e⟩⟩, hempty⟩
      · rintro ⟨m, hm⟩
        rw [e] at hm
        cases hm
      · rintro (h1 | h1)
        · exact absurd h1 hodd
        · exact absurd h1 hc
      · rintro (h1 | h1)
        · exact absurd h1 hodd
        · exact absurd h1 hc

/-! ## Output format -/

theorem nibbleChar_eq : ∀ n < 16, nibbleChar n = lowerHexDigits.getD n '0' := by
  decide

theorem nibbleChar_mem : ∀ n < 16, nibbleChar n ∈ lowerHexDigits := by
  decide

theorem high_nibble_byte : ∀ r < 256, ((r &&& 0xF0) >>> 4) % 256 = r / 16 := by
  decide!

theorem high_nibble_eq (b : Nat) : ((b &&& 0xF0) >>> 4) % 256 = (b / 16) % 16 := by
  have e : b &&& 0xF0 = (b % 256) &&& 0xF0 := by
    rw [← Nat.and_pow_two_sub_one_eq_mod b 8, Nat.and_assoc]
    rfl
  rw [e, high_nibble_byte _ (Nat.mod_lt _ (by norm_num))]
  omega

theorem low_nibble_eq (b : Nat) : (b &&& 0x0F) % 256 = b % 16 := by
  have e2 : ∀ x : Nat, x &&& 0xF = x % 16 := fun x => Nat.and_pow_two_sub_one_eq_mod x 4
  rw [e2]
  omega

theorem laneBytes_getD_lt (w k : Nat) : (laneBytes w).getD k 0 < 256 := by
  by_cases hk : k < 8
  · rw [laneBytes_getD w k hk]
    have e : ∀ x : Nat, x &&& 0xff = x % 256 := fun x => Nat.and_pow_two_sub_one_eq_mod x 8
    rw [e]
    exact Nat.mod_lt _ (by norm_num)
  · rw [List.getD_eq_default _ _ (by rw [laneBytes_length]; omega)]
    norm_num

theorem sha3_Finalize_getD_lt (ctx : sha3_context) (i : Nat) :
    (sha3_Finalize ctx).getD i 0 < 256 := by
  unfold sha3_Finalize
  simp only
  by_cases hi : i < 8 * SHA3_KECCAK_SPONGE_WORDS
  · rw [flatMap_range_getD _ 8 (fun j => laneBytes_length _) 0 _ i hi]
    exact laneBytes_getD_lt _ _
  · rw [List.getD_eq_default _ _
      (by rw [flatMap_range_length _ 8 (fun j => laneBytes_length _)]; omega)]
    norm_num

theorem hexPair_length (b : Nat) : (hexPair b).length = 2 := rfl

theorem hashToHex_length (hash : List Nat) : (hashToHex hash).length = 64 := by
  unfold hashToHex
  rw [flatMap_range_length _ 2 (fun j => hexPair_length _)]

theorem hashToHex_mem (hash : List Nat) : ∀ c ∈ hashToHex hash, c ∈ lowerHexDigits := by
  intro c hc
  unfold hashToHex at hc
  simp only [List.mem_flatMap, List.mem_range, hexPair, List.mem_cons, List.mem_singleton,
    List.not_mem_nil, or_false] at hc
  obtain ⟨j, -, h | h⟩ := hc
  · rw [h, high_nibble_eq]
    exact nibbleChar_mem _ (Nat.mod_lt _ (by norm_num))
  · rw [h, low_nibble_eq]
    exact nibbleChar_mem _ (Nat.mod_lt _ (by norm_num))

theorem hashToHex_getD (hash : List Nat) (i : Nat) (hi : i < 32)
    (hb : lane hash i < 256) :
    (hashToHex hash).getD (2 * i) '0' = lowerHexDigits.getD (lane hash i / 16) '0' ∧
    (hashToHex hash).getD (2 * i + 1) '0' = lowerHexDigits.getD (lane hash i % 16) '0' := by
  have h1 : (2 * i) / 2 = i := by omega
  have h2 : (2 * i) % 2 = 0 := by omega
  have h3 : (2 * i + 1) / 2 = i := by omega
  have h4 : (2 * i + 1) % 2 = 1 := by omega
  have hd : lane hash i / 16 % 16 = lane hash i / 16 := by omega
  unfold hashToHex
  rw [flatMap_range_getD _ 2 (fun j => hexPair_length _) _ 32 (2 * i) (by omega),
    flatMap_range_getD _ 2 (fun j => hexPair_length _) _ 32 (2 * i + 1) (by omega),
    h1, h2, h3, h4]
  simp only [hexPair, List.getD_cons_zero, List.getD_cons_succ, high_nibble_eq, low_nibble_eq,
    hd]
  exact ⟨nibbleChar_eq _ (by omega), nibbleChar_eq _ (by omega)⟩

/-- C4: for every valid input (even length, all characters in `[0-9A-Fa-f]`) of any length,
the wrapper succeeds, the returned string has exactly 64 characters, every character is a
lowercase hex digit, and for `i = 0..31` the characters `2i` and `2i + 1` are the hex digits of
the high nibble and of the low nibble of byte `i` of the digest returned by `sha3_Finalize`. -/
theorem output_format (input_str : String) (hlen : input_str.length % 2 = 0)
    (hhex : ∀ c ∈ input_str.data, c ∈ hexChars) (i : Nat) (hi : i < 32) :
    ∃ out : String, keccak256 input_str = .ok out ∧ out.length = 64 ∧
      (∀ c ∈ out.data, c ∈ lowerHexDigits) ∧
      (sha3_Finalize (sha3_Update sha3_Init256
        (hexToBinary input_str.data (input_str.length / 2)))).getD i 0 < 256 ∧
      out.data.getD (2 * i) '0' = lowerHexDigits.getD
        ((sha3_Finalize (sha3_Update sha3_Init256
          (hexToBinary input_str.data (input_str.length / 2)))).getD i 0 / 16) '0' ∧
      out.data.getD (2 * i + 1) '0' = lowerHexDigits.getD
        ((sha3_Finalize (sha3_Update sha3_Init256
          (hexToBinary input_str.data (input_str.length / 2)))).getD i 0 % 16) '0' := by
  have hb := sha3_Finalize_getD_lt (sha3_Update sha3_Init256
    (hexToBinary input_str.data (input_str.length / 2))) i
  obtain ⟨g1, g2⟩ := hashToHex_getD _ i hi hb
  exact ⟨_, keccak256_valid input_str hlen hhex, hashToHex_length _, hashToHex_mem _, hb, g1, g2⟩

/-- Witness for C4: the two-byte input `00ff` (mixed case), read at digest byte 5. -/
theorem output_format_witness :
    ("00fF" : String).length % 2 = 0 ∧ (∀ c ∈ ("00fF" : String).data, c ∈ hexChars) ∧ 5 < 32 ∧
    ∃ out : String, keccak256 "00fF" = .ok out ∧ out.length = 64 ∧
      (∀ c ∈ out.data, c ∈ lowerHexDigits) ∧
      (sha3_Finalize (sha3_Update sha3_Init256
        (hexToBinary ("00fF" : String).data (("00fF" : String).length / 2)))).getD 5 0 < 256 ∧
      out.data.getD (2 * 5) '0' = lowerHexDigits.getD
        ((sha3_Finalize (sha3_Update sha3_Init256
          (hexToBinary ("00fF" : String).data (("00fF" : String).length / 2)))).getD 5 0 / 16)
          '0' ∧
      out.data.getD (2 * 5 + 1) '0' = lowerHexDigits.getD
        ((sha3_Finalize (sha3_Update sha3_Init256
          (hexToBinary ("00fF" : String).data (("00fF" : String).length / 2)))).getD 5 0 % 16)
          '0' :=
  ⟨by decide, by decide, by decide, output_format "00fF" (by decide) (by decide) 5 (by decide)⟩

/-! ## The steps of a round -/

theorem range_5 : List.range 5 = [0, 1, 2, 3, 4] := by decide

theorem range_24 : List.range 24 =
    [0, 1, 2, 3, 4, 5, 6, 7, 8, 9, 10, 11, 12, 13, 14, 15, 16, 17, 18, 19, 20, 21, 22, 23] := by
  decide

theorem tables_walk : ∀ t < 24,
    lane keccakf_piln t = (piWalk (t + 1)).1 + 5 * (piWalk (t + 1)).2 ∧
    lane keccakf_rotc t = ((t + 1) * (t + 2) / 2) % 64 := by
  decide

theorem rndc_lfsr :
    (∀ r < 24, ∀ j < 7, (lane keccakf_rndc r).testBit (2 ^ j - 1) = rc (j + 7 * r)) ∧
    (∀ r < 24, ∀ k < 64, k ∉ [0, 1, 3, 7, 15, 31, 63] → (lane keccakf_rndc r).testBit k = false) ∧
    (∀ r < 24, lane keccakf_rndc r < 2 ^ 64) := by
  decide!

theorem exists_cons_of_length (s : List Nat) (n : Nat) (h : s.length = n + 1) :
    ∃ a t, s = a :: t ∧ t.length = n := by
  cases s with
  | nil => simp at h
  | cons a t => exact ⟨a, t, rfl, by simpa using h⟩

theorem eq_of_length_25 (s : List Nat) (h : s.length = 25) :
    ∃ a0 a1 a2 a3 a4 a5 a6 a7 a8 a9 a10 a11 a12 a13 a14 a15 a16 a17 a18 a19 a20 a21 a22 a23 a24,
      s = [a0, a1, a2, a3, a4, a5, a6, a7, a8, a9, a10, a11, a12, a13, a14, a15, a16, a17, a18, a19, a20, a21, a22, a23, a24] := by
  obtain ⟨a0, t0, rfl, h0⟩ := exists_cons_of_length s 24 h
  obtain ⟨a1, t1, rfl, h1⟩ := exists_cons_of_length t0 23 h0
  obtain ⟨a2, t2, rfl, h2⟩ := exists_cons_of_length t1 22 h1
  obtain ⟨a3, t3, rfl, h3⟩ := exists_cons_of_length t2 21 h2
  obtain ⟨a4, t4, rfl, h4⟩ := exists_cons_of_length t3 20 h3
  obtain ⟨a5, t5, rfl, h5⟩ := exists_cons_of_length t4 19 h4
  obtain ⟨a6, t6, rfl, h6⟩ := exists_cons_of_length t5 18 h5
  obtain ⟨a7, t7, rfl, h7⟩ := exists_cons_of_length t6 17 h6
  obtain ⟨a8, t8, rfl, h8⟩ := exists_cons_of_length t7 16 h7
  obtain ⟨a9, t9, rfl, h9⟩ := exists_cons_of_length t8 15 h8
  obtain ⟨a10, t10, rfl, h10⟩ := exists_cons_of_length t9 14 h9
  obtain ⟨a11, t11, rfl, h11⟩ := exists_cons_of_length t10 13 h10
  obtain ⟨a12, t12, rfl, h12⟩ := exists_cons_of_length t11 12 h11
  obtain ⟨a13, t13, rfl, h13⟩ := exists_cons_of_length t12 11 h12
  obtain ⟨a14, t14, rfl, h14⟩ := exists_cons_of_length t13 10 h13
  obtain ⟨a15, t15, rfl, h15⟩ := exists_cons_of_length t14 9 h14
  obtain ⟨a16, t16, rfl, h16⟩ := exists_cons_of_length t15 8 h15
  obtain ⟨a17, t17, rfl, h17⟩ := exists_cons_of_length t16 7 h16
  obtain ⟨a18, t18, rfl, h18⟩ := exists_cons_of_length t17 6 h17
  obtain ⟨a19, t19, rfl, h19⟩ := exists_cons_of_length t18 5 h18
  obtain ⟨a20, t20, rfl, h20⟩ := exists_cons_of_length t19 4 h19
  obtain ⟨a21, t21, rfl, h21⟩ := exists_cons_of_length t20 3 h20
  obtain ⟨a22, t22, rfl, h22⟩ := exists_cons_of_length t21 2 h21
  obtain ⟨a23, t23, rfl, h23⟩ := exists_cons_of_length t22 1 h22
  obtain ⟨a24, t24, rfl, h24⟩ := exists_cons_of_length t23 0 h23
  have hnil : t24 = [] := List.length_eq_zero.mp h24
  subst hnil
  exact ⟨a0, a1, a2, a3, a4, a5, a6, a7, a8, a9, a10, a11, a12, a13, a14, a15, a16, a17, a18, a19, a20, a21, a22, a23, a24, rfl⟩

theorem rhoPi_explicit (a0 a1 a2 a3 a4 a5 a6 a7 a8 a9 a10 a11 a12 a13 a14 a15 a16 a17 a18 a19 a20
    a21 a22 a23 a24 : Nat) :
    keccakf_rhoPi [a0, a1, a2, a3, a4, a5, a6, a7, a8, a9, a10, a11, a12, a13, a14, a15, a16,
      a17, a18, a19, a20, a21, a22, a23, a24] =
    [a0, SHA3_ROTL64 a6 44, SHA3_ROTL64 a12 43, SHA3_ROTL64 a18 21, SHA3_ROTL64 a24 14,
     SHA3_ROTL64 a3 28, SHA3_ROTL64 a9 20, SHA3_ROTL64 a10 3, SHA3_ROTL64 a16 45,
     SHA3_ROTL64 a22 61, SHA3_ROTL64 a1 1, SHA3_ROTL64 a7 6, SHA3_ROTL64 a13 25,
     SHA3_ROTL64 a19 8, SHA3_ROTL64 a20 18, SHA3_ROTL64 a4 27, SHA3_ROTL64 a5 36,
     SHA3_ROTL64 a11 10, SHA3_ROTL64 a17 15, SHA3_ROTL64 a23 56, SHA3_ROTL64 a2 62,
     SHA3_ROTL64 a8 55, SHA3_ROTL64 a14 39, SHA3_ROTL64 a15 41, SHA3_ROTL64 a21 2] := by
  simp only [keccakf_rhoPi, range_24, List.foldl_cons, List.foldl_nil, keccakf_rhoPi_step, lane,
    keccakf_piln, keccakf_rotc, List.getD_cons_succ, List.getD_cons_zero, List.set_cons_succ,
    List.set_cons_zero]

theorem theta_explicit (a0 a1 a2 a3 a4 a5 a6 a7 a8 a9 a10 a11 a12 a13 a14 a15 a16 a17 a18 a19 a20
    a21 a22 a23 a24 : Nat) :
    keccakf_theta [a0, a1, a2, a3, a4, a5, a6, a7, a8, a9, a10, a11, a12, a13, a14, a15, a16,
      a17, a18, a19, a20, a21, a22, a23, a24] =
    [a0 ^^^ ((a4 ^^^ a9 ^^^ a14 ^^^ a19 ^^^ a24) ^^^ SHA3_ROTL64 (a1 ^^^ a6 ^^^ a11 ^^^ a16 ^^^ a21) 1),
     a1 ^^^ ((a0 ^^^ a5 ^^^ a10 ^^^ a15 ^^^ a20) ^^^ SHA3_ROTL64 (a2 ^^^ a7 ^^^ a12 ^^^ a17 ^^^ a22) 1),
     a2 ^^^ ((a1 ^^^ a6 ^^^ a11 ^^^ a16 ^^^ a21) ^^^ SHA3_ROTL64 (a3 ^^^ a8 ^^^ a13 ^^^ a18 ^^^ a23) 1),
     a3 ^^^ ((a2 ^^^ a7 ^^^ a12 ^^^ a17 ^^^ a22) ^^^ SHA3_ROTL64 (a4 ^^^ a9 ^^^ a14 ^^^ a19 ^^^ a24) 1),
     a4 ^^^ ((a3 ^^^ a8 ^^^ a13 ^^^ a18 ^^^ a23) ^^^ SHA3_ROTL64 (a0 ^^^ a5 ^^^ a10 ^^^ a15 ^^^ a20) 1),
     a5 ^^^ ((a4 ^^^ a9 ^^^ a14 ^^^ a19 ^^^ a24) ^^^ SHA3_ROTL64 (a1 ^^^ a6 ^^^ a11 ^^^ a16 ^^^ a21) 1),
     a6 ^^^ ((a0 ^^^ a5 ^^^ a10 ^^^ a15 ^^^ a20) ^^^ SHA3_ROTL64 (a2 ^^^ a7 ^^^ a12 ^^^ a17 ^^^ a22) 1),
     a7 ^^^ ((a1 ^^^ a6 ^^^ a11 ^^^ a16 ^^^ a21) ^^^ SHA3_ROTL64 (a3 ^^^ a8 ^^^ a13 ^^^ a18 ^^^ a23) 1),
     a8 ^^^ ((a2 ^^^ a7 ^^^ a12 ^^^ a17 ^^^ a22) ^^^ SHA3_ROTL64 (a4 ^^^ a9 ^^^ a14 ^^^ a19 ^^^ a24) 1),
     a9 ^^^ ((a3 ^^^ a8 ^^^ a13 ^^^ a18 ^^^ a23) ^^^ SHA3_ROTL64 (a0 ^^^ a5 ^^^ a10 ^^^ a15 ^^^ a20) 1),
     a10 ^^^ ((a4 ^^^ a9 ^^^ a14 ^^^ a19 ^^^ a24) ^^^ SHA3_ROTL64 (a1 ^^^ a6 ^^^ a11 ^^^ a16 ^^^ a21) 1),
     a11 ^^^ ((a0 ^^^ a5 ^^^ a10 ^^^ a15 ^^^ a20) ^^^ SHA3_ROTL64 (a2 ^^^ a7 ^^^ a12 ^^^ a17 ^^^ a22) 1),
     a12 ^^^ ((a1 ^^^ a6 ^^^ a11 ^^^ a16 ^^^ a21) ^^^ SHA3_ROTL64 (a3 ^^^ a8 ^^^ a13 ^^^ a18 ^^^ a23) 1),
     a13 ^^^ ((a2 ^^^ a7 ^^^ a12 ^^^ a17 ^^^ a22) ^^^ SHA3_ROTL64 (a4 ^^^ a9 ^^^ a14 ^^^ a19 ^^^ a24) 1),
     a14 ^^^ ((a3 ^^^ a8 ^^^ a13 ^^^ a18 ^^^ a23) ^^^ SHA3_ROTL64 (a0 ^^^ a5 ^^^ a10 ^^^ a15 ^^^ a20) 1),
     a15 ^^^ ((a4 ^^^ a9 ^^^ a14 ^^^ a19 ^^^ a24) ^^^ SHA3_ROTL64 (a1 ^^^ a6 ^^^ a11 ^^^ a16 ^^^ a21) 1),
     a16 ^^^ ((a0 ^^^ a5 ^^^ a10 ^^^ a15 ^^^ a20) ^^^ SHA3_ROTL64 (a2 ^^^ a7 ^^^ a12 ^^^ a17 ^^^ a22) 1),
     a17 ^^^ ((a1 ^^^ a6 ^^^ a11 ^^^ a16 ^^^ a21) ^^^ SHA3_ROTL64 (a3 ^^^ a8 ^^^ a13 ^^^ a18 ^^^ a23) 1),
     a18 ^^^ ((a2 ^^^ a7 ^^^ a12 ^^^ a17 ^^^ a22) ^^^ SHA3_ROTL64 (a4 ^^^ a9 ^^^ a14 ^^^ a19 ^^^ a24) 1),
     a19 ^^^ ((a3 ^^^ a8 ^^^ a13 ^^^ a18 ^^^ a23) ^^^ SHA3_ROTL64 (a0 ^^^ a5 ^^^ a10 ^^^ a15 ^^^ a20) 1),
     a20 ^^^ ((a4 ^^^ a9 ^^^ a14 ^^^ a19 ^^^ a24) ^^^ SHA3_ROTL64 (a1 ^^^ a6 ^^^ a11 ^^^ a16 ^^^ a21) 1),
     a21 ^^^ ((a0 ^^^ a5 ^^^ a10 ^^^ a15 ^^^ a20) ^^^ SHA3_ROTL64 (a2 ^^^ a7 ^^^ a12 ^^^ a17 ^^^ a22) 1),
     a22 ^^^ ((a1 ^^^ a6 ^^^ a11 ^^^ a16 ^^^ a21) ^^^ SHA3_ROTL64 (a3 ^^^ a8 ^^^ a13 ^^^ a18 ^^^ a23) 1),
     a23 ^^^ ((a2 ^^^ a7 ^^^ a12 ^^^ a17 ^^^ a22) ^^^ SHA3_ROTL64 (a4 ^^^ a9 ^^^ a14 ^^^ a19 ^^^ a24) 1),
     a24 ^^^ ((a3 ^^^ a8 ^^^ a13 ^^^ a18 ^^^ a23) ^^^ SHA3_ROTL64 (a0 ^^^ a5 ^^^ a10 ^^^ a15 ^^^ a20) 1)] := by
  simp only [keccakf_theta, range_5, List.map_cons, List.map_nil, List.foldl_cons,
    List.foldl_nil, lane, List.getD_cons_succ, List.getD_cons_zero, List.set_cons_succ,
    List.set_cons_zero, Nat.reduceAdd, Nat.reduceMod]

theorem chi_explicit (a0 a1 a2 a3 a4 a5 a6 a7 a8 a9 a10 a11 a12 a13 a14 a15 a16 a17 a18 a19 a20
    a21 a22 a23 a24 : Nat) :
    keccakf_chi [a0, a1, a2, a3, a4, a5, a6, a7, a8, a9, a10, a11, a12, a13, a14, a15, a16,
      a17, a18, a19, a20, a21, a22, a23, a24] =
    [a0 ^^^ (not64 a1 &&& a2), a1 ^^^ (not64 a2 &&& a3), a2 ^^^ (not64 a3 &&& a4),
     a3 ^^^ (not64 a4 &&& a0), a4 ^^^ (not64 a0 &&& a1),
     a5 ^^^ (not64 a6 &&& a7), a6 ^^^ (not64 a7 &&& a8), a7 ^^^ (not64 a8 &&& a9),
     a8 ^^^ (not64 a9 &&& a5), a9 ^^^ (not64 a5 &&& a6),
     a10 ^^^ (not64 a11 &&& a12), a11 ^^^ (not64 a12 &&& a13), a12 ^^^ (not64 a13 &&& a14),
     a13 ^^^ (not64 a14 &&& a10), a14 ^^^ (not64 a10 &&& a11),
     a15 ^^^ (not64 a16 &&& a17), a16 ^^^ (not64 a17 &&& a18), a17 ^^^ (not64 a18 &&& a19),
     a18 ^^^ (not64 a19 &&& a15), a19 ^^^ (not64 a15 &&& a16),
     a20 ^^^ (not64 a21 &&& a22), a21 ^^^ (not64 a22 &&& a23), a22 ^^^ (not64 a23 &&& a24),
     a23 ^^^ (not64 a24 &&& a20), a24 ^^^ (not64 a20 &&& a21)] := by
  simp only [keccakf_chi, range_5, List.map_cons, List.map_nil, List.foldl_cons,
    List.foldl_nil, lane, List.getD_cons_succ, List.getD_cons_zero, List.set_cons_succ,
    List.set_cons_zero, Nat.reduceAdd, Nat.reduceMod]

/-- C15: the Theta step. For a state `s` of 25 lanes, with `bc[i]` the XOR of the five lanes
`s[i], s[i+5], s[i+10], s[i+15], s[i+20]` of the state before the step, every lane
`s[i + 5j]`, `i, j` in `0..4`, becomes
`s[i + 5j] XOR bc[(i+4) mod 5] XOR rotl64(bc[(i+1) mod 5], 1)`; the parities are those of the
pre-step state, and Theta is the first step of a round. -/
theorem theta_step (s : List Nat) (hs : s.length = 25) (i j : Nat) (hi : i < 5) (hj : j < 5)
    (round : Nat) :
    lane (keccakf_theta s) (i + 5 * j) =
      lane s (i + 5 * j) ^^^ columnParity s ((i + 4) % 5) ^^^
        SHA3_ROTL64 (columnParity s ((i + 1) % 5)) 1 ∧
    (keccakf_theta s).length = 25 ∧
    keccakf_round s round = keccakf_iota round (keccakf_chi (keccakf_rhoPi (keccakf_theta s))) := by
  have hround : keccakf_round s round =
      keccakf_iota round (keccakf_chi (keccakf_rhoPi (keccakf_theta s))) := rfl
  obtain ⟨a0, a1, a2, a3, a4, a5, a6, a7, a8, a9, a10, a11, a12, a13, a14, a15, a16, a17, a18,
    a19, a20, a21, a22, a23, a24, rfl⟩ := eq_of_length_25 s hs
  refine ⟨?_, ?_, hround⟩
  swap
  · rw [theta_explicit]; rfl
  rw [theta_explicit]
  interval_cases i <;> interval_cases j <;>
    simp only [lane, columnParity, List.getD_cons_succ, List.getD_cons_zero, Nat.reduceAdd,
      Nat.reduceMul, Nat.reduceMod, Nat.xor_assoc]

/-- Witness for C15: lane `(i, j) = (3, 2)` of the probe state. -/
theorem theta_step_witness :
    probeState.length = 25 ∧ 3 < 5 ∧ 2 < 5 ∧
    (lane (keccakf_theta probeState) (3 + 5 * 2) =
      lane probeState (3 + 5 * 2) ^^^ columnParity probeState ((3 + 4) % 5) ^^^
        SHA3_ROTL64 (columnParity probeState ((3 + 1) % 5)) 1 ∧
    (keccakf_theta probeState).length = 25 ∧
    keccakf_round probeState 0 =
      keccakf_iota 0 (keccakf_chi (keccakf_rhoPi (keccakf_theta probeState)))) :=
  ⟨by decide, by decide, by decide, theta_step probeState (by decide) 3 2 (by decide) (by decide) 0⟩

/-- C16: the Chi step uses the pre-step values of the row. For a state `s` of 25 lanes, every
row `j` and every `i` in `0..4`, the new lane `5j + i` is
`s[5j + i] XOR ((NOT s[5j + (i+1) mod 5]) AND s[5j + (i+2) mod 5])`, where `s` is the state
before the Chi step. -/
theorem chi_step (s : List Nat) (hs : s.length = 25) (i j : Nat) (hi : i < 5) (hj : j < 5) :
    lane (keccakf_chi s) (5 * j + i) =
      lane s (5 * j + i) ^^^
        (not64 (lane s (5 * j + (i + 1) % 5)) &&& lane s (5 * j + (i + 2) % 5)) ∧
    (keccakf_chi s).length = 25 := by
  obtain ⟨a0, a1, a2, a3, a4, a5, a6, a7, a8, a9, a10, a11, a12, a13, a14, a15, a16, a17, a18,
    a19, a20, a21, a22, a23, a24, rfl⟩ := eq_of_length_25 s hs
  rw [chi_explicit]
  refine ⟨?_, rfl⟩
  interval_cases i <;> interval_cases j <;>
    simp only [lane, List.getD_cons_succ, List.getD_cons_zero, Nat.reduceAdd, Nat.reduceMul,
      Nat.reduceMod]

/-- Witness for C16: lane `i = 4` of row `j = 1` of the probe state, which reads lanes 5 and 6,
both already rewritten when lane 9 is updated. -/
theorem chi_step_witness :
    probeState.length = 25 ∧ 4 < 5 ∧ 1 < 5 ∧
    (lane (keccakf_chi probeState) (5 * 1 + 4) =
      lane probeState (5 * 1 + 4) ^^^
        (not64 (lane probeState (5 * 1 + (4 + 1) % 5)) &&&
          lane probeState (5 * 1 + (4 + 2) % 5)) ∧
    (keccakf_chi probeState).length = 25) :=
  ⟨by decide, by decide, by decide, chi_step probeState (by decide) 4 1 (by decide) (by decide)⟩

/-- C13: the tables of the fused Rho+Pi step reproduce the published definition. With
`(x_0, y_0) = (1, 0)` and `(x_{t+1}, y_{t+1}) = (y_t, (2 x_t + 3 y_t) mod 5)`, for every `t` in
`0..23`, `keccakf_piln[t] = x_{t+1} + 5 y_{t+1}` and `keccakf_rotc[t] = ((t+1)(t+2)/2) mod 64`;
and the step maps a state `s` of 25 lanes to the state whose lane `keccakf_piln[t]` is
`rotl64(s[p_t], keccakf_rotc[t])`, where `p_0 = 1` and `p_t = keccakf_piln[t-1]`, with lane 0
unchanged. -/
theorem rhoPi_tables (s : List Nat) (hs : s.length = 25) (t : Nat) (ht : t < 24) :
    lane keccakf_piln t = (piWalk (t + 1)).1 + 5 * (piWalk (t + 1)).2 ∧
    lane keccakf_rotc t = ((t + 1) * (t + 2) / 2) % 64 ∧
    rhoPiRead 0 = 1 ∧
    rhoPiRead (t + 1) = lane keccakf_piln t ∧
    lane (keccakf_rhoPi s) (lane keccakf_piln t) =
      SHA3_ROTL64 (lane s (rhoPiRead t)) (lane keccakf_rotc t) ∧
    lane (keccakf_rhoPi s) 0 = lane s 0 ∧
    (keccakf_rhoPi s).length = 25 := by
  obtain ⟨a0, a1, a2, a3, a4, a5, a6, a7, a8, a9, a10, a11, a12, a13, a14, a15, a16, a17, a18,
    a19, a20, a21, a22, a23, a24, rfl⟩ := eq_of_length_25 s hs
  rw [rhoPi_explicit]
  refine ⟨(tables_walk t ht).1, (tables_walk t ht).2, rfl, rfl, ?_, rfl, rfl⟩
  interval_cases t <;>
    simp only [lane, rhoPiRead, keccakf_piln, keccakf_rotc, List.getD_cons_succ,
      List.getD_cons_zero, Nat.reduceSub, if_true, if_false, OfNat.ofNat_ne_zero,
      Nat.succ_ne_zero, one_ne_zero]

/-- Witness for C13: iteration `t = 7` on the probe state. -/
theorem rhoPi_tables_witness :
    probeState.length = 25 ∧ 7 < 24 ∧
    (lane keccakf_piln 7 = (piWalk (7 + 1)).1 + 5 * (piWalk (7 + 1)).2 ∧
    lane keccakf_rotc 7 = ((7 + 1) * (7 + 2) / 2) % 64 ∧
    rhoPiRead 0 = 1 ∧
    rhoPiRead (7 + 1) = lane keccakf_piln 7 ∧
    lane (keccakf_rhoPi probeState) (lane keccakf_piln 7) =
      SHA3_ROTL64 (lane probeState (rhoPiRead 7)) (lane keccakf_rotc 7) ∧
    lane (keccakf_rhoPi probeState) 0 = lane probeState 0 ∧
    (keccakf_rhoPi probeState).length = 25) :=
  ⟨by decide, by decide, rhoPi_tables probeState (by decide) 7 (by decide)⟩

/-- C14: the 24 Iota round constants are the LFSR-derived published values. For every round
`r` in `0..23` and every `j` in `0..6`, bit `2^j - 1` of `keccakf_rndc[r]` equals
`rc(j + 7r)`, the output of the LFSR with polynomial `x^8 + x^6 + x^5 + x^4 + 1` started
from 1, and every other bit of `keccakf_rndc[r]` is zero; Iota XORs `keccakf_rndc[round]` into
lane 0 and leaves every other lane unchanged. -/
theorem iota_round_constants (s : List Nat) (hs : s.length = 25) (round i : Nat)
    (hi : i ≠ 0) :
    (∀ r < 24, ∀ j < 7, (lane keccakf_rndc r).testBit (2 ^ j - 1) = rc (j + 7 * r)) ∧
    (∀ r < 24, ∀ k < 64, k ∉ [0, 1, 3, 7, 15, 31, 63] →
      (lane keccakf_rndc r).testBit k = false) ∧
    (∀ r < 24, lane keccakf_rndc r < 2 ^ 64) ∧
    lane (keccakf_iota round s) 0 = lane s 0 ^^^ lane keccakf_rndc round ∧
    lane (keccakf_iota round s) i = lane s i ∧
    (keccakf_iota round s).length = 25 := by
  refine ⟨rndc_lfsr.1, rndc_lfsr.2.1, rndc_lfsr.2.2, ?_, ?_, ?_⟩
  · unfold keccakf_iota
    rw [lane_set _ _ _ _ (by omega), if_pos rfl]
  · unfold keccakf_iota
    rw [lane_set _ _ _ _ (by omega), if_neg hi]
  · unfold keccakf_iota
    rw [List.length_set, hs]

/-- Witness for C14: round 3 on the probe state, read at lane 5. -/
theorem iota_round_constants_witness :
    probeState.length = 25 ∧ 5 ≠ 0 ∧
    ((∀ r < 24, ∀ j < 7, (lane keccakf_rndc r).testBit (2 ^ j - 1) = rc (j + 7 * r)) ∧
    (∀ r < 24, ∀ k < 64, k ∉ [0, 1, 3, 7, 15, 31, 63] →
      (lane keccakf_rndc r).testBit k = false) ∧
    (∀ r < 24, lane keccakf_rndc r < 2 ^ 64) ∧
    lane (keccakf_iota 3 probeState) 0 = lane probeState 0 ^^^ lane keccakf_rndc 3 ∧
    lane (keccakf_iota 3 probeState) 5 = lane probeState 5 ∧
    (keccakf_iota 3 probeState).length = 25) :=
  ⟨by decide, by decide, iota_round_constants probeState (by decide) 3 5 (by decide)⟩

/-- C17, as stated, fails: on the probe state, whose 25 lanes are all different, the Rho Pi step
changes 24 lanes, not 23, and lane 0 is the only lane left in place. -/
theorem rhoPi_not_23 :
    ((List.range 25).filter fun j =>
      lane (keccakf_rhoPi probeState) j ≠ lane probeState j).length = 24 ∧
    ((List.range 25).filter fun j =>
      lane (keccakf_rhoPi probeState) j = lane probeState j) = [0] ∧
    ¬ ((List.range 25).filter fun j =>
      lane (keccakf_rhoPi probeState) j ≠ lane probeState j).length = 23 := by
  decide!

theorem rhoPiSource_facts :
    (∀ j < 25, j ≠ 0 → rhoPiSource j ≠ j ∧ rhoPiSource j ≠ 0 ∧ rhoPiSource j < 25 ∧
      1 ≤ rhoPiRot j ∧ rhoPiRot j ≤ 63) ∧
    rhoPiSource 0 = 0 ∧
    ((List.range 25).filter fun j => rhoPiSource j ≠ j).length = 24 ∧
    ((List.range 25).filter fun j => rhoPiSource j = j) = [0] ∧
    ((List.range 25).map rhoPiSource).Perm (List.range 25) := by
  decide

/-- C17, amended: the fused Rho+Pi step relocates exactly 24 of the 25 lanes. On a state of 25
lanes every lane position `j` in `1..24` receives the content of the different lane position
`rhoPiSource j`, rotated by `rhoPiRot j` in `[1, 63]`; the source positions are a permutation
of the lane positions; and lane 0 alone is left in place. -/
theorem rhoPi_relocates_24 (s : List Nat) (hs : s.length = 25) (j : Nat) (hj : j < 25) :
    lane (keccakf_rhoPi s) j =
      (if j = 0 then lane s 0 else SHA3_ROTL64 (lane s (rhoPiSource j)) (rhoPiRot j)) ∧
    (∀ k < 25, k ≠ 0 → rhoPiSource k ≠ k ∧ rhoPiSource k ≠ 0 ∧ rhoPiSource k < 25 ∧
      1 ≤ rhoPiRot k ∧ rhoPiRot k ≤ 63) ∧
    rhoPiSource 0 = 0 ∧
    ((List.range 25).filter fun k => rhoPiSource k ≠ k).length = 24 ∧
    ((List.range 25).filter fun k => rhoPiSource k = k) = [0] ∧
    ((List.range 25).map rhoPiSource).Perm (List.range 25) := by
  refine ⟨?_, rhoPiSource_facts⟩
  obtain ⟨a0, a1, a2, a3, a4, a5, a6, a7, a8, a9, a10, a11, a12, a13, a14, a15, a16, a17, a18,
    a19, a20, a21, a22, a23, a24, rfl⟩ := eq_of_length_25 s hs
  rw [rhoPi_explicit]
  interval_cases j <;> simp only [lane, List.getD_cons_succ, List.getD_cons_zero, if_true] <;>
    rfl

/-- Witness for C17 (amended): lane 10 of the probe state, which receives lane 1 rotated by 1. -/
theorem rhoPi_relocates_24_witness :
    probeState.length = 25 ∧ 10 < 25 ∧
    lane (keccakf_rhoPi probeState) 10 = SHA3_ROTL64 (lane probeState 1) 1 :=
  ⟨by decide, by decide, (rhoPi_relocates_24 probeState (by decide) 10 (by decide)).1⟩

/-! ## Cursor position -/

theorem packLE_lt (l : List Nat) : packLE l < 2 ^ (8 * l.length) := by
  induction l with
  | nil => simp [packLE]
  | cons b l ih =>
    have hb : b % 256 < 256 := Nat.mod_lt _ (by norm_num)
    have e : 2 ^ (8 * (b :: l).length) = 256 * 2 ^ (8 * l.length) := by
      rw [List.length_cons, Nat.mul_succ, pow_add]; norm_num [Nat.mul_comm]
    rw [e]
    simp only [packLE]
    nlinarith

theorem packLE_append_singleton (l : List Nat) (b : Nat) :
    packLE (l ++ [b]) = packLE l + (b % 256) * 2 ^ (8 * l.length) := by
  induction l with
  | nil => simp [packLE]
  | cons a l ih =>
    have e : 2 ^ (8 * (l.length + 1)) = 256 * 2 ^ (8 * l.length) := by
      rw [Nat.mul_succ, pow_add]; norm_num [Nat.mul_comm]
    rw [List.cons_append, packLE, packLE, ih, List.length_cons, e]
    ring

theorem or_shiftLeft_eq_add (x y k : Nat) (h : x < 2 ^ k) : x ||| (y <<< k) = x + y * 2 ^ k := by
  rw [Nat.shiftLeft_eq, Nat.mul_comm y, Nat.lor_comm, Nat.add_comm]
  exact (Nat.mul_add_lt_is_or h y).symm

theorem packLE_byte (l : List Nat) (k : Nat) (hk : k < l.length) :
    (packLE l >>> (8 * k)) % 256 = l.getD k 0 % 256 := by
  induction l generalizing k with
  | nil => simp at hk
  | cons b l ih =>
    cases k with
    | zero =>
      simp only [packLE, Nat.mul_zero, Nat.shiftRight_zero, List.getD_cons_zero]
      omega
    | succ k =>
      simp only [List.length_cons] at hk
      rw [List.getD_cons_succ, ← ih k (by omega)]
      have e : 8 * (k + 1) = 8 + 8 * k := by ring
      have h8 : packLE (b :: l) >>> 8 = packLE l := by
        simp only [packLE, Nat.shiftRight_eq_div_pow]
        omega
      rw [e, Nat.shiftRight_add, h8]

theorem absorbByte_cursor (c : sha3_context) (b : Nat) (hb : c.byteIndex < 8)
    (hc : c.capacityWords = 8) (hw : c.wordIndex < 17) :
    (absorbByte c b).capacityWords = 8 ∧
    (c.byteIndex = 7 → (absorbByte c b).byteIndex = 0 ∧ (absorbByte c b).saved = 0 ∧
      (absorbByte c b).wordIndex = (c.wordIndex + 1) % 17) ∧
    (c.byteIndex < 7 → (absorbByte c b).byteIndex = c.byteIndex + 1 ∧
      (absorbByte c b).saved = c.saved ||| (b % 256) <<< (8 * c.byteIndex) ∧
      (absorbByte c b).wordIndex = c.wordIndex) := by
  have h1 := storeBytes_one_byteIndex c b hb
  have hsh := shl_byte_mod b c.byteIndex hb
  refine ⟨?_, ?_, ?_⟩
  · unfold absorbByte
    simp only
    split
    · rw [xorWord_capacityWords]; exact hc
    · exact hc
  · intro h7
    unfold absorbByte
    simp only [h1]
    rw [if_pos (by omega)]
    refine ⟨by rw [xorWord_byteIndex], by rw [xorWord_saved], ?_⟩
    by_cases h16 : c.wordIndex = 16
    · rw [xorWord_fill _ _ (by simp only [storeBytes, hc, h16])]
      simp only [h16]
    · rw [xorWord_lt _ _ (by simp only [storeBytes, hc]; omega)]
      simp only [storeBytes]
      omega
  · intro h7
    unfold absorbByte
    simp only [h1]
    rw [if_neg (by omega)]
    refine ⟨h1, ?_, rfl⟩
    simp only [storeBytes, hsh, Nat.mul_comm]

theorem foldl_absorbByte_cursor (buf : List Nat) :
    (buf.foldl absorbByte sha3_Init256).byteIndex = buf.length % 8 ∧
    (buf.foldl absorbByte sha3_Init256).wordIndex = (buf.length / 8) % 17 ∧
    (buf.foldl absorbByte sha3_Init256).saved =
      packLE (buf.drop (buf.length - buf.length % 8)) ∧
    (buf.foldl absorbByte sha3_Init256).capacityWords = 8 := by
  induction buf using List.reverseRecOn with
  | nil => exact ⟨rfl, rfl, rfl, rfl⟩
  | append_singleton l b ih =>
    obtain ⟨i1, i2, i3, i4⟩ := ih
    rw [List.foldl_append, List.foldl_cons, List.foldl_nil, List.length_append,
      List.length_singleton]
    obtain ⟨g1, g2, g3⟩ := absorbByte_cursor (l.foldl absorbByte sha3_Init256) b
      (by rw [i1]; exact Nat.mod_lt _ (by norm_num)) i4
      (by rw [i2]; exact Nat.mod_lt _ (by norm_num))
    refine ⟨?_, ?_, ?_, g1⟩
    · by_cases h7 : l.length % 8 = 7
      · rw [(g2 (by rw [i1]; exact h7)).1]; omega
      · rw [(g3 (by rw [i1]; omega)).1, i1]; omega
    · by_cases h7 : l.length % 8 = 7
      · rw [(g2 (by rw [i1]; exact h7)).2.2, i2]; omega
      · rw [(g3 (by rw [i1]; omega)).2.2, i2]; omega
    · by_cases h7 : l.length % 8 = 7
      · rw [(g2 (by rw [i1]; exact h7)).2.1]
        have e0 : (l.length + 1) % 8 = 0 := by omega
        rw [e0, Nat.sub_zero, List.drop_of_length_le (by simp)]
        rfl
      · rw [(g3 (by rw [i1]; omega)).2.1, i1, i3]
        have e1 : (l.length + 1) % 8 = l.length % 8 + 1 := by omega
        have e2 : l.length + 1 - (l.length % 8 + 1) = l.length - l.length % 8 := by omega
        have hle : l.length - l.length % 8 ≤ l.length := Nat.sub_le _ _
        have hlen : (l.drop (l.length - l.length % 8)).length = l.length % 8 := by
          rw [List.length_drop]
          have := Nat.mod_le l.length 8
          omega
        have hlt := packLE_lt (l.drop (l.length - l.length % 8))
        rw [hlen] at hlt
        rw [e1, e2, List.drop_append_of_le_length hle, packLE_append_singleton, hlen,
          or_shiftLeft_eq_add _ _ _ hlt]

/-- C19: cursor position after absorption. For every byte sequence of length `n` absorbed from
a freshly initialised context, given as any list of chunks fed to `sha3_Update` in order (one
chunk for a single update), the resulting context is the one of a single update with the
whole sequence and has `byteIndex = n mod 8`, `wordIndex = (n div 8) mod (25 - capacityWords)`
and `saved` equal to the little-endian packing of the last `n mod 8` input bytes: byte `k` of
`saved` is the `k`-th leftover byte and the higher bytes are zero. -/
theorem cursor_position (chunks : List (List Nat)) :
    chunks.foldl sha3_Update sha3_Init256 = sha3_Update sha3_Init256 chunks.flatten ∧
    (chunks.foldl sha3_Update sha3_Init256).byteIndex = chunks.flatten.length % 8 ∧
    (chunks.foldl sha3_Update sha3_Init256).wordIndex =
      (chunks.flatten.length / 8) %
        (25 - (chunks.foldl sha3_Update sha3_Init256).capacityWords) ∧
    (chunks.foldl sha3_Update sha3_Init256).saved =
      packLE (chunks.flatten.drop (chunks.flatten.length - chunks.flatten.length % 8)) ∧
    (∀ k < chunks.flatten.length % 8,
      ((chunks.foldl sha3_Update sha3_Init256).saved >>> (8 * k)) % 256 =
        chunks.flatten.getD (chunks.flatten.length - chunks.flatten.length % 8 + k) 0 % 256) ∧
    (∀ k, chunks.flatten.length % 8 ≤ k →
      ((chunks.foldl sha3_Update sha3_Init256).saved >>> (8 * k)) % 256 = 0) := by
  have e := foldl_sha3_Update chunks sha3_Init256 cursorInv_init
  obtain ⟨i1, i2, i3, i4⟩ := foldl_absorbByte_cursor chunks.flatten
  rw [e, sha3_Update_eq_foldl _ _ cursorInv_init]
  have hlen : (chunks.flatten.drop
      (chunks.flatten.length - chunks.flatten.length % 8)).length =
      chunks.flatten.length % 8 := by
    rw [List.length_drop]
    have := Nat.mod_le chunks.flatten.length 8
    omega
  refine ⟨rfl, i1, by rw [i4]; exact i2, i3, ?_, ?_⟩
  · intro k hk
    rw [i3, packLE_byte _ k (by rw [hlen]; exact hk)]
    simp only [List.getD_eq_getElem?_getD, List.getElem?_drop]
  · intro k hk
    rw [i3]
    have hlt := packLE_lt
      (chunks.flatten.drop (chunks.flatten.length - chunks.flatten.length % 8))
    rw [hlen] at hlt
    exact saved_high_bytes_zero _ _ k hlt hk

/-! ## Letter case of the input -/

theorem hex_value_case_ofNat : ∀ n < 128,
    hex_char_to_value (Char.ofNat n).toUpper = hex_char_to_value (Char.ofNat n) ∧
    hex_char_to_value (Char.ofNat n).toLower = hex_char_to_value (Char.ofNat n) := by
  decide!

theorem hex_value_case (c : Char) :
    hex_char_to_value c.toUpper = hex_char_to_value c ∧
    hex_char_to_value c.toLower = hex_char_to_value c := by
  by_cases h : c.toNat < 128
  · have e := hex_value_case_ofNat c.toNat h
    rw [Char.ofNat_toNat] at e
    exact e
  · have hu : c.toUpper = c := by
      unfold Char.toUpper
      simp only
      rw [if_neg (by omega)]
    have hl : c.toLower = c := by
      unfold Char.toLower
      simp only
      rw [if_neg (by omega)]
    rw [hu, hl]
    exact ⟨rfl, rfl⟩

theorem hexChars_case : ∀ c ∈ hexChars, c.toUpper ∈ hexChars ∧ c.toLower ∈ hexChars := by
  decide

theorem hex_letter_values : ∀ k < 6,
    hex_char_to_value (Char.ofNat (('A').toNat + k)) = 10 + k ∧
    hex_char_to_value (Char.ofNat (('a').toNat + k)) = 10 + k := by
  decide

theorem charAt_map (f : Char → Char) (hf : f (Char.ofNat 0) = Char.ofNat 0) (l : List Char)
    (i : Nat) : charAt (l.map f) i = f (charAt l i) := by
  unfold charAt
  conv_lhs => rw [← hf]
  exact List.getD_map _ _ f

theorem hexToBinary_map (f : Char → Char) (hf : f (Char.ofNat 0) = Char.ofNat 0)
    (hv : ∀ c, hex_char_to_value (f c) = hex_char_to_value c) (l : List Char) (n : Nat) :
    hexToBinary (l.map f) n = hexToBinary l n := by
  unfold hexToBinary
  simp only [charAt_map f hf, hv]

theorem keccak256_map (f : Char → Char) (hf : f (Char.ofNat 0) = Char.ofNat 0)
    (hv : ∀ c, hex_char_to_value (f c) = hex_char_to_value c)
    (hm : ∀ c ∈ hexChars, f c ∈ hexChars) (h : String) (hlen : h.length % 2 = 0)
    (hhex : ∀ c ∈ h.data, c ∈ hexChars) :
    keccak256 (h.map f) = keccak256 h := by
  have hl : (String.mk (h.data.map f)).length = h.length := by
    show (h.data.map f).length = h.data.length
    exact List.length_map _ _
  rw [String.map_eq, keccak256_valid h hlen hhex,
    keccak256_valid ⟨h.data.map f⟩ (by rw [hl]; exact hlen)
      (by
        intro c hc
        obtain ⟨d, hd, rfl⟩ := List.mem_map.mp hc
        exact hm d (hhex d hd)),
    hl, hexToBinary_map f hf hv]

/-- C20: the wrapper is insensitive to the letter case of its hex input. For every valid hex
string `h` the wrapper returns the same result for `h`, for `h` with all letters upper-cased
and for `h` with all letters lower-cased, and that result is a digest; `hex_char_to_value`
maps `'A'..'F'` and `'a'..'f'` to the same values `10..15`, gives the same value for a
character and its upper- or lower-case form, and each byte is decoded as
`(high nibble << 4) | low nibble`. -/
theorem case_insensitive (h : String) (hlen : h.length % 2 = 0)
    (hhex : ∀ c ∈ h.data, c ∈ hexChars) :
    keccak256 h.toUpper = keccak256 h ∧
    keccak256 h.toLower = keccak256 h ∧
    (∃ digest, keccak256 h = .ok digest) ∧
    (∀ k < 6, hex_char_to_value (Char.ofNat (('A').toNat + k)) = 10 + k ∧
      hex_char_to_value (Char.ofNat (('a').toNat + k)) = 10 + k) ∧
    (∀ c : Char, hex_char_to_value c.toUpper = hex_char_to_value c ∧
      hex_char_to_value c.toLower = hex_char_to_value c) ∧
    (∀ i < h.length / 2, (hexToBinary h.data (h.length / 2)).getD i 0 =
      ((hex_char_to_value (charAt h.data (i * 2)) <<< 4) |||
        hex_char_to_value (charAt h.data (i * 2 + 1))) % 256) := by
  refine ⟨?_, ?_, ⟨_, keccak256_valid h hlen hhex⟩, hex_letter_values, hex_value_case, ?_⟩
  · exact keccak256_map Char.toUpper (by decide) (fun c => (hex_value_case c).1)
      (fun c hc => (hexChars_case c hc).1) h hlen hhex
  · exact keccak256_map Char.toLower (by decide) (fun c => (hex_value_case c).2)
      (fun c hc => (hexChars_case c hc).2) h hlen hhex
  · intro i hi
    unfold hexToBinary
    rw [List.getD_eq_getElem?_getD, List.getElem?_map, List.getElem?_range hi]
    rfl

/-- Witness for C20: the mixed-case input `aBcDeF09`. -/
theorem case_insensitive_witness :
    ("aBcDeF09" : String).length % 2 = 0 ∧ (∀ c ∈ ("aBcDeF09" : String).data, c ∈ hexChars) ∧
    keccak256 ("aBcDeF09" : String).toUpper = keccak256 "aBcDeF09" ∧
    keccak256 ("aBcDeF09" : String).toLower = keccak256 "aBcDeF09" ∧
    ("aBcDeF09" : String).toUpper = "ABCDEF09" ∧ ("aBcDeF09" : String).toLower = "abcdef09" :=
  ⟨by decide, by decide, (case_insensitive "aBcDeF09" (by decide) (by decide)).1,
    (case_insensitive "aBcDeF09" (by decide) (by decide)).2.1,
    by rw [String.toUpper, String.map_eq]; decide,
    by rw [String.toLower, String.map_eq]; decide⟩

/-! ## Finalize as an update with the padding block -/

theorem theta_length (s : List Nat) (hs : s.length = 25) : (keccakf_theta s).length = 25 := by
  obtain ⟨a0, a1, a2, a3, a4, a5, a6, a7, a8, a9, a10, a11, a12, a13, a14, a15, a16, a17, a18,
    a19, a20, a21, a22, a23, a24, rfl⟩ := eq_of_length_25 s hs
  rw [theta_explicit]
  rfl

theorem rhoPi_length (s : List Nat) (hs : s.length = 25) : (keccakf_rhoPi s).length = 25 := by
  obtain ⟨a0, a1, a2, a3, a4, a5, a6, a7, a8, a9, a10, a11, a12, a13, a14, a15, a16, a17, a18,
    a19, a20, a21, a22, a23, a24, rfl⟩ := eq_of_length_25 s hs
  rw [rhoPi_explicit]
  rfl

theorem chi_length (s : List Nat) (hs : s.length = 25) : (keccakf_chi s).length = 25 := by
  obtain ⟨a0, a1, a2, a3, a4, a5, a6, a7, a8, a9, a10, a11, a12, a13, a14, a15, a16, a17, a18,
    a19, a20, a21, a22, a23, a24, rfl⟩ := eq_of_length_25 s hs
  rw [chi_explicit]
  rfl

theorem keccakf_round_length (s : List Nat) (hs : s.length = 25) (round : Nat) :
    (keccakf_round s round).length = 25 := by
  unfold keccakf_round keccakf_iota
  rw [List.length_set]
  exact chi_length _ (rhoPi_length _ (theta_length s hs))

theorem foldl_round_length (rounds : List Nat) (s : List Nat) (hs : s.length = 25) :
    (rounds.foldl keccakf_round s).length = 25 := by
  induction rounds generalizing s with
  | nil => exact hs
  | cons r rounds ih =>
    rw [List.foldl_cons]
    exact ih _ (keccakf_round_length s hs r)

theorem keccakf_length (s : List Nat) (hs : s.length = 25) : (keccakf s).length = 25 := by
  unfold keccakf
  exact foldl_round_length _ s hs

theorem xorWord_length (ctx : sha3_context) (t : Nat) (hs : ctx.s.length = 25) :
    (xorWord ctx t).s.length = 25 := by
  unfold xorWord
  simp only
  split
  · exact keccakf_length _ (by rw [List.length_set]; exact hs)
  · simp only [List.length_set]; exact hs

theorem storeBytes_s (buf : List Nat) (ctx : sha3_context) : (storeBytes ctx buf).s = ctx.s := by
  induction buf generalizing ctx with
  | nil => rfl
  | cons b buf ih => rw [storeBytes_cons, ih]; rfl

theorem absorbByte_length (ctx : sha3_context) (b : Nat) (hs : ctx.s.length = 25) :
    (absorbByte ctx b).s.length = 25 := by
  unfold absorbByte
  simp only
  split
  · exact xorWord_length _ _ (by simp only [storeBytes_s]; exact hs)
  · rw [storeBytes_s]; exact hs

theorem foldl_absorbByte_length (buf : List Nat) (ctx : sha3_context) (hs : ctx.s.length = 25) :
    (buf.foldl absorbByte ctx).s.length = 25 := by
  induction buf generalizing ctx with
  | nil => exact hs
  | cons b buf ih =>
    rw [List.foldl_cons]
    exact ih _ (absorbByte_length ctx b hs)

theorem Reachable.state {ctx : sha3_context} (h : Reachable ctx) :
    ctx.s.length = 25 ∧ ctx.capacityWords = 8 := by
  induction h with
  | init => exact ⟨rfl, rfl⟩
  | update ctx buf hr ih =>
    refine ⟨?_, by rw [sha3_Update_capacityWords]; exact ih.2⟩
    rw [sha3_Update_eq_foldl ctx buf hr.cursorInv]
    exact foldl_absorbByte_length buf ctx ih.1

theorem Reachable.exists_input {ctx : sha3_context} (h : Reachable ctx) :
    ∃ buf, ctx = sha3_Update sha3_Init256 buf := by
  induction h with
  | init => exact ⟨[], (sha3_Update_nil _ (by decide)).symm⟩
  | update ctx buf _ ih =>
    obtain ⟨b0, rfl⟩ := ih
    exact ⟨b0 ++ buf, sha3_Update_append _ cursorInv_init b0 buf⟩

theorem set_lane_self (s : List Nat) (j : Nat) : s.set j (lane s j) = s := by
  induction s generalizing j with
  | nil => rfl
  | cons a s ih =>
    cases j with
    | zero => rfl
    | succ j =>
      simp only [List.set_cons_succ, lane, List.getD_cons_succ]
      exact congrArg _ (ih j)

theorem packLE_replicate_zero (k : Nat) : packLE (List.replicate k 0) = 0 := by
  induction k with
  | zero => rfl
  | succ k ih => rw [List.replicate_succ, packLE, ih]

theorem packLE_append (l1 l2 : List Nat) :
    packLE (l1 ++ l2) = packLE l1 + packLE l2 * 2 ^ (8 * l1.length) := by
  induction l1 with
  | nil => simp [packLE]
  | cons a l ih =>
    have e : 2 ^ (8 * (l.length + 1)) = 256 * 2 ^ (8 * l.length) := by
      rw [Nat.mul_succ, pow_add]; norm_num [Nat.mul_comm]
    rw [List.cons_append, packLE, packLE, ih, List.length_cons, e]
    ring

theorem storeBytes_packLE (buf : List Nat) (ctx : sha3_context)
    (h : ctx.byteIndex + buf.length ≤ 8) (hs : ctx.saved < 2 ^ (8 * ctx.byteIndex)) :
    storeBytes ctx buf = { ctx with
      saved := ctx.saved + packLE buf * 2 ^ (8 * ctx.byteIndex)
      byteIndex := ctx.byteIndex + buf.length } := by
  induction buf generalizing ctx with
  | nil => simp [storeBytes, packLE]
  | cons b buf ih =>
    simp only [List.length_cons] at h
    have hsh := shl_byte_mod b ctx.byteIndex (by omega)
    have hb1 : (ctx.byteIndex + 1) % 2 ^ 32 = ctx.byteIndex + 1 := by omega
    have hor := or_shiftLeft_eq_add ctx.saved (b % 256) (8 * ctx.byteIndex) hs
    have hlt : ctx.saved + b % 256 * 2 ^ (8 * ctx.byteIndex) < 2 ^ (8 * (ctx.byteIndex + 1)) := by
      have hb : b % 256 < 256 := Nat.mod_lt _ (by norm_num)
      have e : 2 ^ (8 * (ctx.byteIndex + 1)) = 256 * 2 ^ (8 * ctx.byteIndex) := by
        rw [Nat.mul_succ, pow_add]; norm_num [Nat.mul_comm]
      rw [e]
      nlinarith
    have e2 : 2 ^ (8 * (ctx.byteIndex + 1)) = 256 * 2 ^ (8 * ctx.byteIndex) := by
      rw [Nat.mul_succ, pow_add]; norm_num [Nat.mul_comm]
    have hstep : ctx.saved ||| ((b % 256) <<< (ctx.byteIndex * 8)) % 2 ^ 64 =
        ctx.saved + b % 256 * 2 ^ (8 * ctx.byteIndex) := by
      rw [hsh, Nat.mul_comm ctx.byteIndex 8]; exact hor
    have hcons : storeBytes ctx (b :: buf) = storeBytes { ctx with
        saved := ctx.saved + b % 256 * 2 ^ (8 * ctx.byteIndex)
        byteIndex := ctx.byteIndex + 1 } buf := by
      rw [storeBytes, hstep, hb1]
    rw [hcons, ih _ (by simp only; omega) (by simp only; exact hlt)]
    simp only [packLE, List.length_cons, e2]
    congr 1
    · ring
    · omega

theorem or_eq_xor_shiftLeft (x y k : Nat) (h : x < 2 ^ k) : x ||| (y <<< k) = x ^^^ (y <<< k) := by
  apply Nat.eq_of_testBit_eq
  intro j
  simp only [Nat.testBit_or, Nat.testBit_xor, Nat.testBit_shiftLeft]
  by_cases hj : k ≤ j
  · have hx : x.testBit j = false :=
      Nat.testBit_lt_two_pow (lt_of_lt_of_le h (Nat.pow_le_pow_right (by norm_num) hj))
    simp [hx]
  · simp [hj]

theorem loadWord_last : loadWord (List.replicate 7 0 ++ [0x80]) = 0x8000000000000000 := by
  decide

theorem loadWord_zeros (rest : List Nat) : loadWord (List.replicate 8 0 ++ rest) = 0 := by
  simp [loadWord, bufAt, List.replicate]

theorem xorWordsAt_pad (m : Nat) (s : List Nat) (j : Nat) :
    xorWordsAt s j (List.replicate (8 * (m + 1) - 1) 0 ++ [0x80]) (m + 1) =
      s.set (j + m) (lane s (j + m) ^^^ 0x8000000000000000) := by
  induction m generalizing s j with
  | zero =>
    rw [xorWordsAt, xorWordsAt]
    simp only [Nat.zero_add, Nat.mul_one, Nat.add_zero]
    rw [show 8 - 1 = 7 from rfl, loadWord_last]
  | succ m ih =>
    have e : 8 * (m + 1 + 1) - 1 = 8 + (8 * (m + 1) - 1) := by omega
    rw [xorWordsAt, e, List.replicate_add, List.append_assoc, loadWord_zeros, Nat.xor_zero,
      set_lane_self, List.drop_left' (List.length_replicate 8 0), ih]
    have e2 : j + 1 + m = j + (m + 1) := by omega
    rw [e2]

theorem first_word_pad (ctx : sha3_context) (hinv : CursorInv ctx) (p : List Nat)
    (hp : ctx.byteIndex + p.length = 8) (hne : p ≠ []) :
    p.foldl absorbByte ctx =
      xorWord { ctx with byteIndex := 0, saved := 0 }
        (ctx.saved + packLE p * 2 ^ (8 * ctx.byteIndex)) := by
  rw [← storeBytes_fill p ctx hp hne, storeBytes_packLE p ctx (by omega) hinv.2.2]

theorem one_shl_mod (b : Nat) (hb : b < 8) : (1 <<< (b * 8)) % 2 ^ 64 = 1 <<< (8 * b) := by
  have := shl_byte_mod 1 b hb
  rw [Nat.mul_comm] at this
  rw [Nat.mul_comm]
  simpa using this

theorem pad_mask_first (saved b : Nat) (hb : b < 8) (hs : saved < 2 ^ (8 * b)) :
    saved + 1 * 2 ^ (8 * b) = saved ^^^ (1 <<< (b * 8)) % 2 ^ 64 := by
  rw [one_shl_mod b hb, ← or_shiftLeft_eq_add saved 1 (8 * b) hs,
    or_eq_xor_shiftLeft saved 1 (8 * b) hs]

theorem pad_word_split : ∀ b < 8,
    (1 + 0x80 * 2 ^ (8 * (7 - b))) <<< (8 * b) = (1 <<< (8 * b)) ^^^ 0x8000000000000000 := by
  decide

theorem pad_mask_last (saved b : Nat) (hb : b < 8) (hs : saved < 2 ^ (8 * b)) :
    saved + (1 + 0x80 * 2 ^ (8 * (7 - b))) * 2 ^ (8 * b) =
      (saved ^^^ (1 <<< (b * 8)) % 2 ^ 64) ^^^ 0x8000000000000000 := by
  rw [one_shl_mod b hb, ← or_shiftLeft_eq_add saved _ (8 * b) hs,
    or_eq_xor_shiftLeft saved _ (8 * b) hs, pad_word_split b hb, Nat.xor_assoc]

theorem padBlock_last_word : ∀ b < 8,
    packLE (padBlock (8 - b)) = 1 + 0x80 * 2 ^ (8 * (7 - b)) ∧
    (padBlock (8 - b)).length = 8 - b := by
  decide

theorem packLE_pad_first (k : Nat) : packLE (0x01 :: List.replicate k 0) = 1 := by
  rw [packLE, packLE_replicate_zero]

theorem finalize_eq_update_pad (ctx : sha3_context) (hinv : CursorInv ctx)
    (hc : ctx.capacityWords = 8) (hlen : ctx.s.length = 25) :
    sha3_Update ctx (padBlock (padLength ctx)) =
      { ctx with s := sha3_Finalize_state ctx, saved := 0, byteIndex := 0, wordIndex := 0 } := by
  obtain ⟨hb, hw, hs⟩ := hinv
  unfold SHA3_KECCAK_SPONGE_WORDS at hw
  rw [hc] at hw
  have hfin : sha3_Finalize_state ctx =
      keccakf ((ctx.s.set ctx.wordIndex (lane ctx.s ctx.wordIndex ^^^
        (ctx.saved ^^^ (1 <<< (ctx.byteIndex * 8)) % 2 ^ 64))).set 16
        (lane (ctx.s.set ctx.wordIndex (lane ctx.s ctx.wordIndex ^^^
          (ctx.saved ^^^ (1 <<< (ctx.byteIndex * 8)) % 2 ^ 64))) 16 ^^^ 0x8000000000000000)) := by
    unfold sha3_Finalize_state sha3_Finalize_padded SHA3_KECCAK_SPONGE_WORDS
    simp only [hc]
    rfl
  rw [sha3_Update_eq_foldl _ _ ⟨hb, by unfold SHA3_KECCAK_SPONGE_WORDS; rw [hc]; exact hw, hs⟩,
    hfin]
  by_cases h16 : ctx.wordIndex = 16
  · have hpl : padLength ctx = 8 - ctx.byteIndex := by
      unfold padLength SHA3_KECCAK_SPONGE_WORDS
      rw [hc, h16]; omega
    obtain ⟨hpk, hplen⟩ := padBlock_last_word ctx.byteIndex hb
    rw [hpl, first_word_pad ctx ⟨hb, by unfold SHA3_KECCAK_SPONGE_WORDS; rw [hc]; exact hw, hs⟩
        _ (by rw [hplen]; omega) (by intro he; rw [he] at hplen; simp at hplen; omega),
      hpk, pad_mask_last _ _ hb hs, xorWord_fill _ _ (by simp only [h16, hc])]
    simp only [h16]
    rw [lane_set _ _ _ _ (by rw [hlen]; norm_num), if_pos rfl, List.set_set]
    simp only [Nat.xor_assoc]
  · have hpl : padLength ctx = 136 - 8 * ctx.wordIndex - ctx.byteIndex := by
      unfold padLength SHA3_KECCAK_SPONGE_WORDS
      rw [hc]; omega
    have hsplit : padBlock (136 - 8 * ctx.wordIndex - ctx.byteIndex) =
        (0x01 :: List.replicate (7 - ctx.byteIndex) 0) ++
          (List.replicate (8 * (15 - ctx.wordIndex + 1) - 1) 0 ++ [0x80]) := by
      unfold padBlock
      rw [if_neg (by omega)]
      have e : 136 - 8 * ctx.wordIndex - ctx.byteIndex - 2 =
          (7 - ctx.byteIndex) + (8 * (15 - ctx.wordIndex + 1) - 1) := by omega
      rw [e, List.replicate_add, List.cons_append, List.append_assoc]
    have hp2len : (List.replicate (8 * (15 - ctx.wordIndex + 1) - 1) 0 ++ [0x80]).length =
        8 * (15 - ctx.wordIndex + 1) := by
      rw [List.length_append, List.length_replicate, List.length_singleton]; omega
    rw [hpl, hsplit, List.foldl_append,
      first_word_pad ctx ⟨hb, by unfold SHA3_KECCAK_SPONGE_WORDS; rw [hc]; exact hw, hs⟩
        _ (by rw [List.length_cons, List.length_replicate]; omega) (List.cons_ne_nil _ _),
      packLE_pad_first, pad_mask_first _ _ hb hs, xorWord_lt _ _ (by simp only [hc]; omega)]
    have htake := absorbWords_eq (15 - ctx.wordIndex + 1)
      (List.replicate (8 * (15 - ctx.wordIndex + 1) - 1) 0 ++ [0x80])
      { ctx with
        byteIndex := 0, saved := 0
        s := ctx.s.set ctx.wordIndex (lane ctx.s ctx.wordIndex ^^^
          (ctx.saved ^^^ (1 <<< (ctx.byteIndex * 8)) % 2 ^ 64))
        wordIndex := ctx.wordIndex + 1 } rfl rfl (by rw [hp2len])
    rw [List.take_of_length_le (by rw [hp2len])] at htake
    rw [← htake, absorbWords_fill _ _ _ (by simp only [hc]; omega), xorWordsAt_pad]
    have e16 : ctx.wordIndex + 1 + (15 - ctx.wordIndex) = 16 := by omega
    simp only [e16]

theorem padBlock_length (n : Nat) (hn : 1 ≤ n) : (padBlock n).length = n := by
  unfold padBlock
  split
  · next h => rw [h]; rfl
  · rw [List.length_cons, List.length_append, List.length_replicate, List.length_singleton]
    omega

theorem padLength_update (buf : List Nat) :
    padLength (sha3_Update sha3_Init256 buf) = 136 - buf.length % 136 := by
  obtain ⟨i1, i2, -, i4⟩ := foldl_absorbByte_cursor buf
  rw [sha3_Update_eq_foldl _ _ cursorInv_init]
  unfold padLength SHA3_KECCAK_SPONGE_WORDS
  rw [i1, i2, i4]
  omega

/-- C11: finalize is update with the padding block. For every context reachable from
`sha3_Init256` by updates, the 25 state lanes that `sha3_Finalize` produces before byte
serialisation are the state lanes produced by `sha3_Update` on the same context with the
padding block `0x01 || 0x00* || 0x80` whose length brings the number of absorbed bytes up to
the next multiple of the rate in bytes; the block is the single byte `0x81` when exactly one
byte is missing. -/
theorem finalize_is_update_with_padding (ctx : sha3_context) (h : Reachable ctx) :
    sha3_Finalize_state ctx = (sha3_Update ctx (padBlock (padLength ctx))).s ∧
    sha3_Update ctx (padBlock (padLength ctx)) =
      { ctx with s := sha3_Finalize_state ctx, saved := 0, byteIndex := 0, wordIndex := 0 } ∧
    1 ≤ padLength ctx ∧
    (padBlock (padLength ctx)).length = padLength ctx ∧
    8 * ctx.wordIndex + ctx.byteIndex + padLength ctx = 8 * rateWords ctx ∧
    (∀ buf, ctx = sha3_Update sha3_Init256 buf → padLength ctx = 136 - buf.length % 136) ∧
    padBlock 1 = [0x81] ∧
    (∀ n, padBlock (n + 2) = 0x01 :: (List.replicate n 0 ++ [0x80])) := by
  have hinv := h.cursorInv
  obtain ⟨hlen, hc⟩ := h.state
  have e := finalize_eq_update_pad ctx hinv hc hlen
  obtain ⟨hb, hw, hs⟩ := hinv
  have hr := rateWords_eq ctx (by omega)
  unfold SHA3_KECCAK_SPONGE_WORDS at hw
  have hpl : padLength ctx = 136 - 8 * ctx.wordIndex - ctx.byteIndex := by
    unfold padLength SHA3_KECCAK_SPONGE_WORDS
    rw [hc]; omega
  refine ⟨by rw [e], e, by omega, padBlock_length _ (by omega), by rw [hr]; omega, ?_, rfl, ?_⟩
  · rintro buf rfl
    exact padLength_update buf
  · intro n
    unfold padBlock
    rw [if_neg (by omega)]
    rfl

/-- Witness for C11: the context after absorbing three bytes. -/
theorem finalize_is_update_with_padding_witness :
    Reachable (sha3_Update sha3_Init256 [1, 2, 3]) ∧
    sha3_Finalize_state (sha3_Update sha3_Init256 [1, 2, 3]) =
      (sha3_Update (sha3_Update sha3_Init256 [1, 2, 3])
        (padBlock (padLength (sha3_Update sha3_Init256 [1, 2, 3])))).s ∧
    padLength (sha3_Update sha3_Init256 [1, 2, 3]) = 133 :=
  ⟨Reachable.update _ _ Reachable.init,
    (finalize_is_update_with_padding _ (Reachable.update _ _ Reachable.init)).1,
    by decide⟩

/-! ## The permutation is a bijection -/

theorem testBit_ge_64 (x k : Nat) (hx : x < 2 ^ 64) (hk : 64 ≤ k) : x.testBit k = false :=
  Nat.testBit_lt_two_pow (lt_of_lt_of_le hx (Nat.pow_le_pow_right (by norm_num) hk))

theorem rotl_lt (x n : Nat) (hx : x < 2 ^ 64) : SHA3_ROTL64 x n < 2 ^ 64 := by
  unfold SHA3_ROTL64
  apply Nat.or_lt_two_pow
  · exact Nat.mod_lt _ (by norm_num)
  · rw [Nat.shiftRight_eq_div_pow]
    exact lt_of_le_of_lt (Nat.div_le_self _ _) hx

theorem rotl_testBit (x n k : Nat) (hx : x < 2 ^ 64) (hn1 : 1 ≤ n) (hn2 : n ≤ 63)
    (hk : k < 64) : (SHA3_ROTL64 x n).testBit k = x.testBit ((k + 64 - n) % 64) := by
  unfold SHA3_ROTL64
  simp only [Nat.testBit_or, Nat.testBit_mod_two_pow, Nat.testBit_shiftLeft,
    Nat.testBit_shiftRight, hk, decide_True, Bool.true_and]
  by_cases hkn : n ≤ k
  · have e1 : (k + 64 - n) % 64 = k - n := by omega
    have e2 : x.testBit (8 * 8 - n + k) = false := testBit_ge_64 x _ hx (by omega)
    simp [hkn, e1, e2]
  · have e1 : (k + 64 - n) % 64 = 8 * 8 - n + k := by omega
    have hkn' : ¬ k ≥ n := hkn
    simp [hkn', e1]

theorem rotl_injective (x y n : Nat) (hx : x < 2 ^ 64) (hy : y < 2 ^ 64) (hn1 : 1 ≤ n)
    (hn2 : n ≤ 63) (h : SHA3_ROTL64 x n = SHA3_ROTL64 y n) : x = y := by
  apply Nat.eq_of_testBit_eq
  intro m
  by_cases hm : m < 64
  · have e : ((m + n) % 64 + 64 - n) % 64 = m := by omega
    have hx' := rotl_testBit x n ((m + n) % 64) hx hn1 hn2 (Nat.mod_lt _ (by norm_num))
    have hy' := rotl_testBit y n ((m + n) % 64) hy hn1 hn2 (Nat.mod_lt _ (by norm_num))
    rw [e] at hx' hy'
    rw [← hx', ← hy', h]
  · rw [testBit_ge_64 x m hx (by omega), testBit_ge_64 y m hy (by omega)]

theorem rotl_xor (x y n : Nat) (hx : x < 2 ^ 64) (hy : y < 2 ^ 64) (hn1 : 1 ≤ n)
    (hn2 : n ≤ 63) : SHA3_ROTL64 x n ^^^ SHA3_ROTL64 y n = SHA3_ROTL64 (x ^^^ y) n := by
  have hxy : x ^^^ y < 2 ^ 64 := Nat.xor_lt_two_pow hx hy
  apply Nat.eq_of_testBit_eq
  intro k
  by_cases hk : k < 64
  · rw [Nat.testBit_xor, rotl_testBit x n k hx hn1 hn2 hk, rotl_testBit y n k hy hn1 hn2 hk,
      rotl_testBit _ n k hxy hn1 hn2 hk, Nat.testBit_xor]
  · rw [testBit_ge_64 _ k (Nat.xor_lt_two_pow (rotl_lt x n hx) (rotl_lt y n hy)) (by omega),
      testBit_ge_64 _ k (rotl_lt _ n hxy) (by omega)]

theorem thetaBack_fixed : ∀ v : Bool × Bool × Bool × Bool × Bool,
    thetaBack^[64] v = v → v = (false, false, false, false, false) := by
  decide!

theorem chi_bits_injective : ∀ a0 a1 a2 a3 a4 b0 b1 b2 b3 b4 : Bool,
    xor a0 (!a1 && a2) = xor b0 (!b1 && b2) → xor a1 (!a2 && a3) = xor b1 (!b2 && b3) →
    xor a2 (!a3 && a4) = xor b2 (!b3 && b4) → xor a3 (!a4 && a0) = xor b3 (!b4 && b0) →
    xor a4 (!a0 && a1) = xor b4 (!b0 && b1) →
    a0 = b0 ∧ a1 = b1 ∧ a2 = b2 ∧ a3 = b3 ∧ a4 = b4 := by
  decide

theorem bool_xor_solve (a b c : Bool) (h : a = xor b c) : c = xor a b := by
  subst h
  cases b <;> cases c <;> rfl

theorem theta_kernel (e0 e1 e2 e3 e4 : Nat) (b0 : e0 < 2 ^ 64) (b1 : e1 < 2 ^ 64)
    (b2 : e2 < 2 ^ 64) (b3 : e3 < 2 ^ 64) (b4 : e4 < 2 ^ 64)
    (h0 : e0 = e4 ^^^ SHA3_ROTL64 e1 1) (h1 : e1 = e0 ^^^ SHA3_ROTL64 e2 1)
    (h2 : e2 = e1 ^^^ SHA3_ROTL64 e3 1) (h3 : e3 = e2 ^^^ SHA3_ROTL64 e4 1)
    (h4 : e4 = e3 ^^^ SHA3_ROTL64 e0 1) :
    e0 = 0 ∧ e1 = 0 ∧ e2 = 0 ∧ e3 = 0 ∧ e4 = 0 := by
  have bit : ∀ (x y z : Nat), z < 2 ^ 64 → x = y ^^^ SHA3_ROTL64 z 1 → ∀ k < 64,
      z.testBit ((k + 63) % 64) = xor (x.testBit k) (y.testBit k) := by
    intro x y z hz h k hk
    have hh := congrArg (fun t => t.testBit k) h
    simp only [Nat.testBit_xor, rotl_testBit z 1 k hz (by norm_num) (by norm_num) hk] at hh
    have e : (k + 64 - 1) % 64 = (k + 63) % 64 := by omega
    rw [e] at hh
    exact bool_xor_solve _ _ _ hh
  have step : ∀ k < 64,
      (e0.testBit ((k + 63) % 64), e1.testBit ((k + 63) % 64), e2.testBit ((k + 63) % 64),
        e3.testBit ((k + 63) % 64), e4.testBit ((k + 63) % 64)) =
      thetaBack (e0.testBit k, e1.testBit k, e2.testBit k, e3.testBit k, e4.testBit k) := by
    intro k hk
    unfold thetaBack
    simp only [bit e4 e3 e0 b0 h4 k hk, bit e0 e4 e1 b1 h0 k hk, bit e1 e0 e2 b2 h1 k hk,
      bit e2 e1 e3 b3 h2 k hk, bit e3 e2 e4 b4 h3 k hk]
  have iter : ∀ n : Nat, ∀ k < 64,
      (e0.testBit ((k + 63 * n) % 64), e1.testBit ((k + 63 * n) % 64),
        e2.testBit ((k + 63 * n) % 64), e3.testBit ((k + 63 * n) % 64),
        e4.testBit ((k + 63 * n) % 64)) =
      thetaBack^[n] (e0.testBit k, e1.testBit k, e2.testBit k, e3.testBit k, e4.testBit k) := by
    intro n
    induction n with
    | zero =>
      intro k hk
      simp only [Nat.mul_zero, Nat.add_zero, Nat.mod_eq_of_lt hk, Function.iterate_zero, id_eq]
    | succ n ih =>
      intro k hk
      have e : (k + 63 * (n + 1)) % 64 = ((k + 63 * n) % 64 + 63) % 64 := by omega
      rw [e, step _ (Nat.mod_lt _ (by norm_num)), ih k hk, Function.iterate_succ_apply']
  have zero : ∀ k < 64, e0.testBit k = false ∧ e1.testBit k = false ∧ e2.testBit k = false ∧
      e3.testBit k = false ∧ e4.testBit k = false := by
    intro k hk
    have h64 := iter 64 k hk
    have e : (k + 63 * 64) % 64 = k := by omega
    rw [e] at h64
    have hz := thetaBack_fixed _ h64.symm
    simp only [Prod.mk.injEq] at hz
    exact hz
  have fin : ∀ x : Nat, x < 2 ^ 64 → (∀ k < 64, x.testBit k = false) → x = 0 := by
    intro x hx hbits
    apply Nat.eq_of_testBit_eq
    intro k
    rw [Nat.zero_testBit]
    by_cases hk : k < 64
    · exact hbits k hk
    · exact testBit_ge_64 x k hx (by omega)
  exact ⟨fin e0 b0 fun k hk => (zero k hk).1, fin e1 b1 fun k hk => (zero k hk).2.1,
    fin e2 b2 fun k hk => (zero k hk).2.2.1, fin e3 b3 fun k hk => (zero k hk).2.2.2.1,
    fin e4 b4 fun k hk => (zero k hk).2.2.2.2⟩

theorem xor5_absorb (x0 x1 x2 x3 x4 d : Nat) :
    (x0 ^^^ d) ^^^ (x1 ^^^ d) ^^^ (x2 ^^^ d) ^^^ (x3 ^^^ d) ^^^ (x4 ^^^ d) =
      (x0 ^^^ x1 ^^^ x2 ^^^ x3 ^^^ x4) ^^^ d := by
  apply Nat.eq_of_testBit_eq
  intro i
  simp only [Nat.testBit_xor]
  cases x0.testBit i <;> cases x1.testBit i <;> cases x2.testBit i <;> cases x3.testBit i <;>
    cases x4.testBit i <;> cases d.testBit i <;> rfl

theorem theta_column (x0 x1 x2 x3 x4 y0 y1 y2 y3 y4 d e : Nat) (h0 : x0 ^^^ d = y0 ^^^ e)
    (h1 : x1 ^^^ d = y1 ^^^ e) (h2 : x2 ^^^ d = y2 ^^^ e) (h3 : x3 ^^^ d = y3 ^^^ e)
    (h4 : x4 ^^^ d = y4 ^^^ e) :
    (x0 ^^^ x1 ^^^ x2 ^^^ x3 ^^^ x4) ^^^ d = (y0 ^^^ y1 ^^^ y2 ^^^ y3 ^^^ y4) ^^^ e := by
  rw [← xor5_absorb x0 x1 x2 x3 x4 d, ← xor5_absorb y0 y1 y2 y3 y4 e, h0, h1, h2, h3, h4]

theorem xor_rearrange (c d r c' d' r' : Nat) (h : c ^^^ (d ^^^ r) = c' ^^^ (d' ^^^ r')) :
    c ^^^ c' = (d ^^^ d') ^^^ (r ^^^ r') := by
  apply Nat.eq_of_testBit_eq
  intro i
  have hh := congrArg (fun t => t.testBit i) h
  simp only [Nat.testBit_xor] at hh ⊢
  revert hh
  cases c.testBit i <;> cases d.testBit i <;> cases r.testBit i <;> cases c'.testBit i <;>
    cases d'.testBit i <;> cases r'.testBit i <;> simp

theorem xor_cancel (x y d e : Nat) (hde : d = e) (h : x ^^^ d = y ^^^ e) : x = y := by
  subst hde
  exact Nat.xor_left_inj.mp h

theorem xor5_lt {x0 x1 x2 x3 x4 : Nat} (h0 : x0 < 2 ^ 64) (h1 : x1 < 2 ^ 64) (h2 : x2 < 2 ^ 64)
    (h3 : x3 < 2 ^ 64) (h4 : x4 < 2 ^ 64) : x0 ^^^ x1 ^^^ x2 ^^^ x3 ^^^ x4 < 2 ^ 64 :=
  Nat.xor_lt_two_pow (Nat.xor_lt_two_pow (Nat.xor_lt_two_pow (Nat.xor_lt_two_pow h0 h1) h2) h3) h4

theorem state_bounds (a0 a1 a2 a3 a4 a5 a6 a7 a8 a9 a10 a11 a12 a13 a14 a15 a16 a17 a18 a19 a20 a21 a22 a23 a24 : Nat)
    (h : StateOk [a0, a1, a2, a3, a4, a5, a6, a7, a8, a9, a10, a11, a12, a13, a14, a15, a16, a17, a18, a19, a20, a21, a22, a23, a24]) :
    a0 < 2 ^ 64 ∧ a1 < 2 ^ 64 ∧ a2 < 2 ^ 64 ∧ a3 < 2 ^ 64 ∧ a4 < 2 ^ 64 ∧ a5 < 2 ^ 64 ∧ a6 < 2 ^ 64 ∧ a7 < 2 ^ 64 ∧
    a8 < 2 ^ 64 ∧ a9 < 2 ^ 64 ∧ a10 < 2 ^ 64 ∧ a11 < 2 ^ 64 ∧ a12 < 2 ^ 64 ∧ a13 < 2 ^ 64 ∧ a14 < 2 ^ 64 ∧ a15 < 2 ^ 64 ∧
    a16 < 2 ^ 64 ∧ a17 < 2 ^ 64 ∧ a18 < 2 ^ 64 ∧ a19 < 2 ^ 64 ∧ a20 < 2 ^ 64 ∧ a21 < 2 ^ 64 ∧ a22 < 2 ^ 64 ∧ a23 < 2 ^ 64 ∧
    a24 < 2 ^ 64 :=
  ⟨h.2 a0 (by simp),
    h.2 a1 (by simp),
    h.2 a2 (by simp),
    h.2 a3 (by simp),
    h.2 a4 (by simp),
    h.2 a5 (by simp),
    h.2 a6 (by simp),
    h.2 a7 (by simp),
    h.2 a8 (by simp),
    h.2 a9 (by simp),
    h.2 a10 (by simp),
    h.2 a11 (by simp),
    h.2 a12 (by simp),
    h.2 a13 (by simp),
    h.2 a14 (by simp),
    h.2 a15 (by simp),
    h.2 a16 (by simp),
    h.2 a17 (by simp),
    h.2 a18 (by simp),
    h.2 a19 (by simp),
    h.2 a20 (by simp),
    h.2 a21 (by simp),
    h.2 a22 (by simp),
    h.2 a23 (by simp),
    h.2 a24 (by simp)⟩

theorem theta_injective (a b : List Nat) (ha : StateOk a) (hb : StateOk b)
    (h : keccakf_theta a = keccakf_theta b) : a = b := by
  obtain ⟨a0, a1, a2, a3, a4, a5, a6, a7, a8, a9, a10, a11, a12, a13, a14, a15, a16, a17, a18, a19, a20, a21, a22, a23, a24,
    rfl⟩ := eq_of_length_25 a ha.1
  obtain ⟨b0, b1, b2, b3, b4, b5, b6, b7, b8, b9, b10, b11, b12, b13, b14, b15, b16, b17, b18, b19, b20, b21, b22, b23, b24,
    rfl⟩ := eq_of_length_25 b hb.1
  obtain ⟨A0, A1, A2, A3, A4, A5, A6, A7, A8, A9, A10, A11, A12, A13, A14, A15, A16, A17, A18, A19, A20, A21, A22, A23, A24⟩ :=
    state_bounds _ _ _ _ _ _ _ _ _ _ _ _ _ _ _ _ _ _ _ _ _ _ _ _ _ ha
  obtain ⟨B0, B1, B2, B3, B4, B5, B6, B7, B8, B9, B10, B11, B12, B13, B14, B15, B16, B17, B18, B19, B20, B21, B22, B23, B24⟩ :=
    state_bounds _ _ _ _ _ _ _ _ _ _ _ _ _ _ _ _ _ _ _ _ _ _ _ _ _ hb
  rw [theta_explicit, theta_explicit] at h
  simp only [List.cons.injEq, and_true] at h
  obtain ⟨h0, h1, h2, h3, h4, h5, h6, h7, h8, h9, h10, h11, h12, h13, h14, h15, h16, h17, h18, h19, h20, h21, h22, h23, h24⟩ := h
  have LA0 := xor5_lt A0 A5 A10 A15 A20
  have LB0 := xor5_lt B0 B5 B10 B15 B20
  have LA1 := xor5_lt A1 A6 A11 A16 A21
  have LB1 := xor5_lt B1 B6 B11 B16 B21
  have LA2 := xor5_lt A2 A7 A12 A17 A22
  have LB2 := xor5_lt B2 B7 B12 B17 B22
  have LA3 := xor5_lt A3 A8 A13 A18 A23
  have LB3 := xor5_lt B3 B8 B13 B18 B23
  have LA4 := xor5_lt A4 A9 A14 A19 A24
  have LB4 := xor5_lt B4 B9 B14 B19 B24
  have r0 := xor_rearrange _ _ _ _ _ _
    (theta_column _ _ _ _ _ _ _ _ _ _ _ _ h0 h5 h10 h15 h20)
  rw [rotl_xor _ _ 1 LA1 LB1 (by norm_num) (by norm_num)] at r0
  have r1 := xor_rearrange _ _ _ _ _ _
    (theta_column _ _ _ _ _ _ _ _ _ _ _ _ h1 h6 h11 h16 h21)
  rw [rotl_xor _ _ 1 LA2 LB2 (by norm_num) (by norm_num)] at r1
  have r2 := xor_rearrange _ _ _ _ _ _
    (theta_column _ _ _ _ _ _ _ _ _ _ _ _ h2 h7 h12 h17 h22)
  rw [rotl_xor _ _ 1 LA3 LB3 (by norm_num) (by norm_num)] at r2
  have r3 := xor_rearrange _ _ _ _ _ _
    (theta_column _ _ _ _ _ _ _ _ _ _ _ _ h3 h8 h13 h18 h23)
  rw [rotl_xor _ _ 1 LA4 LB4 (by norm_num) (by norm_num)] at r3
  have r4 := xor_rearrange _ _ _ _ _ _
    (theta_column _ _ _ _ _ _ _ _ _ _ _ _ h4 h9 h14 h19 h24)
  rw [rotl_xor _ _ 1 LA0 LB0 (by norm_num) (by norm_num)] at r4
  obtain ⟨z0, z1, z2, z3, z4⟩ := theta_kernel _ _ _ _ _ (Nat.xor_lt_two_pow LA0 LB0)
    (Nat.xor_lt_two_pow LA1 LB1) (Nat.xor_lt_two_pow LA2 LB2) (Nat.xor_lt_two_pow LA3 LB3)
    (Nat.xor_lt_two_pow LA4 LB4) r0 r1 r2 r3 r4
  have q0 := Nat.xor_eq_zero.mp z0
  have q1 := Nat.xor_eq_zero.mp z1
  have q2 := Nat.xor_eq_zero.mp z2
  have q3 := Nat.xor_eq_zero.mp z3
  have q4 := Nat.xor_eq_zero.mp z4
  have d0 : (a4 ^^^ a9 ^^^ a14 ^^^ a19 ^^^ a24) ^^^
      SHA3_ROTL64 (a1 ^^^ a6 ^^^ a11 ^^^ a16 ^^^ a21) 1 =
      (b4 ^^^ b9 ^^^ b14 ^^^ b19 ^^^ b24) ^^^
      SHA3_ROTL64 (b1 ^^^ b6 ^^^ b11 ^^^ b16 ^^^ b21) 1 := by
    rw [q4, q1]
  have d1 : (a0 ^^^ a5 ^^^ a10 ^^^ a15 ^^^ a20) ^^^
      SHA3_ROTL64 (a2 ^^^ a7 ^^^ a12 ^^^ a17 ^^^ a22) 1 =
      (b0 ^^^ b5 ^^^ b10 ^^^ b15 ^^^ b20) ^^^
      SHA3_ROTL64 (b2 ^^^ b7 ^^^ b12 ^^^ b17 ^^^ b22) 1 := by
    rw [q0, q2]
  have d2 : (a1 ^^^ a6 ^^^ a11 ^^^ a16 ^^^ a21) ^^^
      SHA3_ROTL64 (a3 ^^^ a8 ^^^ a13 ^^^ a18 ^^^ a23) 1 =
      (b1 ^^^ b6 ^^^ b11 ^^^ b16 ^^^ b21) ^^^
      SHA3_ROTL64 (b3 ^^^ b8 ^^^ b13 ^^^ b18 ^^^ b23) 1 := by
    rw [q1, q3]
  have d3 : (a2 ^^^ a7 ^^^ a12 ^^^ a17 ^^^ a22) ^^^
      SHA3_ROTL64 (a4 ^^^ a9 ^^^ a14 ^^^ a19 ^^^ a24) 1 =
      (b2 ^^^ b7 ^^^ b12 ^^^ b17 ^^^ b22) ^^^
      SHA3_ROTL64 (b4 ^^^ b9 ^^^ b14 ^^^ b19 ^^^ b24) 1 := by
    rw [q2, q4]
  have d4 : (a3 ^^^ a8 ^^^ a13 ^^^ a18 ^^^ a23) ^^^
      SHA3_ROTL64 (a0 ^^^ a5 ^^^ a10 ^^^ a15 ^^^ a20) 1 =
      (b3 ^^^ b8 ^^^ b13 ^^^ b18 ^^^ b23) ^^^
      SHA3_ROTL64 (b0 ^^^ b5 ^^^ b10 ^^^ b15 ^^^ b20) 1 := by
    rw [q3, q0]
  rw [xor_cancel _ _ _ _ d0 h0, xor_cancel _ _ _ _ d1 h1, xor_cancel _ _ _ _ d2 h2, xor_cancel _ _ _ _ d3 h3, xor_cancel _ _ _ _ d4 h4,
    xor_cancel _ _ _ _ d0 h5, xor_cancel _ _ _ _ d1 h6, xor_cancel _ _ _ _ d2 h7, xor_cancel _ _ _ _ d3 h8, xor_cancel _ _ _ _ d4 h9,
    xor_cancel _ _ _ _ d0 h10, xor_cancel _ _ _ _ d1 h11, xor_cancel _ _ _ _ d2 h12, xor_cancel _ _ _ _ d3 h13, xor_cancel _ _ _ _ d4 h14,
    xor_cancel _ _ _ _ d0 h15, xor_cancel _ _ _ _ d1 h16, xor_cancel _ _ _ _ d2 h17, xor_cancel _ _ _ _ d3 h18, xor_cancel _ _ _ _ d4 h19,
    xor_cancel _ _ _ _ d0 h20, xor_cancel _ _ _ _ d1 h21, xor_cancel _ _ _ _ d2 h22, xor_cancel _ _ _ _ d3 h23, xor_cancel _ _ _ _ d4 h24]

theorem state_of_bounds (a0 a1 a2 a3 a4 a5 a6 a7 a8 a9 a10 a11 a12 a13 a14 a15 a16 a17 a18 a19 a20 a21 a22 a23 a24 : Nat)
    (h0 : a0 < 2 ^ 64) (h1 : a1 < 2 ^ 64) (h2 : a2 < 2 ^ 64) (h3 : a3 < 2 ^ 64)
    (h4 : a4 < 2 ^ 64) (h5 : a5 < 2 ^ 64) (h6 : a6 < 2 ^ 64) (h7 : a7 < 2 ^ 64)
    (h8 : a8 < 2 ^ 64) (h9 : a9 < 2 ^ 64) (h10 : a10 < 2 ^ 64) (h11 : a11 < 2 ^ 64)
    (h12 : a12 < 2 ^ 64) (h13 : a13 < 2 ^ 64) (h14 : a14 < 2 ^ 64) (h15 : a15 < 2 ^ 64)
    (h16 : a16 < 2 ^ 64) (h17 : a17 < 2 ^ 64) (h18 : a18 < 2 ^ 64) (h19 : a19 < 2 ^ 64)
    (h20 : a20 < 2 ^ 64) (h21 : a21 < 2 ^ 64) (h22 : a22 < 2 ^ 64) (h23 : a23 < 2 ^ 64)
    (h24 : a24 < 2 ^ 64) :
    StateOk [a0, a1, a2, a3, a4, a5, a6, a7, a8, a9, a10, a11, a12, a13, a14, a15, a16, a17, a18, a19, a20, a21, a22, a23, a24] := by
  refine ⟨rfl, ?_⟩
  intro x hx
  simp only [List.mem_cons, List.mem_singleton, List.not_mem_nil, or_false] at hx
  rcases hx with rfl | rfl | rfl | rfl | rfl | rfl | rfl | rfl | rfl | rfl | rfl | rfl | rfl | rfl | rfl | rfl | rfl | rfl | rfl | rfl | rfl | rfl | rfl | rfl | rfl <;> assumption

theorem theta_ok (s : List Nat) (hs : StateOk s) : StateOk (keccakf_theta s) := by
  obtain ⟨a0, a1, a2, a3, a4, a5, a6, a7, a8, a9, a10, a11, a12, a13, a14, a15, a16, a17, a18, a19, a20, a21, a22, a23, a24,
    rfl⟩ := eq_of_length_25 s hs.1
  obtain ⟨A0, A1, A2, A3, A4, A5, A6, A7, A8, A9, A10, A11, A12, A13, A14, A15, A16, A17, A18, A19, A20, A21, A22, A23, A24⟩ :=
    state_bounds _ _ _ _ _ _ _ _ _ _ _ _ _ _ _ _ _ _ _ _ _ _ _ _ _ hs
  have L0 := xor5_lt A0 A5 A10 A15 A20
  have L1 := xor5_lt A1 A6 A11 A16 A21
  have L2 := xor5_lt A2 A7 A12 A17 A22
  have L3 := xor5_lt A3 A8 A13 A18 A23
  have L4 := xor5_lt A4 A9 A14 A19 A24
  rw [theta_explicit]
  exact state_of_bounds _ _ _ _ _ _ _ _ _ _ _ _ _ _ _ _ _ _ _ _ _ _ _ _ _
    (Nat.xor_lt_two_pow A0 (Nat.xor_lt_two_pow L4 (rotl_lt _ 1 L1)))
    (Nat.xor_lt_two_pow A1 (Nat.xor_lt_two_pow L0 (rotl_lt _ 1 L2)))
    (Nat.xor_lt_two_pow A2 (Nat.xor_lt_two_pow L1 (rotl_lt _ 1 L3)))
    (Nat.xor_lt_two_pow A3 (Nat.xor_lt_two_pow L2 (rotl_lt _ 1 L4)))
    (Nat.xor_lt_two_pow A4 (Nat.xor_lt_two_pow L3 (rotl_lt _ 1 L0)))
    (Nat.xor_lt_two_pow A5 (Nat.xor_lt_two_pow L4 (rotl_lt _ 1 L1)))
    (Nat.xor_lt_two_pow A6 (Nat.xor_lt_two_pow L0 (rotl_lt _ 1 L2)))
    (Nat.xor_lt_two_pow A7 (Nat.xor_lt_two_pow L1 (rotl_lt _ 1 L3)))
    (Nat.xor_lt_two_pow A8 (Nat.xor_lt_two_pow L2 (rotl_lt _ 1 L4)))
    (Nat.xor_lt_two_pow A9 (Nat.xor_lt_two_pow L3 (rotl_lt _ 1 L0)))
    (Nat.xor_lt_two_pow A10 (Nat.xor_lt_two_pow L4 (rotl_lt _ 1 L1)))
    (Nat.xor_lt_two_pow A11 (Nat.xor_lt_two_pow L0 (rotl_lt _ 1 L2)))
    (Nat.xor_lt_two_pow A12 (Nat.xor_lt_two_pow L1 (rotl_lt _ 1 L3)))
    (Nat.xor_lt_two_pow A13 (Nat.xor_lt_two_pow L2 (rotl_lt _ 1 L4)))
    (Nat.xor_lt_two_pow A14 (Nat.xor_lt_two_pow L3 (rotl_lt _ 1 L0)))
    (Nat.xor_lt_two_pow A15 (Nat.xor_lt_two_pow L4 (rotl_lt _ 1 L1)))
    (Nat.xor_lt_two_pow A16 (Nat.xor_lt_two_pow L0 (rotl_lt _ 1 L2)))
    (Nat.xor_lt_two_pow A17 (Nat.xor_lt_two_pow L1 (rotl_lt _ 1 L3)))
    (Nat.xor_lt_two_pow A18 (Nat.xor_lt_two_pow L2 (rotl_lt _ 1 L4)))
    (Nat.xor_lt_two_pow A19 (Nat.xor_lt_two_pow L3 (rotl_lt _ 1 L0)))
    (Nat.xor_lt_two_pow A20 (Nat.xor_lt_two_pow L4 (rotl_lt _ 1 L1)))
    (Nat.xor_lt_two_pow A21 (Nat.xor_lt_two_pow L0 (rotl_lt _ 1 L2)))
    (Nat.xor_lt_two_pow A22 (Nat.xor_lt_two_pow L1 (rotl_lt _ 1 L3)))
    (Nat.xor_lt_two_pow A23 (Nat.xor_lt_two_pow L2 (rotl_lt _ 1 L4)))
    (Nat.xor_lt_two_pow A24 (Nat.xor_lt_two_pow L3 (rotl_lt _ 1 L0)))

theorem rhoPi_ok (s : List Nat) (hs : StateOk s) : StateOk (keccakf_rhoPi s) := by
  obtain ⟨a0, a1, a2, a3, a4, a5, a6, a7, a8, a9, a10, a11, a12, a13, a14, a15, a16, a17, a18, a19, a20, a21, a22, a23, a24,
    rfl⟩ := eq_of_length_25 s hs.1
  obtain ⟨A0, A1, A2, A3, A4, A5, A6, A7, A8, A9, A10, A11, A12, A13, A14, A15, A16, A17, A18, A19, A20, A21, A22, A23, A24⟩ :=
    state_bounds _ _ _ _ _ _ _ _ _ _ _ _ _ _ _ _ _ _ _ _ _ _ _ _ _ hs
  rw [rhoPi_explicit]
  exact state_of_bounds _ _ _ _ _ _ _ _ _ _ _ _ _ _ _ _ _ _ _ _ _ _ _ _ _ A0
    (rotl_lt _ 44 A6) (rotl_lt _ 43 A12) (rotl_lt _ 21 A18) (rotl_lt _ 14 A24)
    (rotl_lt _ 28 A3) (rotl_lt _ 20 A9) (rotl_lt _ 3 A10) (rotl_lt _ 45 A16)
    (rotl_lt _ 61 A22) (rotl_lt _ 1 A1) (rotl_lt _ 6 A7) (rotl_lt _ 25 A13)
    (rotl_lt _ 8 A19) (rotl_lt _ 18 A20) (rotl_lt _ 27 A4) (rotl_lt _ 36 A5)
    (rotl_lt _ 10 A11) (rotl_lt _ 15 A17) (rotl_lt _ 56 A23) (rotl_lt _ 62 A2)
    (rotl_lt _ 55 A8) (rotl_lt _ 39 A14) (rotl_lt _ 41 A15) (rotl_lt _ 2 A21)

theorem chi_ok (s : List Nat) (hs : StateOk s) : StateOk (keccakf_chi s) := by
  obtain ⟨a0, a1, a2, a3, a4, a5, a6, a7, a8, a9, a10, a11, a12, a13, a14, a15, a16, a17, a18, a19, a20, a21, a22, a23, a24,
    rfl⟩ := eq_of_length_25 s hs.1
  obtain ⟨A0, A1, A2, A3, A4, A5, A6, A7, A8, A9, A10, A11, A12, A13, A14, A15, A16, A17, A18, A19, A20, A21, A22, A23, A24⟩ :=
    state_bounds _ _ _ _ _ _ _ _ _ _ _ _ _ _ _ _ _ _ _ _ _ _ _ _ _ hs
  rw [chi_explicit]
  exact state_of_bounds _ _ _ _ _ _ _ _ _ _ _ _ _ _ _ _ _ _ _ _ _ _ _ _ _
    (Nat.xor_lt_two_pow A0 (Nat.and_lt_two_pow _ A2))
    (Nat.xor_lt_two_pow A1 (Nat.and_lt_two_pow _ A3))
    (Nat.xor_lt_two_pow A2 (Nat.and_lt_two_pow _ A4))
    (Nat.xor_lt_two_pow A3 (Nat.and_lt_two_pow _ A0))
    (Nat.xor_lt_two_pow A4 (Nat.and_lt_two_pow _ A1))
    (Nat.xor_lt_two_pow A5 (Nat.and_lt_two_pow _ A7))
    (Nat.xor_lt_two_pow A6 (Nat.and_lt_two_pow _ A8))
    (Nat.xor_lt_two_pow A7 (Nat.and_lt_two_pow _ A9))
    (Nat.xor_lt_two_pow A8 (Nat.and_lt_two_pow _ A5))
    (Nat.xor_lt_two_pow A9 (Nat.and_lt_two_pow _ A6))
    (Nat.xor_lt_two_pow A10 (Nat.and_lt_two_pow _ A12))
    (Nat.xor_lt_two_pow A11 (Nat.and_lt_two_pow _ A13))
    (Nat.xor_lt_two_pow A12 (Nat.and_lt_two_pow _ A14))
    (Nat.xor_lt_two_pow A13 (Nat.and_lt_two_pow _ A10))
    (Nat.xor_lt_two_pow A14 (Nat.and_lt_two_pow _ A11))
    (Nat.xor_lt_two_pow A15 (Nat.and_lt_two_pow _ A17))
    (Nat.xor_lt_two_pow A16 (Nat.and_lt_two_pow _ A18))
    (Nat.xor_lt_two_pow A17 (Nat.and_lt_two_pow _ A19))
    (Nat.xor_lt_two_pow A18 (Nat.and_lt_two_pow _ A15))
    (Nat.xor_lt_two_pow A19 (Nat.and_lt_two_pow _ A16))
    (Nat.xor_lt_two_pow A20 (Nat.and_lt_two_pow _ A22))
    (Nat.xor_lt_two_pow A21 (Nat.and_lt_two_pow _ A23))
    (Nat.xor_lt_two_pow A22 (Nat.and_lt_two_pow _ A24))
    (Nat.xor_lt_two_pow A23 (Nat.and_lt_two_pow _ A20))
    (Nat.xor_lt_two_pow A24 (Nat.and_lt_two_pow _ A21))

theorem rndc_lt (round : Nat) : lane keccakf_rndc round < 2 ^ 64 := by
  by_cases h : round < 24
  · exact rndc_lfsr.2.2 round h
  · unfold lane
    rw [List.getD_eq_default _ _ (by simp only [keccakf_rndc, List.length_cons, List.length_nil]; omega)]
    norm_num

theorem iota_ok (round : Nat) (s : List Nat) (hs : StateOk s) : StateOk (keccakf_iota round s) := by
  obtain ⟨hl, hb⟩ := hs
  unfold keccakf_iota
  refine ⟨by rw [List.length_set]; exact hl, ?_⟩
  intro x hx
  rcases List.mem_or_eq_of_mem_set hx with h | h
  · exact hb x h
  · rw [h]
    refine Nat.xor_lt_two_pow ?_ (rndc_lt round)
    unfold lane
    rw [List.getD_eq_getElem _ _ (by omega)]
    exact hb _ (List.getElem_mem _)

theorem iota_injective (round : Nat) (a b : List Nat) (ha : StateOk a) (hb : StateOk b)
    (h : keccakf_iota round a = keccakf_iota round b) : a = b := by
  obtain ⟨a0, ta, rfl, -⟩ := exists_cons_of_length a 24 ha.1
  obtain ⟨b0, tb, rfl, -⟩ := exists_cons_of_length b 24 hb.1
  unfold keccakf_iota at h
  simp only [List.set_cons_zero, lane, List.getD_cons_zero, List.cons.injEq] at h
  rw [Nat.xor_left_inj.mp h.1, h.2]

theorem rhoPi_injective (a b : List Nat) (ha : StateOk a) (hb : StateOk b)
    (h : keccakf_rhoPi a = keccakf_rhoPi b) : a = b := by
  obtain ⟨a0, a1, a2, a3, a4, a5, a6, a7, a8, a9, a10, a11, a12, a13, a14, a15, a16, a17, a18, a19, a20, a21, a22, a23, a24,
    rfl⟩ := eq_of_length_25 a ha.1
  obtain ⟨b0, b1, b2, b3, b4, b5, b6, b7, b8, b9, b10, b11, b12, b13, b14, b15, b16, b17, b18, b19, b20, b21, b22, b23, b24,
    rfl⟩ := eq_of_length_25 b hb.1
  obtain ⟨A0, A1, A2, A3, A4, A5, A6, A7, A8, A9, A10, A11, A12, A13, A14, A15, A16, A17, A18, A19, A20, A21, A22, A23, A24⟩ :=
    state_bounds _ _ _ _ _ _ _ _ _ _ _ _ _ _ _ _ _ _ _ _ _ _ _ _ _ ha
  obtain ⟨B0, B1, B2, B3, B4, B5, B6, B7, B8, B9, B10, B11, B12, B13, B14, B15, B16, B17, B18, B19, B20, B21, B22, B23, B24⟩ :=
    state_bounds _ _ _ _ _ _ _ _ _ _ _ _ _ _ _ _ _ _ _ _ _ _ _ _ _ hb
  rw [rhoPi_explicit, rhoPi_explicit] at h
  simp only [List.cons.injEq, and_true] at h
  obtain ⟨h0, h1, h2, h3, h4, h5, h6, h7, h8, h9, h10, h11, h12, h13, h14, h15, h16, h17, h18, h19, h20, h21, h22, h23, h24⟩ := h
  have g6 := rotl_injective _ _ 44 A6 B6 (by norm_num) (by norm_num) h1
  have g12 := rotl_injective _ _ 43 A12 B12 (by norm_num) (by norm_num) h2
  have g18 := rotl_injective _ _ 21 A18 B18 (by norm_num) (by norm_num) h3
  have g24 := rotl_injective _ _ 14 A24 B24 (by norm_num) (by norm_num) h4
  have g3 := rotl_injective _ _ 28 A3 B3 (by norm_num) (by norm_num) h5
  have g9 := rotl_injective _ _ 20 A9 B9 (by norm_num) (by norm_num) h6
  have g10 := rotl_injective _ _ 3 A10 B10 (by norm_num) (by norm_num) h7
  have g16 := rotl_injective _ _ 45 A16 B16 (by norm_num) (by norm_num) h8
  have g22 := rotl_injective _ _ 61 A22 B22 (by norm_num) (by norm_num) h9
  have g1 := rotl_injective _ _ 1 A1 B1 (by norm_num) (by norm_num) h10
  have g7 := rotl_injective _ _ 6 A7 B7 (by norm_num) (by norm_num) h11
  have g13 := rotl_injective _ _ 25 A13 B13 (by norm_num) (by norm_num) h12
  have g19 := rotl_injective _ _ 8 A19 B19 (by norm_num) (by norm_num) h13
  have g20 := rotl_injective _ _ 18 A20 B20 (by norm_num) (by norm_num) h14
  have g4 := rotl_injective _ _ 27 A4 B4 (by norm_num) (by norm_num) h15
  have g5 := rotl_injective _ _ 36 A5 B5 (by norm_num) (by norm_num) h16
  have g11 := rotl_injective _ _ 10 A11 B11 (by norm_num) (by norm_num) h17
  have g17 := rotl_injective _ _ 15 A17 B17 (by norm_num) (by norm_num) h18
  have g23 := rotl_injective _ _ 56 A23 B23 (by norm_num) (by norm_num) h19
  have g2 := rotl_injective _ _ 62 A2 B2 (by norm_num) (by norm_num) h20
  have g8 := rotl_injective _ _ 55 A8 B8 (by norm_num) (by norm_num) h21
  have g14 := rotl_injective _ _ 39 A14 B14 (by norm_num) (by norm_num) h22
  have g15 := rotl_injective _ _ 41 A15 B15 (by norm_num) (by norm_num) h23
  have g21 := rotl_injective _ _ 2 A21 B21 (by norm_num) (by norm_num) h24
  rw [h0, g1, g2, g3, g4, g5, g6, g7, g8, g9, g10, g11, g12, g13, g14, g15, g16, g17, g18, g19, g20, g21, g22, g23, g24]

theorem not64_testBit (x k : Nat) (hk : k < 64) : (not64 x).testBit k = !x.testBit k := by
  unfold not64
  rw [Nat.testBit_xor, Nat.testBit_two_pow_sub_one]
  simp [hk]

theorem chi_row_injective (x0 x1 x2 x3 x4 y0 y1 y2 y3 y4 : Nat)
    (X0 : x0 < 2 ^ 64) (X1 : x1 < 2 ^ 64) (X2 : x2 < 2 ^ 64) (X3 : x3 < 2 ^ 64)
    (X4 : x4 < 2 ^ 64) (Y0 : y0 < 2 ^ 64) (Y1 : y1 < 2 ^ 64) (Y2 : y2 < 2 ^ 64)
    (Y3 : y3 < 2 ^ 64) (Y4 : y4 < 2 ^ 64)
    (h0 : x0 ^^^ (not64 x1 &&& x2) = y0 ^^^ (not64 y1 &&& y2))
    (h1 : x1 ^^^ (not64 x2 &&& x3) = y1 ^^^ (not64 y2 &&& y3))
    (h2 : x2 ^^^ (not64 x3 &&& x4) = y2 ^^^ (not64 y3 &&& y4))
    (h3 : x3 ^^^ (not64 x4 &&& x0) = y3 ^^^ (not64 y4 &&& y0))
    (h4 : x4 ^^^ (not64 x0 &&& x1) = y4 ^^^ (not64 y0 &&& y1)) :
    x0 = y0 ∧ x1 = y1 ∧ x2 = y2 ∧ x3 = y3 ∧ x4 = y4 := by
  have bits : ∀ k, x0.testBit k = y0.testBit k ∧ x1.testBit k = y1.testBit k ∧
      x2.testBit k = y2.testBit k ∧ x3.testBit k = y3.testBit k ∧
      x4.testBit k = y4.testBit k := by
    intro k
    by_cases hk : k < 64
    · have e0 := congrArg (fun t => t.testBit k) h0
      have e1 := congrArg (fun t => t.testBit k) h1
      have e2 := congrArg (fun t => t.testBit k) h2
      have e3 := congrArg (fun t => t.testBit k) h3
      have e4 := congrArg (fun t => t.testBit k) h4
      simp only [Nat.testBit_xor, Nat.testBit_and, not64_testBit _ k hk] at e0 e1 e2 e3 e4
      exact chi_bits_injective _ _ _ _ _ _ _ _ _ _ e0 e1 e2 e3 e4
    · have hk' : 64 ≤ k := by omega
      simp only [testBit_ge_64 _ k X0 hk', testBit_ge_64 _ k X1 hk', testBit_ge_64 _ k X2 hk',
        testBit_ge_64 _ k X3 hk', testBit_ge_64 _ k X4 hk', testBit_ge_64 _ k Y0 hk',
        testBit_ge_64 _ k Y1 hk', testBit_ge_64 _ k Y2 hk', testBit_ge_64 _ k Y3 hk',
        testBit_ge_64 _ k Y4 hk', and_self]
  exact ⟨Nat.eq_of_testBit_eq fun k => (bits k).1, Nat.eq_of_testBit_eq fun k => (bits k).2.1,
    Nat.eq_of_testBit_eq fun k => (bits k).2.2.1, Nat.eq_of_testBit_eq fun k => (bits k).2.2.2.1,
    Nat.eq_of_testBit_eq fun k => (bits k).2.2.2.2⟩

theorem chi_injective (a b : List Nat) (ha : StateOk a) (hb : StateOk b)
    (h : keccakf_chi a = keccakf_chi b) : a = b := by
  obtain ⟨a0, a1, a2, a3, a4, a5, a6, a7, a8, a9, a10, a11, a12, a13, a14, a15, a16, a17, a18, a19, a20, a21, a22, a23, a24,
    rfl⟩ := eq_of_length_25 a ha.1
  obtain ⟨b0, b1, b2, b3, b4, b5, b6, b7, b8, b9, b10, b11, b12, b13, b14, b15, b16, b17, b18, b19, b20, b21, b22, b23, b24,
    rfl⟩ := eq_of_length_25 b hb.1
  obtain ⟨A0, A1, A2, A3, A4, A5, A6, A7, A8, A9, A10, A11, A12, A13, A14, A15, A16, A17, A18, A19, A20, A21, A22, A23, A24⟩ :=
    state_bounds _ _ _ _ _ _ _ _ _ _ _ _ _ _ _ _ _ _ _ _ _ _ _ _ _ ha
  obtain ⟨B0, B1, B2, B3, B4, B5, B6, B7, B8, B9, B10, B11, B12, B13, B14, B15, B16, B17, B18, B19, B20, B21, B22, B23, B24⟩ :=
    state_bounds _ _ _ _ _ _ _ _ _ _ _ _ _ _ _ _ _ _ _ _ _ _ _ _ _ hb
  rw [chi_explicit, chi_explicit] at h
  simp only [List.cons.injEq, and_true] at h
  obtain ⟨h0, h1, h2, h3, h4, h5, h6, h7, h8, h9, h10, h11, h12, h13, h14, h15, h16, h17, h18, h19, h20, h21, h22, h23, h24⟩ := h
  obtain ⟨g0, g1, g2, g3, g4⟩ := chi_row_injective _ _ _ _ _ _ _ _ _ _
    A0 A1 A2 A3 A4 B0 B1 B2 B3 B4 h0 h1 h2 h3 h4
  obtain ⟨g5, g6, g7, g8, g9⟩ := chi_row_injective _ _ _ _ _ _ _ _ _ _
    A5 A6 A7 A8 A9 B5 B6 B7 B8 B9 h5 h6 h7 h8 h9
  obtain ⟨g10, g11, g12, g13, g14⟩ := chi_row_injective _ _ _ _ _ _ _ _ _ _
    A10 A11 A12 A13 A14 B10 B11 B12 B13 B14 h10 h11 h12 h13 h14
  obtain ⟨g15, g16, g17, g18, g19⟩ := chi_row_injective _ _ _ _ _ _ _ _ _ _
    A15 A16 A17 A18 A19 B15 B16 B17 B18 B19 h15 h16 h17 h18 h19
  obtain ⟨g20, g21, g22, g23, g24⟩ := chi_row_injective _ _ _ _ _ _ _ _ _ _
    A20 A21 A22 A23 A24 B20 B21 B22 B23 B24 h20 h21 h22 h23 h24
  rw [g0, g1, g2, g3, g4, g5, g6, g7, g8, g9, g10, g11, g12, g13, g14, g15, g16, g17, g18, g19, g20, g21, g22, g23, g24]

theorem keccakf_round_ok (s : List Nat) (hs : StateOk s) (round : Nat) :
    StateOk (keccakf_round s round) :=
  iota_ok round _ (chi_ok _ (rhoPi_ok _ (theta_ok s hs)))

theorem keccakf_round_injective (round : Nat) (a b : List Nat) (ha : StateOk a)
    (hb : StateOk b) (h : keccakf_round a round = keccakf_round b round) : a = b := by
  unfold keccakf_round at h
  have h1 := iota_injective round _ _ (chi_ok _ (rhoPi_ok _ (theta_ok a ha)))
    (chi_ok _ (rhoPi_ok _ (theta_ok b hb))) h
  have h2 := chi_injective _ _ (rhoPi_ok _ (theta_ok a ha)) (rhoPi_ok _ (theta_ok b hb)) h1
  have h3 := rhoPi_injective _ _ (theta_ok a ha) (theta_ok b hb) h2
  exact theta_injective a b ha hb h3

theorem foldl_round_ok (rounds : List Nat) (s : List Nat) (hs : StateOk s) :
    StateOk (rounds.foldl keccakf_round s) := by
  induction rounds generalizing s with
  | nil => exact hs
  | cons r rounds ih =>
    rw [List.foldl_cons]
    exact ih _ (keccakf_round_ok s hs r)

theorem foldl_round_injective (rounds : List Nat) (a b : List Nat) (ha : StateOk a)
    (hb : StateOk b) (h : rounds.foldl keccakf_round a = rounds.foldl keccakf_round b) :
    a = b := by
  induction rounds generalizing a b with
  | nil => exact h
  | cons r rounds ih =>
    rw [List.foldl_cons, List.foldl_cons] at h
    exact keccakf_round_injective r a b ha hb
      (ih _ _ (keccakf_round_ok a ha r) (keccakf_round_ok b hb r) h)

theorem keccakf_ok (s : List Nat) (hs : StateOk s) : StateOk (keccakf s) := by
  unfold keccakf
  exact foldl_round_ok _ s hs

theorem keccakf_injective (a b : List Nat) (ha : StateOk a) (hb : StateOk b)
    (h : keccakf a = keccakf b) : a = b := by
  unfold keccakf at h
  exact foldl_round_injective _ a b ha hb h

theorem stateOk_finite : {s : List Nat | StateOk s}.Finite := by
  have h := (List.finite_length_eq (Fin (2 ^ 64)) 25).image (List.map Fin.val)
  apply h.subset
  intro s hs
  refine ⟨s.pmap (fun x hx => ⟨x, hx⟩) hs.2, ?_, ?_⟩
  · simp only [Set.mem_setOf_eq, List.length_pmap]
    exact hs.1
  · rw [List.map_pmap]
    simp

theorem keccakf_bijOn : Set.BijOn keccakf {s | StateOk s} {s | StateOk s} :=
  (stateOk_finite.injOn_iff_bijOn_of_mapsTo (fun s hs => keccakf_ok s hs)).mp
    (fun a ha b hb h => keccakf_injective a b ha hb h)

/-- C12: `keccakf` is a permutation of the state space. On states of 25 lanes of 64 bits each
it is injective, `keccakf a = keccakf b` implies `a = b`; it maps states to states; and it is
onto, so it is a bijection of the state space. -/
theorem keccakf_permutation (a b : List Nat) (ha : StateOk a) (hb : StateOk b) :
    (keccakf a = keccakf b → a = b) ∧
    StateOk (keccakf a) ∧
    (∃ c, StateOk c ∧ keccakf c = b) ∧
    Set.BijOn keccakf {s | StateOk s} {s | StateOk s} := by
  refine ⟨keccakf_injective a b ha hb, keccakf_ok a ha, ?_, keccakf_bijOn⟩
  obtain ⟨c, hc, e⟩ := keccakf_bijOn.surjOn hb
  exact ⟨c, hc, e⟩

/-- Witness for C12: the probe state and the all-zero state. -/
theorem keccakf_permutation_witness :
    StateOk probeState ∧ StateOk (List.replicate 25 0) ∧
    ((keccakf probeState = keccakf (List.replicate 25 0) → probeState = List.replicate 25 0) ∧
    StateOk (keccakf probeState) ∧
    (∃ c, StateOk c ∧ keccakf c = List.replicate 25 0) ∧
    Set.BijOn keccakf {s | StateOk s} {s | StateOk s}) :=
  ⟨⟨by decide, by decide⟩, ⟨by decide, by decide⟩,
    keccakf_permutation probeState (List.replicate 25 0) ⟨by decide, by decide⟩
      ⟨by decide, by decide⟩⟩

/-! ## Checked rotations and array accesses -/

theorem theta_checked_explicit (a0 a1 a2 a3 a4 a5 a6 a7 a8 a9 a10 a11 a12 a13 a14 a15 a16 a17 a18 a19 a20
    a21 a22 a23 a24 : Nat) :
    keccakf_theta_checked [a0, a1, a2, a3, a4, a5, a6, a7, a8, a9, a10, a11, a12, a13, a14, a15, a16,
      a17, a18, a19, a20, a21, a22, a23, a24] =
    some (keccakf_theta [a0, a1, a2, a3, a4, a5, a6, a7, a8, a9, a10, a11, a12, a13, a14, a15, a16,
      a17, a18, a19, a20, a21, a22, a23, a24]) := by
  rw [theta_explicit]
  simp only [keccakf_theta_checked, range_5, List.foldlM_cons, List.foldlM_nil, readChecked,
    writeChecked, SHA3_ROTL64_checked, List.getElem?_cons_succ, List.getElem?_cons_zero,
    List.set_cons_succ, List.set_cons_zero, Nat.reduceAdd, Nat.reduceMod, Nat.reduceMul,
    Nat.reduceSub, Nat.reduceLT, List.length_cons, List.length_nil, List.replicate,
    Option.bind_eq_bind, Option.some_bind, Option.pure_def, if_true, and_self, bind_pure,
    Nat.zero_add, Nat.lt_add_one, Nat.zero_lt_succ]
  
theorem readChecked_of_lt (a : List Nat) (i : Nat) (h : i < a.length) :
    readChecked a i = some (lane a i) := by
  unfold readChecked lane
  rw [List.getD_eq_getElem _ _ h, List.getElem?_eq_getElem h]

theorem writeChecked_of_lt (a : List Nat) (i v : Nat) (h : i < a.length) :
    writeChecked a i v = some (a.set i v) := by
  unfold writeChecked
  rw [if_pos h]

theorem rotl_checked_iff (x y : Nat) :
    SHA3_ROTL64_checked x y = some (SHA3_ROTL64 x y) ↔ 1 ≤ y ∧ y ≤ 63 := by
  unfold SHA3_ROTL64_checked
  constructor
  · intro h
    split at h
    · omega
    · cases h
  · intro h
    rw [if_pos (by omega)]

theorem tables_in_range :
    (∀ i < 24, 1 ≤ lane keccakf_rotc i ∧ lane keccakf_rotc i ≤ 63) ∧
    (∀ i < 24, 1 ≤ lane keccakf_piln i ∧ lane keccakf_piln i ≤ 24) := by
  decide

theorem rhoPi_step_checked (st : List Nat × Nat) (hs : st.1.length = 25) (i : Nat)
    (hi : i < 24) :
    keccakf_rhoPi_step_checked st i = some (keccakf_rhoPi_step st i) := by
  obtain ⟨hr, hp⟩ := tables_in_range
  have hj := (hp i hi).2
  unfold keccakf_rhoPi_step_checked keccakf_rhoPi_step
  rw [readChecked_of_lt keccakf_piln i (by simpa [keccakf_piln] using hi)]
  simp only [Option.bind_eq_bind, Option.some_bind, Option.pure_def]
  rw [readChecked_of_lt st.1 _ (by omega),
    readChecked_of_lt keccakf_rotc i (by simpa [keccakf_rotc] using hi)]
  simp only [Option.some_bind]
  rw [(rotl_checked_iff st.2 _).mpr (hr i hi)]
  simp only [Option.some_bind]
  rw [writeChecked_of_lt _ _ _ (by omega)]
  rfl

theorem rhoPi_step_length (st : List Nat × Nat) (i : Nat) :
    (keccakf_rhoPi_step st i).1.length = st.1.length := by
  unfold keccakf_rhoPi_step
  simp only [List.length_set]

theorem foldlM_rhoPi_checked (iters : List Nat) (h : ∀ i ∈ iters, i < 24)
    (st : List Nat × Nat) (hs : st.1.length = 25) :
    iters.foldlM keccakf_rhoPi_step_checked st = some (iters.foldl keccakf_rhoPi_step st) := by
  induction iters generalizing st with
  | nil => rfl
  | cons i iters ih =>
    rw [List.foldlM_cons, rhoPi_step_checked st hs i (h i (List.mem_cons_self _ _)),
      List.foldl_cons]
    simp only [Option.bind_eq_bind, Option.some_bind]
    exact ih (fun k hk => h k (List.mem_cons_of_mem _ hk)) _
      (by rw [rhoPi_step_length]; exact hs)

theorem rhoPi_checked (s : List Nat) (hs : s.length = 25) :
    keccakf_rhoPi_checked s = some (keccakf_rhoPi s) := by
  unfold keccakf_rhoPi_checked keccakf_rhoPi
  rw [readChecked_of_lt s 1 (by omega)]
  simp only [Option.bind_eq_bind, Option.some_bind, Option.pure_def]
  rw [foldlM_rhoPi_checked _ (fun i hi => List.mem_range.mp hi) _ hs]
  rfl

theorem theta_checked (s : List Nat) (hs : s.length = 25) :
    keccakf_theta_checked s = some (keccakf_theta s) := by
  obtain ⟨a0, a1, a2, a3, a4, a5, a6, a7, a8, a9, a10, a11, a12, a13, a14, a15, a16, a17, a18,
    a19, a20, a21, a22, a23, a24, rfl⟩ := eq_of_length_25 s hs
  exact theta_checked_explicit _ _ _ _ _ _ _ _ _ _ _ _ _ _ _ _ _ _ _ _ _ _ _ _ _

theorem keccakf_chi_eq_rows (s : List Nat) :
    keccakf_chi s = [0, 5, 10, 15, 20].foldl keccakf_chi_row s := rfl

theorem chi_row_checked (s : List Nat) (hs : s.length = 25) (j : Nat)
    (hj : j ∈ [0, 5, 10, 15, 20]) :
    keccakf_chi_row_checked s j = some (keccakf_chi_row s j) ∧
    (keccakf_chi_row s j).length = 25 := by
  obtain ⟨a0, a1, a2, a3, a4, a5, a6, a7, a8, a9, a10, a11, a12, a13, a14, a15, a16, a17, a18,
    a19, a20, a21, a22, a23, a24, rfl⟩ := eq_of_length_25 s hs
  simp only [List.mem_cons, List.mem_singleton, List.not_mem_nil, or_false] at hj
  rcases hj with rfl | rfl | rfl | rfl | rfl <;>
    simp only [keccakf_chi_row_checked, keccakf_chi_row, range_5, List.foldlM_cons,
      List.foldlM_nil, List.foldl_cons, List.foldl_nil, List.map_cons, List.map_nil, lane,
      List.getD_cons_succ, List.getD_cons_zero, readChecked,
      writeChecked, List.getElem?_cons_succ, List.getElem?_cons_zero,
      List.set_cons_succ, List.set_cons_zero, Nat.reduceAdd, Nat.reduceMod, Nat.reduceMul,
      Nat.reduceSub, Nat.reduceLT, List.length_cons, List.length_nil, List.replicate,
      Option.bind_eq_bind, Option.some_bind, Option.pure_def, if_true, and_self, bind_pure,
      Nat.zero_add, Nat.lt_add_one, Nat.zero_lt_succ]

theorem foldlM_chi_checked (rows : List Nat) (h : ∀ j ∈ rows, j ∈ [0, 5, 10, 15, 20])
    (s : List Nat) (hs : s.length = 25) :
    rows.foldlM keccakf_chi_row_checked s = some (rows.foldl keccakf_chi_row s) := by
  induction rows generalizing s with
  | nil => rfl
  | cons j rows ih =>
    obtain ⟨e, hl⟩ := chi_row_checked s hs j (h j (List.mem_cons_self _ _))
    rw [List.foldlM_cons, e, List.foldl_cons]
    simp only [Option.bind_eq_bind, Option.some_bind]
    exact ih (fun k hk => h k (List.mem_cons_of_mem _ hk)) _ hl

theorem chi_checked (s : List Nat) (hs : s.length = 25) :
    keccakf_chi_checked s = some (keccakf_chi s) := by
  rw [keccakf_chi_eq_rows]
  exact foldlM_chi_checked _ (fun j hj => hj) s hs

theorem iota_checked (round : Nat) (hr : round < 24) (s : List Nat) (hs : s.length = 25) :
    keccakf_iota_checked round s = some (keccakf_iota round s) := by
  unfold keccakf_iota_checked keccakf_iota
  rw [readChecked_of_lt s 0 (by omega),
    readChecked_of_lt keccakf_rndc round (by simpa [keccakf_rndc] using hr)]
  simp only [Option.bind_eq_bind, Option.some_bind]
  rw [writeChecked_of_lt _ _ _ (by omega)]

theorem round_checked (s : List Nat) (hs : s.length = 25) (round : Nat) (hr : round < 24) :
    keccakf_round_checked s round = some (keccakf_round s round) := by
  unfold keccakf_round_checked keccakf_round
  rw [theta_checked s hs]
  simp only [Option.bind_eq_bind, Option.some_bind]
  rw [rhoPi_checked _ (theta_length s hs)]
  simp only [Option.some_bind]
  rw [chi_checked _ (rhoPi_length _ (theta_length s hs))]
  simp only [Option.some_bind]
  exact iota_checked round hr _ (chi_length _ (rhoPi_length _ (theta_length s hs)))

theorem foldlM_round_checked (rounds : List Nat) (h : ∀ r ∈ rounds, r < 24) (s : List Nat)
    (hs : s.length = 25) :
    rounds.foldlM keccakf_round_checked s = some (rounds.foldl keccakf_round s) := by
  induction rounds generalizing s with
  | nil => rfl
  | cons r rounds ih =>
    rw [List.foldlM_cons, round_checked s hs r (h r (List.mem_cons_self _ _)), List.foldl_cons]
    simp only [Option.bind_eq_bind, Option.some_bind]
    exact ih (fun k hk => h k (List.mem_cons_of_mem _ hk)) _ (keccakf_round_length s hs r)

theorem keccakf_checked_eq (s : List Nat) (hs : s.length = 25) :
    keccakf_checked s = some (keccakf s) := by
  unfold keccakf_checked keccakf KECCAK_ROUNDS
  exact foldlM_round_checked _ (fun r hr => List.mem_range.mp hr) s hs

theorem rotl_checked_none_iff (x y : Nat) :
    SHA3_ROTL64_checked x y = none ↔ y = 0 ∨ 64 ≤ y := by
  unfold SHA3_ROTL64_checked
  constructor
  · intro h
    split at h
    · cases h
    · omega
  · intro h
    rw [if_neg (by omega)]

theorem readChecked_isSome (a : List Nat) (i : Nat) :
    (readChecked a i).isSome ↔ i < a.length := by
  unfold readChecked
  by_cases h : i < a.length
  · simp [List.getElem?_eq_getElem h, h]
  · simp [List.getElem?_eq_none (Nat.le_of_not_lt h), h]

theorem writeChecked_isSome (a : List Nat) (i v : Nat) :
    (writeChecked a i v).isSome ↔ i < a.length := by
  unfold writeChecked
  by_cases h : i < a.length
  · simp [h]
  · simp [h]

/-- C18: every rotation performed by `keccakf` is well defined. Running `keccakf` on a state
of 25 lanes with every rotation and every array access checked never fails and gives the
result of `keccakf`; so do its Theta and Rho Pi steps and each of the 24 iterations of the
Rho Pi loop, while a 25th iteration would read outside the tables. The checked rotation
succeeds exactly for amounts in `[1, 63]`, where neither shift count `n` nor `64 - n` is 0 or 64;
the amounts passed are the constant 1 in Theta and the entries `keccakf_rotc[i]`, `i` in
`0..23`, all in `[1, 63]`; and every index `keccakf_piln[i]` lies in `1..24`, inside the 25-lane
state. -/
theorem rotations_well_defined (s : List Nat) (hs : s.length = 25) (x y : Nat) :
    keccakf_checked s = some (keccakf s) ∧
    keccakf_theta_checked s = some (keccakf_theta s) ∧
    keccakf_rhoPi_checked s = some (keccakf_rhoPi s) ∧
    (∀ i < 24, ∀ t, keccakf_rhoPi_step_checked (s, t) i = some (keccakf_rhoPi_step (s, t) i)) ∧
    (∀ t, keccakf_rhoPi_step_checked (s, t) 24 = none) ∧
    (SHA3_ROTL64_checked x y = some (SHA3_ROTL64 x y) ↔ 1 ≤ y ∧ y ≤ 63) ∧
    (SHA3_ROTL64_checked x y = none ↔ y = 0 ∨ 64 ≤ y) ∧
    (1 ≤ y ∧ y ≤ 63 → 1 ≤ 8 * 8 - y ∧ 8 * 8 - y ≤ 63) ∧
    (∀ i, (readChecked s i).isSome ↔ i < SHA3_KECCAK_SPONGE_WORDS) ∧
    (∀ i v, (writeChecked s i v).isSome ↔ i < SHA3_KECCAK_SPONGE_WORDS) ∧
    (∀ i < 24, 1 ≤ lane keccakf_rotc i ∧ lane keccakf_rotc i ≤ 63 ∧
      1 ≤ 8 * 8 - lane keccakf_rotc i ∧ 8 * 8 - lane keccakf_rotc i ≤ 63) ∧
    (∀ i < 24, 1 ≤ lane keccakf_piln i ∧ lane keccakf_piln i ≤ 24 ∧
      lane keccakf_piln i < SHA3_KECCAK_SPONGE_WORDS) ∧
    keccakf_rotc.length = 24 ∧ keccakf_piln.length = 24 := by
  refine ⟨keccakf_checked_eq s hs, theta_checked s hs, rhoPi_checked s hs,
    fun i hi t => rhoPi_step_checked (s, t) hs i hi, fun t => rfl, rotl_checked_iff x y,
    rotl_checked_none_iff x y, fun h => by omega, ?_, ?_, by decide, by decide, rfl, rfl⟩
  · intro i
    rw [readChecked_isSome, hs]
    rfl
  · intro i v
    rw [writeChecked_isSome, hs]
    rfl

/-- Witness for C18: the probe state and a rotation by 1. -/
theorem rotations_well_defined_witness :
    probeState.length = 25 ∧
    keccakf_checked probeState = some (keccakf probeState) ∧
    keccakf_theta_checked probeState = some (keccakf_theta probeState) ∧
    keccakf_rhoPi_checked probeState = some (keccakf_rhoPi probeState) ∧
    (SHA3_ROTL64_checked 5 1 = some (SHA3_ROTL64 5 1) ↔ 1 ≤ 1 ∧ 1 ≤ 63) :=
  ⟨by decide, (rotations_well_defined probeState (by decide) 5 1).1,
    (rotations_well_defined probeState (by decide) 5 1).2.1,
    (rotations_well_defined probeState (by decide) 5 1).2.2.1,
    (rotations_well_defined probeState (by decide) 5 1).2.2.2.2.2.1⟩

end Keccak256
